import Mathlib

/-!
# Verification of the `tsasm` assembler core

A shallow embedding, in Lean 4, of the parts of the `tsasm` pure-python
assembler relevant to the specified claims: the numeric/argument parsers and
key data structures (`tsasm/data.py`), the shared code generators
(`tsasm/codegen/common.py`), the IBM PALM back end
(`tsasm/codegen/_ibmpalm.py`), and the multi-pass assembly driver
(`tsasm/main.py`).

Conventions of the embedding:
* Python `str` values are modelled as `List Char`; generated hex data is kept
  as Lean `String` (the source only appends and measures it).
* Python `float` crement values are modelled as `Rat`; the source only ever
  produces exact multiples of 0.5, which binary floats represent exactly.
* Python exceptions are modelled with `Except Exc`, where `Exc.value`
  corresponds to `ValueError` (caught and reported as a user error by the
  driver) and `Exc.other` to every other exception type (reported as an
  internal error by the driver).
* Functions stored in Python objects (the architecture's `encode_str`) are
  carried as plain function fields; the code-generator table is a fixed
  top-level table because the modelled runs never switch architecture.
-/

set_option maxHeartbeats 1000000
set_option maxRecDepth 10000

namespace Tsasm

/-- Shorthand: the character list of a string literal. -/
def cs (s : String) : List Char := s.data

/-! ## Python string primitives -/

/-- The whitespace characters recognised by Python's `str.strip`. -/
def isSpaceChar (c : Char) : Bool :=
  c = ' ' || c = '\t' || c = '\n' || c = '\r' || c = '\x0b' || c = '\x0c'

/-- Remove leading whitespace (half of Python `str.strip`). -/
def trimLeft : List Char → List Char
  | [] => []
  | c :: rest => if isSpaceChar c then trimLeft rest else c :: rest

/-- Python `str.strip()`: drop whitespace at both ends. -/
def pyStrip (t : List Char) : List Char :=
  ((trimLeft ((trimLeft t).reverse)).reverse)

/-- Python `str.lower()` restricted to ASCII (all inputs of interest are
ASCII; `Char.toLower` agrees with Python there). -/
def pyLower (t : List Char) : List Char := t.map Char.toLower

/-- Python `str.casefold()` agrees with `str.lower()` on ASCII input. -/
def pyCasefold (t : List Char) : List Char := pyLower t

/-! ## Hex formatting (Python `'{:X}'` / `'{:02X}'` / `'{:04X}'`) -/

/-- `'{:X}'.format` for a natural number: uppercase hex, no padding. -/
def fmtX (n : Nat) : String := ⟨(Nat.toDigits 16 n).map Char.toUpper⟩

/-- Pad a string on the left with `'0'` to a minimum width. -/
def padLeft0 (w : Nat) (s : String) : String :=
  if w ≤ s.length then s else ⟨List.replicate (w - s.length) '0'⟩ ++ s

/-- `'{:0wX}'.format` for a natural number. -/
def fmt0X (w : Nat) (n : Nat) : String := padLeft0 w (fmtX n)

/-- `'{:0wX}'.format` for an integer (the negative case mirrors Python's
sign-then-digits rendering; it is never reached by the generators, whose
range checks precede formatting). -/
def fmt0Xi (w : Nat) (i : Int) : String :=
  if 0 ≤ i then fmt0X w i.toNat else "-" ++ fmt0X (w - 1) i.natAbs

/-- `'{:X}'.format` of a single nybble value as one character. -/
def fmtX1 (i : Int) : String := fmtX i.toNat

/-! ## Python `int(text, base=0)` -/

def isBinDigit (c : Char) : Bool := c = '0' || c = '1'

def isOctDigit (c : Char) : Bool := '0' ≤ c && c ≤ '7'

def isHexDigitChar (c : Char) : Bool :=
  c.isDigit || ('a' ≤ c && c ≤ 'f') || ('A' ≤ c && c ≤ 'F')

def isDigitIn (base : Nat) (c : Char) : Bool :=
  if base = 2 then isBinDigit c
  else if base = 8 then isOctDigit c
  else if base = 16 then isHexDigitChar c
  else c.isDigit

def digitVal (c : Char) : Nat :=
  if c.isDigit then c.toNat - 48
  else if 'a' ≤ c && c ≤ 'f' then c.toNat - 87
  else if 'A' ≤ c && c ≤ 'F' then c.toNat - 55
  else 0

/-- Digit tail of a Python integer literal: `("_"? digit)*`, with single
underscores allowed only between digits. -/
def pyDigitsTail (base : Nat) (acc : Nat) : List Char → Option Nat
  | [] => some acc
  | c :: rest =>
    if c = '_' then
      match rest with
      | c2 :: rest2 =>
        if isDigitIn base c2 then
          pyDigitsTail base (acc * base + digitVal c2) rest2
        else none
      | [] => none
    else if isDigitIn base c then
      pyDigitsTail base (acc * base + digitVal c) rest
    else none

/-- Digit group of a Python integer literal: `("_"? digit)+` when `allowU`
(the form after a base prefix), else `digit ("_"? digit)*`. -/
def pyDigitsFirst (base : Nat) (allowU : Bool) : List Char → Option Nat
  | [] => none
  | c :: rest =>
    if c = '_' then
      match rest with
      | c2 :: rest2 =>
        if allowU && isDigitIn base c2 then
          pyDigitsTail base (digitVal c2) rest2
        else none
      | [] => none
    else if isDigitIn base c then pyDigitsTail base (digitVal c) rest
    else none

/-- After a leading `'0'`: Python only accepts further zeros (`("_"? "0")*`)
for an unprefixed literal (leading zeros on a nonzero decimal are an error). -/
def allZeros : List Char → Bool
  | [] => true
  | c :: rest =>
    if c = '_' then
      match rest with
      | c2 :: rest2 => if c2 = '0' then allZeros rest2 else false
      | [] => false
    else if c = '0' then allZeros rest
    else false

/-- Magnitude part of Python `int(text, base=0)` (no sign, no whitespace). -/
def pyIntMag : List Char → Option Nat
  | [] => none
  | c :: rest =>
    if c = '0' then
      match rest with
      | [] => some 0
      | x :: rest2 =>
        if x = 'x' || x = 'X' then pyDigitsFirst 16 true rest2
        else if x = 'o' || x = 'O' then pyDigitsFirst 8 true rest2
        else if x = 'b' || x = 'B' then pyDigitsFirst 2 true rest2
        else if allZeros (x :: rest2) then some 0
        else none
    else pyDigitsFirst 10 false (c :: rest)

/-- Python `int(text, base=0)`: optional surrounding whitespace, an optional
sign, then a prefixed or decimal magnitude. -/
def pyIntBase0 (l : List Char) : Option Int :=
  match pyStrip l with
  | '+' :: rest => (pyIntMag rest).map Int.ofNat
  | '-' :: rest => (pyIntMag rest).map (fun n => -(Int.ofNat n))
  | rest => (pyIntMag rest).map Int.ofNat

/-! ## Exceptions -/

/-- Python exceptions as seen by the driver: `value` is `ValueError` (user
error), `other` is any other exception class (internal error). -/
inductive Exc where
  | value (msg : String)
  | other (msg : String)
deriving DecidableEq, Repr

/-! ## `tsasm.data`: argument types, `Arg`, `Op`, `Context` -/

/-- `tsasm.data.Type`: an `enum.Flag` with five base kinds plus `UNPARSED`.
Flag combination is modelled by the per-flag booleans. -/
structure Ty where
  number : Bool := false
  address : Bool := false
  register : Bool := false
  derefAddress : Bool := false
  derefRegister : Bool := false
  unparsed : Bool := false
deriving DecidableEq, Repr

namespace Ty

def NUMBER : Ty := { number := true }
def ADDRESS : Ty := { address := true }
def REGISTER : Ty := { register := true }
def DEREF_ADDRESS : Ty := { derefAddress := true }
def DEREF_REGISTER : Ty := { derefRegister := true }
def UNPARSED : Ty := { unparsed := true }

/-- Bitwise `|` on flag sets. -/
def union (a b : Ty) : Ty :=
  ⟨a.number || b.number, a.address || b.address, a.register || b.register,
   a.derefAddress || b.derefAddress, a.derefRegister || b.derefRegister,
   a.unparsed || b.unparsed⟩

/-- Bitwise `&` on flag sets. -/
def inter (a b : Ty) : Ty :=
  ⟨a.number && b.number, a.address && b.address, a.register && b.register,
   a.derefAddress && b.derefAddress, a.derefRegister && b.derefRegister,
   a.unparsed && b.unparsed⟩

/-- Python truthiness of a flag value (the zero flag is falsy). -/
def isTruthy (a : Ty) : Bool :=
  a.number || a.address || a.register || a.derefAddress || a.derefRegister ||
    a.unparsed

/-- Truthiness of `a & b`, the idiom used for "kind is accepted". -/
def overlaps (a b : Ty) : Bool := (inter a b).isTruthy

end Ty

/-- `tsasm.data.Arg`.  The `register_prefix` field of the source is named
`regPrefixText` here. -/
structure Arg where
  stripped : List Char
  argtype : Ty := Ty.UNPARSED
  integer : Int := 0
  regPrefixText : List Char := []
  precrement : Rat := 0
  postcrement : Rat := 0
deriving DecidableEq, Repr

/-- The two `asmpass_*` driver callbacks that the source stores in `Op.todo`
(as function references); no other value is ever stored there. -/
inductive Todo where
  | lexer
  | codegen
deriving DecidableEq, Repr

/-- `tsasm.data.Op`. -/
structure Op where
  lineno : Nat
  line : List Char
  tokens : List (List Char) := []
  labels : List (List Char) := []
  opcode : Option (List Char) := none
  args : List Arg := []
  hex : Option String := none
  todo : Option Todo := none
deriving Repr, DecidableEq

/-- `tsasm.data.Context`.  The `arch`/`codegen` fields are omitted: the
embedding models single-architecture (`ibm5100`) runs, with the code
generator table fixed at top level.  `enc` is `encode_str`. -/
structure Context where
  labels : List (List Char × Int) := []
  pos : Option Int := some 0
  enc : List Char → Except Exc (List Nat)

/-- Dictionary lookup in the label table. -/
def lookupLabel (labels : List (List Char × Int)) (k : List Char) : Option Int :=
  (labels.find? (fun p => p.1 = k)).map (·.2)

/-- Dictionary store in the label table (`labels[k] = v`). -/
def setLabel (labels : List (List Char × Int)) (k : List Char) (v : Int) :
    List (List Char × Int) :=
  match labels with
  | [] => [(k, v)]
  | (k', v') :: rest =>
    if k' = k then (k', v) :: rest else (k', v') :: setLabel rest k v

/-- `Context.advance`: move `pos` forward by half the hex string's length. -/
def Context.advance (ctx : Context) (hexdata : String) : Context :=
  match ctx.pos with
  | none => ctx
  | some p => { ctx with pos := some (p + hexdata.length / 2) }

/-- `Context.advance_by_bytes`. -/
def Context.advance_by_bytes (ctx : Context) (n : Int) : Context :=
  match ctx.pos with
  | none => ctx
  | some p => { ctx with pos := some (p + n) }

/-- `Context.bind_label`. -/
def Context.bind_label (ctx : Context) (label : List Char) : Context :=
  match ctx.pos with
  | none => ctx
  | some p => { ctx with labels := setLabel ctx.labels label p }

/-- `tsasm.data.ParseOptions`.  The source keeps `register_prefix` as a set
and sorts it by decreasing length inside `_parse_register`; the embedding
stores that sorted list directly (written `regPrefixes`).  Every instance in
the repository has at most one element. -/
structure ParseOptions where
  regPrefixes : List (List Char)
  fractional_crements : Bool

/-- `tsasm.data.LABEL_RE` is `[_a-zA-Z][\w_]*`.  `\w` is restricted to ASCII
here (all inputs of interest are ASCII). -/
def isWordChar (c : Char) : Bool := c.isAlphanum || c = '_'

def isWordStart (c : Char) : Bool := c.isAlpha || c = '_'

/-- `LABEL_RE.fullmatch(t)` is truthy. -/
def labelFullmatch : List Char → Bool
  | [] => false
  | c :: rest => isWordStart c && rest.all isWordChar

/-- `LABEL_RE.match(t)` is truthy: an *anchored prefix* match, which only
requires the first character class to be satisfied. -/
def labelMatch : List Char → Bool
  | [] => false
  | c :: _ => isWordStart c

/-! ## `tsasm.data.parse_string` and `parse_integer` -/

/-- The generator `unescape` of `parse_string`: delete every odd-numbered
backslash (each backslash makes the following character literal). -/
def unescape : List Char → List Char
  | [] => []
  | '\\' :: rest =>
    match rest with
    | c :: rest' => c :: unescape rest'
    | [] => []
  | c :: rest => c :: unescape rest

/-- `tsasm.data.parse_string`. -/
def parse_string (_options : ParseOptions) (ctx : Context) (t : List Char) :
    Except Exc (List Nat) :=
  if t.length < 2 || t.head? ≠ t.getLast? then
    .error (.value "Could not parse as a delimited string.")
  else
    ctx.enc (unescape (t.drop 1).dropLast)

/-- The postfix-to-Python-prefix rewriting step of `parse_integer`. -/
def applySuffix (t : List Char) : List Char :=
  match t.getLast? with
  | some 'h' => cs "0x" ++ t.dropLast
  | some 'b' => cs "0b" ++ t.dropLast
  | some 'o' => cs "0o" ++ t.dropLast
  | some 'q' => cs "0o" ++ t.dropLast
  | some 'd' => t.dropLast
  | _ => t

/-- The prefix-to-postfix rewriting step of `parse_integer`
(`if t.startswith('$'): t = t[1:] + 'h'`). -/
def dollarToSuffix (t : List Char) : List Char :=
  match t with
  | '$' :: rest => rest ++ ['h']
  | _ => t

/-- The unary-sign split of `parse_integer`. -/
def splitSign (t : List Char) : List Char × List Char :=
  match t with
  | '+' :: rest => (['+'], rest)
  | '-' :: rest => (['-'], rest)
  | _ => ([], t)

/-- `tsasm.data.parse_integer`. -/
def parse_integer (options : ParseOptions) (ctx : Context) :
    List Char → Except Exc Int
  | [] => .error (.value "Attempted to parse the empty string as an integer")
  | c :: rest =>
    if c = '"' || c = '\'' then
      match parse_string options ctx (c :: rest) with
      | .error e => .error e
      | .ok b =>
        match b with
        | [v] => .ok (Int.ofNat v)
        | _ =>
          .error (.value
            "Only one-character strings may be used as integer literals")
    else
      let t2 := dollarToSuffix (pyStrip (pyLower (c :: rest)))
      if t2 = [] then .error (.other "IndexError")
      else
        let sr := splitSign t2
        match pyIntBase0 (sr.1 ++ applySuffix sr.2) with
        | some v => .ok v
        | none => .error (.value ("Malformed numeric text " ++ ⟨c :: rest⟩))

/-! ## `tsasm.data`: the four argument parsers and the dispatcher -/

/-- `tsasm.data._parse_number`. -/
def _parse_number (options : ParseOptions) (ctx : Context) (t : List Char) :
    Except Exc Arg :=
  if t = [] then
    .error (.value "Attempted to parse the empty string as a number")
  else
    match pyStrip t with
    | [] => .error (.other "IndexError")
    | c :: tonumber =>
      if c ≠ '#' then .error (.value ("Malformed numerical value " ++ ⟨t⟩))
      else
        match parse_integer options ctx tonumber with
        | .ok v =>
          .ok { stripped := tonumber, argtype := Ty.NUMBER, integer := v }
        | .error (.value _) =>
          if ¬ labelFullmatch tonumber then
            .error (.value ("Malformed numerical value " ++ ⟨t⟩))
          else
            match lookupLabel ctx.labels tonumber with
            | some v =>
              .ok { stripped := c :: tonumber, argtype := Ty.NUMBER,
                    integer := v }
            | none =>
              .ok { stripped := c :: tonumber,
                    argtype := Ty.NUMBER.union Ty.UNPARSED }
        | .error e => .error e

/-- `tsasm.data._parse_address`. -/
def _parse_address (options : ParseOptions) (ctx : Context) (t : List Char) :
    Except Exc Arg :=
  if t = [] then
    .error (.value "Attempted to parse the empty string as an address")
  else
    let t := pyStrip t
    match parse_integer options ctx t with
    | .ok v => .ok { stripped := t, argtype := Ty.ADDRESS, integer := v }
    | .error (.value _) =>
      if ¬ labelFullmatch t then
        .error (.value ("Malformed address " ++ ⟨t⟩))
      else
        match lookupLabel ctx.labels t with
        | some v => .ok { stripped := t, argtype := Ty.ADDRESS, integer := v }
        | none =>
          .ok { stripped := t, argtype := Ty.ADDRESS.union Ty.UNPARSED }
    | .error e => .error e

/-- `tsasm.data._parse_register`. -/
def _parse_register (options : ParseOptions) (ctx : Context) (t : List Char) :
    Except Exc Arg :=
  if t = [] then
    .error (.value
      "Attempted to parse the empty string as a register specification")
  else
    let t := pyStrip (pyLower t)
    match options.regPrefixes.find? (fun p => p.isPrefixOf t) with
    | none =>
      .error (.value ("Register specification has an unknown prefix: " ++ ⟨t⟩))
    | some p =>
      let regnumText := t.drop p.length
      if regnumText = [] then
        .ok { stripped := t, argtype := Ty.REGISTER, integer := -1,
              regPrefixText := p }
      else
        match parse_integer options ctx regnumText with
        | .ok v =>
          .ok { stripped := t, argtype := Ty.REGISTER, integer := v,
                regPrefixText := p }
        | .error e => .error e

/-- Crement sigil values (`tsasm.data._parse_deref`'s `crements` dict). -/
def cremVal (options : ParseOptions) (c : Char) : Option Rat :=
  if c = '-' then some (-1)
  else if c = '+' then some 1
  else if options.fractional_crements && c = '~' then some (-(1 / 2 : Rat))
  else if options.fractional_crements && c = '\'' then some (1 / 2 : Rat)
  else none

/-- The precrement-counting loop of `_parse_deref`.  The empty-at-entry case
is Python's `t[0]` `IndexError`; emptiness *after* consuming a sigil is the
in-loop `complain()`. -/
def preLoop (options : ParseOptions) (pre : Rat) :
    List Char → Except Exc (Rat × List Char)
  | [] => .error (.other "IndexError")
  | c :: rest =>
    match cremVal options c with
    | some v =>
      if rest = [] then .error (.value "Malformed dereference")
      else preLoop options (pre + v) rest
    | none => .ok (pre, c :: rest)

/-- `t.split(')')` destructured into exactly two parts: succeeds iff `t`
contains exactly one `')'` (otherwise Python's tuple unpacking raises
`ValueError`, which `_parse_deref` turns into `complain()`). -/
def splitOnceParen (l : List Char) : Option (List Char × List Char) :=
  if l.count ')' = 1 then
    some (l.takeWhile (· ≠ ')'), (l.dropWhile (· ≠ ')')).drop 1)
  else none

/-- The postcrement-counting loop of `_parse_deref` (only `+`/`-`, with the
values always present in the crement dict). -/
def postLoop (post : Rat) : List Char → Rat × List Char
  | [] => (post, [])
  | c :: rest =>
    if c = '+' then postLoop (post + 1) rest
    else if c = '-' then postLoop (post - 1) rest
    else (post, c :: rest)

/-- The type of the parser callbacks handed to `_attempt_several_parses`. -/
def ParserFn : Type :=
  ParseOptions → Context → List Char → Except Exc Arg

/-- Worker of `_attempt_several_parses`: try parsers in order, return the
first success, collect `ValueError`s, and let any other exception escape. -/
def attemptGo (options : ParseOptions) (ctx : Context) (t : List Char) :
    List (String × ParserFn) → List (String × String) → Except Exc Arg
  | [], errors =>
    .error (.value ("Failed to parse " ++ ⟨t⟩ ++ ":\n" ++
      String.intercalate "\n"
        (errors.map (fun p => "  " ++ p.1 ++ ": " ++ p.2))))
  | (d, p) :: rest, errors =>
    match p options ctx t with
    | .ok a => .ok a
    | .error (.value m) => attemptGo options ctx t rest (errors ++ [(d, m)])
    | .error e => .error e

/-- `tsasm.data._attempt_several_parses`. -/
def _attempt_several_parses (parsers : List (String × ParserFn))
    (options : ParseOptions) (ctx : Context) (t : List Char) :
    Except Exc Arg :=
  attemptGo options ctx t parsers []

/-- `tsasm.data._parse_deref`. -/
def _parse_deref (options : ParseOptions) (ctx : Context) (t : List Char) :
    Except Exc Arg :=
  if t = [] then
    .error (.value "Attempted to parse the empty string as a dereference")
  else
    let stripped := pyStrip t
    match preLoop options 0 stripped with
    | .error e => .error e
    | .ok (precrement, t) =>
      match t with
      | '(' :: t =>
        match splitOnceParen t with
        | none => .error (.value ("Malformed dereference " ++ ⟨stripped⟩))
        | some (toderefText, t) =>
          match _attempt_several_parses
              [("  as a register", _parse_register),
               ("  as an address", _parse_address)] options ctx toderefText with
          | .error e => .error e
          | .ok toderef =>
            let (postcrement, t) := postLoop 0 t
            if t ≠ [] then
              .error (.value ("Malformed dereference " ++ ⟨stripped⟩))
            else
              let argtype :=
                (if (Ty.inter toderef.argtype Ty.REGISTER).isTruthy then
                  Ty.DEREF_REGISTER
                else Ty.DEREF_ADDRESS).union
                  (Ty.inter toderef.argtype Ty.UNPARSED)
              .ok { argtype := argtype, stripped := stripped,
                    integer := toderef.integer, precrement := precrement,
                    postcrement := postcrement }
      | _ => .error (.value ("Malformed dereference " ++ ⟨stripped⟩))

/-- The ordered parser list used by `Arg.parse`. -/
def fourParsers : List (String × ParserFn) :=
  [("as a dereference", _parse_deref),
   ("   as a register", _parse_register),
   ("     as a number", _parse_number),
   ("   as an address", _parse_address)]

/-- The dispatch behaviour that the `_attempt_several_parses` docstring
describes: try the parsers in order, return the first success whose argtype
does not include `UNPARSED`, otherwise fall back to the most recent
`UNPARSED` success; when every parser fails with `ValueError`, raise the
combined error listing each classification attempt. -/
def attemptSpecGo (options : ParseOptions) (ctx : Context) (t : List Char) :
    List (String × ParserFn) → List (String × String) → Option Arg →
    Except Exc Arg
  | [], _, some a => .ok a
  | [], errors, none =>
    .error (.value ("Failed to parse " ++ ⟨t⟩ ++ ":\n" ++
      String.intercalate "\n"
        (errors.map (fun p => "  " ++ p.1 ++ ": " ++ p.2))))
  | (d, p) :: rest, errors, acc =>
    match p options ctx t with
    | .ok a =>
      if (Ty.inter a.argtype Ty.UNPARSED).isTruthy then
        attemptSpecGo options ctx t rest errors (some a)
      else .ok a
    | .error (.value m) =>
      attemptSpecGo options ctx t rest (errors ++ [(d, m)]) acc
    | .error e => .error e

/-- The specification-side reading of the argument-classification dispatch
applied to the four parsers. -/
def attemptParsesSpec (options : ParseOptions) (ctx : Context)
    (t : List Char) : Except Exc Arg :=
  attemptSpecGo options ctx t fourParsers [] none

/-- `tsasm.data.Arg.parse`. -/
def Arg.parse (self : Arg) (options : ParseOptions) (ctx : Context) (op : Op) :
    Except Exc Arg :=
  if ¬ (Ty.inter self.argtype Ty.UNPARSED).isTruthy then .ok self
  else
    match _attempt_several_parses fourParsers options ctx self.stripped with
    | .ok a => .ok a
    | .error (.value m) =>
      .error (.value ("While parsing on line " ++ toString op.lineno ++
        ":\n" ++ m))
    | .error e => .error e

/-- `tsasm.data.parse_args_if_able`. -/
def parse_args_if_able (options : ParseOptions) (ctx : Context) (op : Op)
    (argtypes : List Ty) : Except Exc (List Arg) := do
  if op.args.length ≠ argtypes.length then
    .error (.value ("Opcode takes exactly " ++ toString argtypes.length ++
      " arguments"))
  else
    let args ← op.args.mapM (fun a => a.parse options ctx op)
    match (args.zip argtypes).find?
        (fun p => ¬ (Ty.inter p.1.argtype p.2).isTruthy) with
    | some _ => .error (.value "Argument has the wrong type")
    | none => .ok args

/-- `tsasm.data.all_args_parsed`. -/
def all_args_parsed (args : List Arg) : Bool :=
  ¬ args.any (fun a => (Ty.inter a.argtype Ty.UNPARSED).isTruthy)

/-! ## Parse options and encoders used by the repository -/

/-- `tsasm.codegen.common._PARSE_OPTIONS`. -/
def commonOpts : ParseOptions :=
  { regPrefixes := [], fractional_crements := false }

/-- `tsasm.codegen._ibmpalm._PARSE_OPTIONS`. -/
def palmOpts : ParseOptions :=
  { regPrefixes := [cs "r"], fractional_crements := false }

/-- `_PARSE_OPTIONS._replace(fractional_crements=True)` as used by the PALM
`move` and `call` handlers. -/
def palmFracOpts : ParseOptions :=
  { regPrefixes := [cs "r"], fractional_crements := true }

/-- `tsasm.codegen.common.encode_str`: `bytes(data, 'ascii')`, raising
`UnicodeEncodeError` (a `ValueError`) on non-ASCII input. -/
def asciiEncode (l : List Char) : Except Exc (List Nat) :=
  if l.all (fun c => c.toNat < 128) then .ok (l.map (·.toNat))
  else .error (.value "ascii codec cannot encode character")

/-- The initial assembler context (fresh labels, position zero).  The string
encoder is the ASCII one; no modelled program contains a string literal, so
the encoder is never consulted in the verified runs. -/
def ctx0 : Context := { labels := [], pos := some 0, enc := asciiEncode }

/-! ## Code generation framework -/

/-- Warnings routed through `logging.warning`, as structured events. -/
inductive Warning where
  | nopSubstitution (lineno : Nat)
  | replacingCode (addr : Option Int) (oldLineno newLineno : Nat)
  | notWriting (lineno : Nat) (addr pos : Int)
deriving DecidableEq, Repr

/-- A code-generation handler result: updated context and op, plus any
warnings logged during the call. -/
def HRes : Type := Context × Op × List Warning

/-- The handler contract: `(Context, Op) -> (Context, Op)` with Python
exceptions modelled in `Except` and log output made explicit. -/
def Handler : Type := Context → Op → Except Exc HRes

/-- A default `Arg` used to read `args[0]`-style subscripts whose bounds are
guaranteed by a preceding `parse_args_if_able` arity check. -/
def defaultArg : Arg := { stripped := [] }

/-- Closed-range test on integers, used by the argument checkers. -/
def inRange (lo hi v : Int) : Bool := decide (lo ≤ v) && decide (v ≤ hi)

/-! ## `tsasm.codegen.common` -/

/-- `tsasm.codegen.common._codegen_org`. -/
def _codegen_org : Handler := fun ctx op => do
  let args ← parse_args_if_able commonOpts ctx op [Ty.ADDRESS]
  let op := { op with args := args }
  if all_args_parsed args then
    let op := { op with hex := some "", todo := none }
    let ctx := { ctx with pos := some (args.headD defaultArg).integer }
    .ok (ctx, op, [])
  else
    .ok (ctx, op, [])

/-- The error message of the data generator's unknown-position branch. -/
def dataAlignErrMsg : String :=
  "Unresolved labels above this line (or other factors) make it impossible " ++
  "to know how to align this data statement. Consider an ORG statement to " ++
  "make this data's memory location explicit."

/-- `int.to_bytes(size, endianity)` for a value already known non-negative
and in range (big-endian digit extraction; reversed when little-endian). -/
def natToBytes (size : Nat) (little : Bool) (n : Nat) : List Nat :=
  let be := (List.range size).map (fun i => n / 256 ^ (size - 1 - i) % 256)
  if little then be.reverse else be

/-- `val.to_bytes(element_size, endianity).hex().upper()`; out-of-range
values raise `OverflowError` (not a `ValueError`). -/
def toBytesHexUpper (size : Nat) (little : Bool) (v : Int) :
    Except Exc String :=
  if inRange 0 ((256 : Int) ^ size - 1) v then
    .ok (String.join ((natToBytes size little v.toNat).map (fmt0X 2)))
  else .error (.other "OverflowError")

/-- The per-argument loop of `codegen_data`: returns the accumulated hex
parts and the final `all_hex_ok` flag. -/
def dataArgLoop (size : Nat) (little : Bool) (popts : ParseOptions)
    (ctx : Context) : List Arg → Bool → Except Exc (List String × Bool)
  | [], allOk => .ok ([], allOk)
  | arg :: rest, allOk => do
    match arg.stripped.head? with
    | some c =>
      if c = '"' || c = '\'' then do
        let bytes ← parse_string popts ctx arg.stripped
        let parts ← bytes.mapM (fun b => toBytesHexUpper size little b)
        let (tailParts, ok') ← dataArgLoop size little popts ctx rest allOk
        .ok (String.join parts :: tailParts, ok')
      else if labelFullmatch arg.stripped then do
        let allOk := allOk && (lookupLabel ctx.labels arg.stripped).isSome
        let v : Int :=
          if allOk then (lookupLabel ctx.labels arg.stripped).getD 0 else 0
        let part ← toBytesHexUpper size little v
        let (tailParts, ok') ← dataArgLoop size little popts ctx rest allOk
        .ok (part :: tailParts, ok')
      else do
        let v ← parse_integer popts ctx arg.stripped
        let part ← toBytesHexUpper size little v
        let (tailParts, ok') ← dataArgLoop size little popts ctx rest allOk
        .ok (part :: tailParts, ok')
    | none => do
      let v ← parse_integer popts ctx arg.stripped
      let part ← toBytesHexUpper size little v
      let (tailParts, ok') ← dataArgLoop size little popts ctx rest allOk
      .ok (part :: tailParts, ok')

/-- `tsasm.codegen.common._gen_codegen_data` (the returned `codegen_data`
closure, with the generator parameters as leading arguments). -/
def _gen_codegen_data (element_size : Nat) (little_endian : Bool)
    (align : Bool) (popts : ParseOptions := commonOpts) : Handler :=
  fun ctx op => do
    let pad ←
      if align && element_size ≠ 1 then
        match ctx.pos with
        | none => Except.error (Exc.value dataAlignErrMsg)
        | some p =>
          pure (String.join
            (List.replicate (p % (element_size : Int)).toNat "00"))
      else pure ""
    let (parts, all_hex_ok) ←
      dataArgLoop element_size little_endian popts ctx op.args true
    let h := pad ++ String.join parts
    let op := { op with todo := if all_hex_ok then none else op.todo,
                        hex := some h }
    .ok (ctx.advance h, op, [])

/-! ## `tsasm.codegen._ibmpalm`: argument checkers and helpers -/

/-- `_regcheck`. -/
def _regcheck (args : List Arg) : Except Exc Unit :=
  match args.find? (fun a => ¬ inRange 0 15 a.integer) with
  | some a => .error (.value ("Invalid register " ++ ⟨a.stripped⟩))
  | none => .ok ()

/-- `_devcheck`. -/
def _devcheck (args : List Arg) : Except Exc Unit :=
  match args.find? (fun a => ¬ inRange 0 15 a.integer) with
  | some a => .error (.value ("Invalid device address " ++ ⟨a.stripped⟩))
  | none => .ok ()

/-- `_bytecheck`. -/
def _bytecheck (args : List Arg) : Except Exc Unit :=
  match args.find? (fun a => ¬ inRange (-128) 255 a.integer) with
  | some a =>
    .error (.value ("Byte literal " ++ ⟨a.stripped⟩ ++ " not in range -128..255"))
  | none => .ok ()

/-- `_regderefcheck`. -/
def _regderefcheck (arg : Arg) (postcremFrom postcremTo : Rat) :
    Except Exc Unit :=
  if ¬ inRange 0 15 arg.integer then
    .error (.value ("Invalid register in dereference " ++ ⟨arg.stripped⟩))
  else if arg.precrement ≠ 0 then
    .error (.value
      "No IBM PALM instruction supports address pre-(in/de)crementation.")
  else if ¬ (postcremFrom ≤ arg.postcrement ∧ arg.postcrement ≤ postcremTo) then
    .error (.value ("Invalid post-(in|de)crement in " ++ ⟨arg.stripped⟩))
  else .ok ()

/-- `_addrcheck`. -/
def _addrcheck (args : List Arg) : Except Exc Unit :=
  match args.find? (fun a => ¬ inRange 0 65535 a.integer) with
  | some a => .error (.value ("Invalid memory address " ++ ⟨a.stripped⟩))
  | none => .ok ()

/-- `_lowwordaddrcheck`. -/
def _lowwordaddrcheck (args : List Arg) : Except Exc Unit :=
  match args.find? (fun a => a.integer % 2 ≠ 0) with
  | some a =>
    .error (.value ("Low word address " ++ ⟨a.stripped⟩ ++ " is not even"))
  | none =>
    match args.find? (fun a => ¬ inRange 0 510 a.integer) with
    | some a =>
      .error (.value
        ("Low word address " ++ ⟨a.stripped⟩ ++ " is not in range 0..510"))
    | none => .ok ()

/-- `_jmpdestcheck`. -/
def _jmpdestcheck (args : List Arg) : Except Exc Unit := do
  _addrcheck args
  match args.find? (fun a => a.integer % 2 ≠ 0) with
  | some a =>
    .error (.value ("Invalid jump address " ++ ⟨a.stripped⟩ ++
      "; must be 16-bit aligned"))
  | none => .ok ()

/-- `_callregcheck`. -/
def _callregcheck (arg1 arg2 : Arg) : Except Exc Unit := do
  _addrcheck [arg1, arg2]
  if arg1.integer = arg2.integer then
    .error (.value
      "Arguments to subroutine call instructions must use different registers")
  else .ok ()

/-- `_reljmpoffset`, with the known position passed explicitly (the source
asserts `context.pos is not None` and reads it). -/
def _reljmpoffset (pos : Int) (arg : Arg) : Except Exc Int :=
  let trueDisplacement := arg.integer - pos
  if ¬ inRange (-254) 258 trueDisplacement then
    .error (.value ("Invalid relative jump " ++ ⟨arg.stripped⟩ ++
      "; limits are -254..258"))
  else .ok (trueDisplacement - 2)

/-- Python `int()` truncation toward zero, for the exact-float crement sums
(`Int.tdiv` is T-division, matching Python `int()` on exact values). -/
def pyTruncInt (q : Rat) : Int := Int.tdiv q.num (Int.ofNat q.den)

/-- `_postcrement_to_modifier`: tuple indexing `(7,6,5,4,8,0,1,2,3)[i+4]`.
Call sites bound the index inside `0..8` via `_regderefcheck`. -/
def _postcrement_to_modifier (postcrement : Rat) : Int :=
  List.getD [7, 6, 5, 4, 8, 0, 1, 2, 3] (pyTruncInt postcrement + 4).toNat 0

/-! ## `tsasm.codegen._ibmpalm`: code generators -/

/-- `_gen_codegen_onereg`. -/
def _gen_codegen_onereg (nybble_1 nybble_2 : Int) (argpos : Nat) : Handler :=
  fun ctx op => do
    let args ← parse_args_if_able palmOpts ctx op [Ty.REGISTER]
    let op := { op with args := args }
    if all_args_parsed args then do
      _regcheck args
      let r := (args.headD defaultArg).integer
      let h :=
        if argpos = 0 then fmtX1 nybble_1 ++ fmtX1 r ++ "0" ++ fmtX1 nybble_2
        else fmtX1 nybble_1 ++ "0" ++ fmtX1 r ++ fmtX1 nybble_2
      .ok (ctx.advance_by_bytes 2, { op with todo := none, hex := some h }, [])
    else
      .ok (ctx.advance_by_bytes 2, op, [])

/-- `_gen_codegen_reg_to_reg`. -/
def _gen_codegen_reg_to_reg (nybble_1 nybble_2 : Int) : Handler :=
  fun ctx op => do
    let args ← parse_args_if_able palmOpts ctx op [Ty.REGISTER, Ty.REGISTER]
    let op := { op with args := args }
    if all_args_parsed args then do
      _regcheck args
      let a0 := (args.getD 0 defaultArg).integer
      let a1 := (args.getD 1 defaultArg).integer
      let h := fmtX1 nybble_1 ++ fmtX1 a0 ++ fmtX1 a1 ++ fmtX1 nybble_2
      .ok (ctx.advance_by_bytes 2, { op with todo := none, hex := some h }, [])
    else
      .ok (ctx.advance_by_bytes 2, op, [])

/-- `_gen_codegen_dev_to_reg`. -/
def _gen_codegen_dev_to_reg (nybble : Int) : Handler := fun ctx op => do
  let args ← parse_args_if_able palmOpts ctx op [Ty.REGISTER, Ty.ADDRESS]
  let op := { op with args := args }
  if all_args_parsed args then do
    let a0 := args.getD 0 defaultArg
    let a1 := args.getD 1 defaultArg
    _regcheck [a0]
    _devcheck [a1]
    let h := fmtX1 nybble ++ fmtX1 a0.integer ++ fmtX1 a1.integer ++ "F"
    .ok (ctx.advance_by_bytes 2, { op with todo := none, hex := some h }, [])
  else
    .ok (ctx.advance_by_bytes 2, op, [])

/-- `_gen_codegen_immed_to_reg`. -/
def _gen_codegen_immed_to_reg (nybble : Int) : Handler := fun ctx op => do
  let args ← parse_args_if_able palmOpts ctx op [Ty.REGISTER, Ty.NUMBER]
  let op := { op with args := args }
  if all_args_parsed args then do
    let a0 := args.getD 0 defaultArg
    let a1 := args.getD 1 defaultArg
    _regcheck [a0]
    _bytecheck [a1]
    let h := fmtX1 nybble ++ fmtX1 a0.integer ++ fmt0Xi 2 (a1.integer % 256)
    .ok (ctx.advance_by_bytes 2, { op with todo := none, hex := some h }, [])
  else
    .ok (ctx.advance_by_bytes 2, op, [])

/-- `_gen_codegen_add_or_sub`. -/
def _gen_codegen_add_or_sub (add_or_sub : String) : Handler := fun ctx op => do
  let args ← parse_args_if_able palmOpts ctx op
    [Ty.REGISTER, Ty.NUMBER.union Ty.REGISTER]
  let op := { op with args := args }
  if all_args_parsed args then do
    let a0 := args.getD 0 defaultArg
    let a1 := args.getD 1 defaultArg
    _regcheck [a0]
    if (Ty.inter a1.argtype Ty.NUMBER).isTruthy then
      if ¬ inRange 0 256 a1.integer then
        .error (.value ("Literal " ++ ⟨a1.stripped⟩ ++ " not in range 0..256"))
      else if a1.integer = 0 then
        .ok (ctx.advance_by_bytes 2,
             { op with todo := none, hex := some "0004" },
             [.nopSubstitution op.lineno])
      else
        let nyb : Int := if add_or_sub = "add" then 0xA else 0xF
        let h := fmtX1 nyb ++ fmtX1 a0.integer ++
          fmt0Xi 2 ((a1.integer - 1) % 256)
        .ok (ctx.advance_by_bytes 2,
             { op with todo := none, hex := some h }, [])
    else do
      _regcheck [a1]
      let nyb : Int := if add_or_sub = "add" then 8 else 9
      let h := "0" ++ fmtX1 a0.integer ++ fmtX1 a1.integer ++ fmtX1 nyb
      .ok (ctx.advance_by_bytes 2, { op with todo := none, hex := some h }, [])
  else
    .ok (ctx.advance_by_bytes 2, op, [])

/-- `_codegen_ctrl`. -/
def _codegen_ctrl : Handler := fun ctx op => do
  let args ← parse_args_if_able palmOpts ctx op [Ty.ADDRESS, Ty.NUMBER]
  let op := { op with args := args }
  if all_args_parsed args then do
    let a0 := args.getD 0 defaultArg
    let a1 := args.getD 1 defaultArg
    _devcheck [a0]
    _bytecheck [a1]
    let h := "1" ++ fmtX1 a0.integer ++ fmt0Xi 2 (a1.integer % 256)
    .ok (ctx.advance_by_bytes 2, { op with todo := none, hex := some h }, [])
  else
    .ok (ctx.advance_by_bytes 2, op, [])

/-- `_codegen_putb`. -/
def _codegen_putb : Handler := fun ctx op => do
  let args ← parse_args_if_able palmOpts ctx op [Ty.ADDRESS, Ty.DEREF_REGISTER]
  let op := { op with args := args }
  if all_args_parsed args then do
    let a0 := args.getD 0 defaultArg
    let a1 := args.getD 1 defaultArg
    _devcheck [a0]
    _regderefcheck a1 (-4) 4
    let m := _postcrement_to_modifier a1.postcrement
    let h := "4" ++ fmtX1 a0.integer ++ fmtX1 a1.integer ++ fmtX1 m
    .ok (ctx.advance_by_bytes 2, { op with todo := none, hex := some h }, [])
  else
    .ok (ctx.advance_by_bytes 2, op, [])

/-- `_codegen_getb`. -/
def _codegen_getb : Handler := fun ctx op => do
  let args ← parse_args_if_able palmOpts ctx op
    [Ty.REGISTER.union Ty.DEREF_REGISTER, Ty.ADDRESS]
  let op := { op with args := args }
  if all_args_parsed args then do
    let a0 := args.getD 0 defaultArg
    let a1 := args.getD 1 defaultArg
    _devcheck [a1]
    if (Ty.inter a0.argtype Ty.REGISTER).isTruthy then do
      _regcheck [a0]
      let h := "0" ++ fmtX1 a1.integer ++ fmtX1 a0.integer ++ "E"
      .ok (ctx.advance_by_bytes 2, { op with todo := none, hex := some h }, [])
    else do
      _regderefcheck a0 (-4) 4
      let m := _postcrement_to_modifier a0.postcrement
      let h := "E" ++ fmtX1 a1.integer ++ fmtX1 a0.integer ++ fmtX1 m
      .ok (ctx.advance_by_bytes 2, { op with todo := none, hex := some h }, [])
  else
    .ok (ctx.advance_by_bytes 2, op, [])

/-- `_codegen_movb`. -/
def _codegen_movb : Handler := fun ctx op => do
  let args ← parse_args_if_able palmOpts ctx op
    [Ty.REGISTER.union Ty.DEREF_REGISTER, Ty.REGISTER.union Ty.DEREF_REGISTER]
  let op := { op with args := args }
  let a0 := op.args.getD 0 defaultArg
  let a1 := op.args.getD 1 defaultArg
  if a0.argtype = a1.argtype then
    .error (.value ("One MOVB argument should be a register, and the other " ++
      "should be a register dereference"))
  else if all_args_parsed args then do
    let (nybble, argderef, argreg) : Int × Arg × Arg :=
      if (Ty.inter a0.argtype Ty.REGISTER).isTruthy then (6, a1, a0)
      else (7, a0, a1)
    _regcheck [argreg]
    _regderefcheck argderef (-4) 4
    let m := _postcrement_to_modifier argderef.postcrement
    let h := fmtX1 nybble ++ fmtX1 argreg.integer ++ fmtX1 argderef.integer ++
      fmtX1 m
    .ok (ctx.advance_by_bytes 2, { op with todo := none, hex := some h }, [])
  else
    .ok (ctx.advance_by_bytes 2, op, [])

/-- `_codegen_move`. -/
def _codegen_move : Handler := fun ctx op => do
  let args ← parse_args_if_able palmFracOpts ctx op
    [(Ty.ADDRESS.union Ty.REGISTER).union Ty.DEREF_REGISTER,
     (Ty.ADDRESS.union Ty.REGISTER).union Ty.DEREF_REGISTER]
  let op := { op with args := args }
  if all_args_parsed args then do
    let a0 := args.getD 0 defaultArg
    let a1 := args.getD 1 defaultArg
    if ¬ ((Ty.inter a0.argtype Ty.REGISTER).isTruthy ||
          (Ty.inter a1.argtype Ty.REGISTER).isTruthy) then
      .error (.value "At least one argument to MOVE must be a register")
    else if a0.argtype = Ty.REGISTER ∧ a1.argtype = Ty.REGISTER then do
      _regcheck [a0, a1]
      let h := "0" ++ fmtX1 a0.integer ++ fmtX1 a1.integer ++ "4"
      .ok (ctx.advance_by_bytes 2, { op with todo := none, hex := some h }, [])
    else if a0.argtype = Ty.ADDRESS ∨ a1.argtype = Ty.ADDRESS then do
      let (nybble, argaddr, argreg) : Int × Arg × Arg :=
        if (Ty.inter a0.argtype Ty.REGISTER).isTruthy then (2, a1, a0)
        else (3, a0, a1)
      _regcheck [argreg]
      _lowwordaddrcheck [argaddr]
      let h := fmtX1 nybble ++ fmtX1 argreg.integer ++
        fmt0Xi 2 (Int.fdiv argaddr.integer 2)
      .ok (ctx.advance_by_bytes 2, { op with todo := none, hex := some h }, [])
    else do
      let (nybble, argderef, argreg) : Int × Arg × Arg :=
        if (Ty.inter a0.argtype Ty.DEREF_REGISTER).isTruthy then (5, a0, a1)
        else (0xD, a1, a0)
      _regcheck [argreg]
      _regderefcheck argderef (-2) 2
      let m := _postcrement_to_modifier (2 * argderef.postcrement)
      let h := fmtX1 nybble ++ fmtX1 a1.integer ++ fmtX1 a0.integer ++ fmtX1 m
      .ok (ctx.advance_by_bytes 2, { op with todo := none, hex := some h }, [])
  else
    .ok (ctx.advance_by_bytes 2, op, [])

/-- `_codegen_halt`. -/
def _codegen_halt : Handler := fun ctx op => do
  let args ← parse_args_if_able palmOpts ctx op []
  let op := { op with args := args, todo := none, hex := some "0000" }
  .ok (ctx.advance "0000", op, [])

/-- `_codegen_nop`. -/
def _codegen_nop : Handler := fun ctx op => do
  let args ← parse_args_if_able palmOpts ctx op []
  let op := { op with args := args, todo := none, hex := some "0004" }
  .ok (ctx.advance "0004", op, [])

/-- `_codegen_lwi`. -/
def _codegen_lwi : Handler := fun ctx op => do
  let args ← parse_args_if_able palmOpts ctx op [Ty.REGISTER, Ty.NUMBER]
  let op := { op with args := args }
  if all_args_parsed args then do
    let a0 := args.getD 0 defaultArg
    let a1 := args.getD 1 defaultArg
    _regcheck [a0]
    if ¬ inRange (-32767) 65535 a1.integer then
      .error (.value ("Halfword literal " ++ ⟨a1.stripped⟩ ++
        " not in range -32768..65535"))
    else
      let h := "D" ++ fmtX1 a0.integer ++ "01" ++ fmt0Xi 4 (a1.integer % 65536)
      .ok (ctx.advance_by_bytes 4, { op with todo := none, hex := some h }, [])
  else
    .ok (ctx.advance_by_bytes 4, op, [])

/-- `_codegen_bra`. -/
def _codegen_bra : Handler := fun ctx op => do
  let args ← parse_args_if_able palmOpts ctx op [Ty.ADDRESS]
  let op := { op with args := args }
  match ctx.pos with
  | some pos =>
    if all_args_parsed args then do
      let a0 := args.headD defaultArg
      _jmpdestcheck [a0]
      let offset ← _reljmpoffset pos a0
      if offset = 0 then
        .ok (ctx.advance_by_bytes 2,
             { op with todo := none, hex := some "0004" },
             [.nopSubstitution op.lineno])
      else
        let (nyb, v) : Int × Int :=
          if 0 < offset then (0xA, offset - 1) else (0xF, -offset - 1)
        let h := fmtX1 nyb ++ "0" ++ fmt0Xi 2 v
        .ok (ctx.advance_by_bytes 2,
             { op with todo := none, hex := some h }, [])
    else
      .ok (ctx.advance_by_bytes 2, op, [])
  | none =>
    .ok (ctx.advance_by_bytes 2, op, [])

/-- `_codegen_jmp`. -/
def _codegen_jmp : Handler := fun ctx op => do
  let args ← parse_args_if_able palmOpts ctx op
    [(Ty.ADDRESS.union Ty.DEREF_REGISTER).union Ty.DEREF_ADDRESS]
  let op := { op with args := args }
  let a0 := args.headD defaultArg
  if ¬ all_args_parsed args then
    let advance : Int :=
      if (Ty.inter a0.argtype Ty.ADDRESS).isTruthy then 4 else 2
    .ok (ctx.advance_by_bytes advance, op, [])
  else if (Ty.inter a0.argtype Ty.ADDRESS).isTruthy then do
    _jmpdestcheck [a0]
    let h := "D001" ++ fmt0Xi 4 a0.integer
    .ok (ctx.advance h, { op with todo := none, hex := some h }, [])
  else if (Ty.inter a0.argtype Ty.DEREF_REGISTER).isTruthy then do
    _regderefcheck a0 0 0
    let h := "D0" ++ fmtX1 a0.integer ++ "8"
    .ok (ctx.advance h, { op with todo := none, hex := some h }, [])
  else do
    _lowwordaddrcheck [a0]
    let h := "20" ++ fmt0Xi 2 (Int.fdiv a0.integer 2)
    .ok (ctx.advance h, { op with todo := none, hex := some h }, [])

/-- `_codegen_call`. -/
def _codegen_call : Handler := fun ctx op => do
  let args ← parse_args_if_able palmOpts ctx op
    [((Ty.ADDRESS.union Ty.REGISTER).union Ty.DEREF_REGISTER).union
       Ty.DEREF_ADDRESS,
     Ty.REGISTER]
  let op := { op with args := args }
  let a0 := args.getD 0 defaultArg
  let a1 := args.getD 1 defaultArg
  if ¬ all_args_parsed args then
    let advance : Int :=
      if (Ty.inter a0.argtype Ty.ADDRESS).isTruthy then 6 else 4
    .ok (ctx.advance_by_bytes advance, op, [])
  else if (Ty.inter a0.argtype Ty.ADDRESS).isTruthy then do
    _jmpdestcheck [a0]
    _regcheck [a1]
    let h := "0" ++ fmtX1 a1.integer ++ "03D0" ++ fmtX1 a1.integer ++ "1" ++
      fmt0Xi 4 a0.integer
    .ok (ctx.advance h, { op with todo := none, hex := some h }, [])
  else if (Ty.inter a0.argtype Ty.REGISTER).isTruthy then do
    _callregcheck a0 a1
    let h := "0" ++ fmtX1 a1.integer ++ "0300" ++ fmtX1 a0.integer ++ "4"
    .ok (ctx.advance h, { op with todo := none, hex := some h }, [])
  else if (Ty.inter a0.argtype Ty.DEREF_REGISTER).isTruthy then do
    _callregcheck a0 a1
    _regderefcheck a0 (-2) 2
    let m := _postcrement_to_modifier (2 * a0.postcrement)
    let h := "0" ++ fmtX1 a1.integer ++ "03D0" ++ fmtX1 a0.integer ++ fmtX1 m
    .ok (ctx.advance h, { op with todo := none, hex := some h }, [])
  else do
    _regcheck [a1]
    _lowwordaddrcheck [a0]
    if a0.precrement ≠ 0 ∨ a0.postcrement ≠ 0 then
      .error (.value ("No (in/de)crementation is allowed for address " ++
        "dereference arguments to CALL"))
    else
      let h := "0" ++ fmtX1 a1.integer ++ "0320" ++
        fmt0Xi 2 (Int.fdiv a0.integer 2)
      .ok (ctx.advance h, { op with todo := none, hex := some h }, [])

/-- `_codegen_rcall`. -/
def _codegen_rcall : Handler := fun ctx op => do
  let args ← parse_args_if_able palmOpts ctx op [Ty.ADDRESS, Ty.REGISTER]
  let op := { op with args := args }
  match ctx.pos with
  | some pos =>
    if all_args_parsed args then do
      let a0 := args.getD 0 defaultArg
      let a1 := args.getD 1 defaultArg
      _jmpdestcheck [a0]
      _regcheck [a1]
      let offset ← _reljmpoffset pos a0
      if offset = 0 then
        .ok (ctx.advance_by_bytes 4,
             { op with todo := none,
                       hex := some ("0" ++ fmtX1 a1.integer ++ "030004") },
             [.nopSubstitution op.lineno])
      else
        let (nyb, v) : Int × Int :=
          if 0 < offset then (0xA, offset - 1) else (0xF, -offset - 1)
        let h := "0" ++ fmtX1 a1.integer ++ "03" ++ fmtX1 nyb ++ "0" ++
          fmt0Xi 2 v
        .ok (ctx.advance_by_bytes 4,
             { op with todo := none, hex := some h }, [])
    else
      .ok (ctx.advance_by_bytes 4, op, [])
  | none =>
    .ok (ctx.advance_by_bytes 4, op, [])

/-! ## The code generator tables -/

/-- `tsasm.codegen.common.get_codegen()` (keys are already case-folded). -/
def commonTable : List (List Char × Handler) :=
  [(cs "org", _codegen_org), (cs ".org", _codegen_org),
   (cs "db", _gen_codegen_data 1 false true),
   (cs ".db", _gen_codegen_data 1 false true),
   (cs "byte", _gen_codegen_data 1 false true),
   (cs "dw", _gen_codegen_data 2 false true),
   (cs ".dw", _gen_codegen_data 2 false true),
   (cs "word", _gen_codegen_data 2 false true),
   (cs "dd", _gen_codegen_data 4 false true),
   (cs ".dd", _gen_codegen_data 4 false true),
   (cs "long", _gen_codegen_data 4 false true)]

/-- `tsasm.codegen._ibmpalm.palm_codegen()` (which `ibm5100.get_codegen`
re-exports), with the common generators mixed in.  Keys are already
case-folded; the dict bakes palm-specific entries first, common second,
with no overlapping keys. -/
def palmTable : List (List Char × Handler) :=
  [(cs "dec2", _gen_codegen_reg_to_reg 0 0),
   (cs "halt", _codegen_halt),
   (cs "dec", _gen_codegen_reg_to_reg 0 1),
   (cs "inc", _gen_codegen_reg_to_reg 0 2),
   (cs "inc2", _gen_codegen_reg_to_reg 0 3),
   (cs "move", _codegen_move),
   (cs "nop", _codegen_nop),
   (cs "and", _gen_codegen_reg_to_reg 0 5),
   (cs "or", _gen_codegen_reg_to_reg 0 6),
   (cs "xor", _gen_codegen_reg_to_reg 0 7),
   (cs "add", _gen_codegen_add_or_sub "add"),
   (cs "sub", _gen_codegen_add_or_sub "sub"),
   (cs "addh", _gen_codegen_reg_to_reg 0 0xA),
   (cs "addh2", _gen_codegen_reg_to_reg 0 0xB),
   (cs "mhl", _gen_codegen_reg_to_reg 0 0xC),
   (cs "mlh", _gen_codegen_reg_to_reg 0 0xD),
   (cs "getb", _codegen_getb),
   (cs "getadd", _gen_codegen_dev_to_reg 0),
   (cs "ctrl", _codegen_ctrl),
   (cs "putb", _codegen_putb),
   (cs "movb", _codegen_movb),
   (cs "lbi", _gen_codegen_immed_to_reg 8),
   (cs "clr", _gen_codegen_immed_to_reg 9),
   (cs "set", _gen_codegen_immed_to_reg 0xB),
   (cs "sle", _gen_codegen_reg_to_reg 0xC 0),
   (cs "slt", _gen_codegen_reg_to_reg 0xC 1),
   (cs "se", _gen_codegen_reg_to_reg 0xC 2),
   (cs "sz", _gen_codegen_onereg 0xC 3 0),
   (cs "ss", _gen_codegen_onereg 0xC 4 0),
   (cs "sbs", _gen_codegen_reg_to_reg 0xC 5),
   (cs "sbc", _gen_codegen_reg_to_reg 0xC 6),
   (cs "sbsh", _gen_codegen_reg_to_reg 0xC 7),
   (cs "sgt", _gen_codegen_reg_to_reg 0xC 8),
   (cs "sge", _gen_codegen_reg_to_reg 0xC 9),
   (cs "sne", _gen_codegen_reg_to_reg 0xC 0xA),
   (cs "snz", _gen_codegen_onereg 0xC 0xB 0),
   (cs "sns", _gen_codegen_onereg 0xC 0xC 0),
   (cs "snbs", _gen_codegen_reg_to_reg 0xC 0xD),
   (cs "snbc", _gen_codegen_reg_to_reg 0xC 0xE),
   (cs "snbsh", _gen_codegen_reg_to_reg 0xC 0xE),
   (cs "lwi", _codegen_lwi),
   (cs "shr", _gen_codegen_onereg 0xE 0xC 1),
   (cs "ror", _gen_codegen_onereg 0xE 0xD 1),
   (cs "ror3", _gen_codegen_onereg 0xE 0xE 1),
   (cs "swap", _gen_codegen_onereg 0xE 0xF 1),
   (cs "stat", _gen_codegen_dev_to_reg 0xE),
   (cs "bra", _codegen_bra),
   (cs "ret", _gen_codegen_onereg 0 4 1),
   (cs "jmp", _codegen_jmp),
   (cs "call", _codegen_call),
   (cs "rcall", _codegen_rcall)] ++ commonTable

/-- `context.codegen[opcode]` lookup for the fixed `ibm5100` architecture. -/
def palmCodegen (opcode : List Char) : Option Handler :=
  (palmTable.find? (fun p => p.1 = opcode)).map (·.2)

/-! ## `tsasm.main`: lexical analysis regexes

`_RE_STR_APOSTROPHE` / `_RE_STR_QUOTEMARKS` match a delimited string with
backslash escapes, non-greedily up to the first unescaped closing delimiter;
`_RE_CODE` matches the longest prefix made of strings and non-quote,
non-semicolon characters; `_RE_TOKEN.findall` yields maximal runs of
strings and non-quote, non-separator characters.  The scanners below encode
those regexes directly. -/

/-- Scan the body of a `q`-delimited string (after the opening `q`), i.e.
`(\\.|[^\\q])*?q`.  Returns the body (escapes kept) and the remainder after
the closing delimiter, or `none` when the string is unterminated. -/
def strBody (q : Char) : List Char → Option (List Char × List Char)
  | [] => none
  | c :: rest =>
    if c = q then some ([], rest)
    else if c = '\\' then
      match rest with
      | [] => none
      | c2 :: rest2 => (strBody q rest2).map (fun p => (c :: c2 :: p.1, p.2))
    else (strBody q rest).map (fun p => (c :: p.1, p.2))

theorem strBody_length_aux (q : Char) (n : Nat) :
    ∀ l : List Char, l.length ≤ n → ∀ s r, strBody q l = some (s, r) →
      r.length < l.length := by
  induction n with
  | zero =>
    intro l hl s r h
    cases l with
    | nil => simp [strBody] at h
    | cons c rest => simp at hl
  | succ n ih =>
    intro l hl s r h
    cases l with
    | nil => simp [strBody] at h
    | cons c rest =>
      rw [strBody.eq_def] at h
      dsimp only at h
      split at h
      · simp only [Option.some.injEq, Prod.mk.injEq] at h
        obtain ⟨-, rfl⟩ := h
        simp
      · split at h
        · cases rest with
          | nil => simp at h
          | cons c2 rest2 =>
            simp only [Option.map_eq_some'] at h
            obtain ⟨⟨s', r'⟩, hp, hpe⟩ := h
            simp only [Prod.mk.injEq] at hpe
            obtain ⟨-, hr⟩ := hpe
            subst hr
            have := ih rest2 (by simp at hl; omega) s' r' hp
            simp at hl ⊢
            omega
        · simp only [Option.map_eq_some'] at h
          obtain ⟨⟨s', r'⟩, hp, hpe⟩ := h
          simp only [Prod.mk.injEq] at hpe
          obtain ⟨-, hr⟩ := hpe
          subst hr
          have := ih rest (by simp at hl; omega) s' r' hp
          simp
          omega

/-- The remainder after a matched string is strictly shorter than the input. -/
theorem strBody_length (q : Char) (l s r : List Char)
    (h : strBody q l = some (s, r)) : r.length < l.length :=
  strBody_length_aux q l.length l le_rfl s r h

/-!
The three scanners below recurse on remainders produced by `strBody`, which
are strictly shorter than their inputs (`strBody_length`), so a fuel counter
initialised to the input length never runs out: every iteration consumes at
least one input character.  The fuel keeps the definitions structurally
recursive (and hence kernel-reducible); the zero-fuel branches are
unreachable from the wrappers. -/

/-- Worker for `codePrefix`. -/
def codePrefixF : Nat → List Char → List Char
  | 0, _ => []
  | _, [] => []
  | fuel + 1, c :: rest =>
    if c = ';' then []
    else if c = '\'' ∨ c = '"' then
      match strBody c rest with
      | some (s, r) => c :: s ++ c :: codePrefixF fuel r
      | none => []
    else c :: codePrefixF fuel rest

/-- `_RE_CODE.match(line)[0]`: the longest prefix of the line consisting of
strings and characters other than `'`, `"` and `;`. -/
def codePrefix (l : List Char) : List Char := codePrefixF l.length l

/-- Worker for `grabUnits`. -/
def grabUnitsF : Nat → List Char → List Char × List Char
  | 0, l => ([], l)
  | _, [] => ([], [])
  | fuel + 1, c :: rest =>
    if isSpaceChar c || c = ',' then ([], c :: rest)
    else if c = '\'' ∨ c = '"' then
      match strBody c rest with
      | some (s, r) =>
        let p := grabUnitsF fuel r
        (c :: s ++ c :: p.1, p.2)
      | none => ([], c :: rest)
    else
      let p := grabUnitsF fuel rest
      (c :: p.1, p.2)

/-- Consume `(unit)*` of `_RE_TOKEN` greedily from the current position:
the maximal token continuation and the remainder. -/
def grabUnits (l : List Char) : List Char × List Char := grabUnitsF l.length l

/-- Worker for `tokenize`. -/
def tokenizeF : Nat → List Char → List (List Char)
  | 0, _ => []
  | _, [] => []
  | fuel + 1, c :: rest =>
    if isSpaceChar c || c = ',' then tokenizeF fuel rest
    else if c = '\'' ∨ c = '"' then
      match strBody c rest with
      | some (s, r) =>
        let p := grabUnits r
        (c :: s ++ c :: p.1) :: tokenizeF fuel p.2
      | none => tokenizeF fuel rest
    else
      let p := grabUnits rest
      (c :: p.1) :: tokenizeF fuel p.2

/-- `_RE_TOKEN.findall`: the maximal token runs of the comment-stripped
code.  An unmatchable position (an unterminated string opener) is skipped,
exactly as `findall` advances past positions where no match starts. -/
def tokenize (l : List Char) : List (List Char) := tokenizeF l.length l

/-! ## `tsasm.main`: errors, source loading, passes -/

/-- The reasons attached to the driver's fatal `Error` type, structured so
theorems can inspect them.  `msg` is a wrapped `ValueError`; `internal` is
any other wrapped exception; `dupLabel` is the duplicate-label error (whose
message cites the earlier line); `unresolved` is the end-of-assembly error
listing every still-pending source line; `noCode` is the empty-input error. -/
inductive Why where
  | msg (s : String)
  | internal (s : String)
  | dupLabel (label : List Char) (earlier : Nat)
  | unresolved (passes : Nat) (pending : List (Nat × List Char))
  | noCode
deriving DecidableEq, Repr

/-- A driver-level failure.  `fuelExhausted` is an artifact of embedding the
unbounded `itertools.count` loop with fuel; the termination theorem shows it
is never produced at the fuel bound used by `assemble`. -/
inductive AsmError where
  | fatal (lineno : Int) (line : List Char) (why : Why)
  | fuelExhausted
deriving DecidableEq, Repr

/-- Lexicographic code-point order on strings (Python `sorted`). -/
def lexLe : List Char → List Char → Bool
  | [], _ => true
  | _ :: _, [] => false
  | a :: as', b :: bs' =>
    if a.toNat < b.toNat then true
    else if b.toNat < a.toNat then false
    else lexLe as' bs'

def insertLex (x : List Char) : List (List Char) → List (List Char)
  | [] => [x]
  | y :: rest => if lexLe x y then x :: y :: rest else y :: insertLex x rest

/-- `sorted(...)` of a list of strings. -/
def sortStrings (l : List (List Char)) : List (List Char) :=
  l.foldr insertLex []

/-- `set.add`: insert without duplicating. -/
def addToSet (l : List (List Char)) (x : List Char) : List (List Char) :=
  if x ∈ l then l else l ++ [x]

/-- The loop body of `read_source`, carrying the line counter, pending
labels (`current_labels`) and the already-claimed labels with their lines. -/
def readGo : Nat → List (List Char) → List (List Char) →
    List (List Char × Nat) → Except AsmError (List Op)
  | _, [], _, _ => .ok []
  | lineno, line :: rest, current, claimed =>
    let tokens := tokenize (codePrefix line)
    let labelStep : Except AsmError
        (List (List Char) × List (List Char × Nat) × List (List Char)) :=
      match tokens with
      | t0 :: trest =>
        if t0.getLast? = some ':' ∧ labelMatch t0.dropLast then
          let label := t0.dropLast
          match claimed.find? (fun p => p.1 = label) with
          | some p => .error (.fatal lineno line (.dupLabel label p.2))
          | none =>
            .ok (addToSet current label, claimed ++ [(label, lineno)], trest)
        else .ok (current, claimed, tokens)
      | [] => .ok (current, claimed, [])
    match labelStep with
    | .error e => .error e
    | .ok (current, claimed, tokens) =>
      if tokens ≠ [] then
        match readGo (lineno + 1) rest [] claimed with
        | .error e => .error e
        | .ok ops =>
          .ok ({ lineno := lineno, line := line, tokens := tokens,
                 labels := sortStrings current,
                 todo := some Todo.lexer } :: ops)
      else readGo (lineno + 1) rest current claimed

/-- `tsasm.main.read_source` (the input arrives as lines with terminators
already removed). -/
def read_source (program : List (List Char)) :
    Except AsmError (List Op × List (List Char)) :=
  (readGo 0 program [] []).map (fun ops => (ops, program))

/-- `tsasm.main.asmpass_lexer`.  `tokens[0]` is guaranteed nonempty for ops
built by `read_source`; an empty token list would be Python `IndexError`. -/
def asmpass_lexer : Context → Op → Except Exc HRes := fun ctx op =>
  match op.tokens with
  | [] => .error (.other "IndexError")
  | opcode :: etcetera =>
    .ok (ctx,
         { op with opcode := some (pyCasefold opcode),
                   args := etcetera.map (fun a => { stripped := pyStrip a }),
                   todo := some Todo.codegen },
         [])

/-- `tsasm.main.asmpass_codegen`.  The `cpu`/`arch` built-in resolves the
line and switches architecture; `_switch_arch` replaces only the `codegen`
table and `encode_str` (never `labels` or `pos`), and this single-
architecture embedding keeps both fixed, so the switch is the identity on
the modelled context.  An unknown opcode raises the driver's `Error` type,
which the driver's generic handler re-wraps as an internal error (it is not
a `ValueError`); it is modelled as `Exc.other`. -/
def asmpass_codegen : Context → Op → Except Exc HRes := fun ctx op => do
  let ctx := op.labels.foldl Context.bind_label ctx
  let opcode := op.opcode.getD []
  let r ←
    if opcode = cs "cpu" ∨ opcode = cs ".cpu" ∨ opcode = cs "arch" ∨
        opcode = cs ".arch" then
      if op.args.length ≠ 1 then
        Except.error (Exc.value "The pseudo-opcode takes one argument")
      else
        Except.ok (ctx, { op with todo := none }, ([] : List Warning))
    else
      match palmCodegen opcode with
      | none => Except.error (Exc.other ("Opcode not recognised: " ++ ⟨opcode⟩))
      | some h => h ctx op
  let (ctx, op, w) := r
  let op :=
    if op.labels.all (fun l => (lookupLabel ctx.labels l).isSome) then op
    else { op with todo := some Todo.codegen }
  let op := if ctx.pos = none then { op with todo := some Todo.codegen } else op
  .ok (ctx, op, w)

/-- Dispatch of the stored `Op.todo` callback. -/
def runTodo : Todo → Context → Op → Except Exc HRes
  | Todo.lexer => asmpass_lexer
  | Todo.codegen => asmpass_codegen

/-- One pass of the driver's inner loop over `(op, pinned address)` pairs:
restores pinned positions, pins newly-known positions, runs pending todos,
enforces hex parity, and collects warnings plus the trace of the `pos`
value handed to each executed todo. -/
def runPass (ctx : Context) :
    List (Op × Option Int) →
    Except AsmError (Context × List (Op × Option Int) × List Warning ×
      List (Option Int))
  | [] => .ok (ctx, [], [], [])
  | (op, addr) :: rest =>
    let ctx := match addr with
      | some a => { ctx with pos := some a }
      | none => ctx
    let addr := match addr with
      | some a => some a
      | none =>
        if ctx.pos.isSome ∧ op.todo ≠ some Todo.lexer then ctx.pos else none
    match op.todo with
    | none =>
      match runPass ctx rest with
      | .error e => .error e
      | .ok (ctx', rest', w, tr) => .ok (ctx', (op, addr) :: rest', w, tr)
    | some t =>
      match runTodo t ctx op with
      | .error (.value m) => .error (.fatal op.lineno op.line (.msg m))
      | .error (.other m) => .error (.fatal op.lineno op.line (.internal m))
      | .ok (ctx1, op1, w1) =>
        if (op1.hex.getD "") ≠ "" ∧ (op1.hex.getD "").length % 2 = 1 then
          .error (.fatal op1.lineno op1.line
            (.internal "Extra nybble in generated hex."))
        else
          match runPass ctx1 rest with
          | .error e => .error e
          | .ok (ctx', rest', w, tr) =>
            .ok (ctx', (op1, addr) :: rest', w1 ++ w, ctx.pos :: tr)

/-- The observable outcome of the fixpoint loop: final context and items,
the pending lines at the stop, and the accounting used by the theorems
(pass count, per-pass pending history, warnings, `pos` trace). -/
structure LoopOut where
  ctx : Context
  items : List (Op × Option Int)
  pendLines : List (Nat × List Char)
  passCount : Nat
  hist : List Nat
  warns : List Warning
  trace : List (Option Int)

/-- The driver's fixpoint loop (`for pass_count in itertools.count(...)`),
with fuel standing in for unboundedness: each iteration resets `pos` to 0,
runs a pass, and stops once the pending-codegen count repeats. -/
def passLoop : Nat → Option Nat → Context → List (Op × Option Int) →
    Nat → List Nat → List Warning → List (Option Int) →
    Except AsmError (Option LoopOut)
  | 0, _, _, _, _, _, _, _ => .ok none
  | fuel + 1, num, ctx, items, pc, hist, ws, tr =>
    let ctx := { ctx with pos := some 0 }
    match runPass ctx items with
    | .error e => .error e
    | .ok (ctx', items', w, t) =>
      let pending := items'.filter (fun x => x.1.todo = some Todo.codegen)
      let cnt := pending.length
      if num = some cnt then
        .ok (some ⟨ctx', items', pending.map (fun x => (x.1.lineno, x.1.line)),
          pc + 1, hist ++ [cnt], ws ++ w, tr ++ t⟩)
      else passLoop fuel (some cnt) ctx' items' (pc + 1) (hist ++ [cnt])
        (ws ++ w) (tr ++ t)

/-- The `addr_to_op` construction with `dict.setdefault`: the first op at
each address is kept; collisions where both ops have truthy `hex` are
collected (the source logs them as warnings). -/
def buildGo (acc : List (Option Int × Op))
    (coll : List (Option Int × Op × Op)) :
    List (Option Int × Op) →
    List (Option Int × Op) × List (Option Int × Op × Op)
  | [] => (acc, coll)
  | (addr, op) :: rest =>
    match acc.find? (fun p => p.1 = addr) with
    | none => buildGo (acc ++ [(addr, op)]) coll rest
    | some pOld =>
      if (pOld.2.hex.getD "") ≠ "" ∧ (op.hex.getD "") ≠ "" then
        buildGo acc (coll ++ [(addr, pOld.2, op)]) rest
      else buildGo acc coll rest

/-- `addr_to_op` plus the collision warnings, from `(addr, op)` pairs in
source order. -/
def buildAddrToOp (pairs : List (Option Int × Op)) :
    List (Option Int × Op) × List (Option Int × Op × Op) :=
  buildGo [] [] pairs

def insertByAddr (x : Int × Op) : List (Int × Op) → List (Int × Op)
  | [] => [x]
  | y :: rest => if x.1 < y.1 then x :: y :: rest else y :: insertByAddr x rest

/-- `sorted(addr_to_op.items())` (addresses are unique keys). -/
def sortByAddr (l : List (Int × Op)) : List (Int × Op) :=
  l.foldr insertByAddr []

def hexCharVal (c : Char) : Nat :=
  if c.isDigit then c.toNat - 48
  else if 'a' ≤ c && c ≤ 'f' then c.toNat - 87
  else if 'A' ≤ c && c ≤ 'F' then c.toNat - 55
  else 0

/-- `bytes.fromhex` on the generated (even-length, valid) hex strings. -/
def hexToBytes : List Char → List Nat
  | c1 :: c2 :: rest => (16 * hexCharVal c1 + hexCharVal c2) :: hexToBytes rest
  | _ => []

/-- The output loop of `_emit_binary`: zero-fill forward gaps, warn on
regressions (but still write, as the source does), append each op's bytes. -/
def emitGo (pos : Int) (out : List Nat) (warns : List Warning) :
    List (Int × Op) → List Nat × List Warning
  | [] => (out, warns)
  | (addr, op) :: rest =>
    let st : Int × List Nat × List Warning :=
      if pos < addr then (addr, out ++ List.replicate (addr - pos).toNat 0, warns)
      else if addr < pos then (pos, out, warns ++ [.notWriting op.lineno addr pos])
      else (pos, out, warns)
    match op.hex with
    | some h =>
      emitGo (st.1 + (hexToBytes h.data).length)
        (st.2.1 ++ hexToBytes h.data) st.2.2 rest
    | none => emitGo st.1 st.2.1 st.2.2 rest

/-- `tsasm.main._emit_binary`, returning the bytes written and warnings. -/
def _emit_binary (items : List (Int × Op)) : List Nat × List Warning :=
  emitGo 0 [] [] (sortByAddr items)

/-- Unwrap the address column once every op's address is pinned; a `none`
here would be Python's `TypeError` from sorting `None` against `int`. -/
def allSomeAddrs : List (Option Int × Op) → Option (List (Int × Op))
  | [] => some []
  | (some a, op) :: rest => (allSomeAddrs rest).map (fun l => (a, op) :: l)
  | (none, _) :: _ => none

/-- The observable result of `assemble`: final `(op, address)` items, label
table, binary image, warnings, and loop accounting. -/
structure AsmOut where
  items : List (Op × Option Int)
  labels : List (List Char × Int)
  binary : List Nat
  warns : List Warning
  passCount : Nat
  hist : List Nat
  trace : List (Option Int)

/-- `tsasm.main.assemble` with the loop fuel exposed. -/
def assembleWithFuel (fuel : Nat) (program : List (List Char)) :
    Except AsmError AsmOut := do
  let (ops, _lines) ← read_source program
  if ops = [] then .error (.fatal (-1) (cs "<EOF>") Why.noCode)
  else
    let items := ops.map (fun o => (o, (none : Option Int)))
    match ← passLoop fuel none ctx0 items 0 [] [] [] with
    | none => .error .fuelExhausted
    | some out =>
      if out.pendLines ≠ [] then
        .error (.fatal
          (((ops.getLast?).map (fun o => (o.lineno : Int))).getD 0 + 1)
          (cs "<EOF>") (Why.unresolved out.passCount out.pendLines))
      else
        let pairs := out.items.map (fun x => (x.2, x.1))
        let (addrMap, coll) := buildAddrToOp pairs
        let collWarns := coll.map
          (fun c => Warning.replacingCode c.1 c.2.1.lineno c.2.2.lineno)
        match allSomeAddrs addrMap with
        | none => .error (.fatal (-1) (cs "<EOF>") (Why.internal "TypeError"))
        | some intMap =>
          let (binary, emitWarns) := _emit_binary intMap
          .ok { items := out.items, labels := out.ctx.labels,
                binary := binary,
                warns := out.warns ++ collWarns ++ emitWarns,
                passCount := out.passCount, hist := out.hist,
                trace := out.trace }

/-- `tsasm.main.assemble`: the fuel `|program| + 2` dominates the proven
`|ops| + 2` bound on the number of passes, so the loop always stops on its
own fixpoint condition first. -/
def assemble (program : List (List Char)) : Except AsmError AsmOut :=
  assembleWithFuel (program.length + 2) program

/-! ## Claim C5: the four-line `lwi` forward-reference program -/

/-- The program of claim C5, as source lines (terminators removed). -/
def progC5 : List (List Char) :=
  [cs "      org $100", cs "      lwi r5, #label", cs "      db 0",
   cs "label: db $AB"]

/-- C5 counterexample: assembling the program `org $100` / `lwi r5, #label` /
`db 0` / `label: db $AB` makes the `lwi` line emit the hex `D5010105` (the
label binds to `$105`, where `db $AB` lives), not the bytes `D5 01 01 04`
stated by the claim. -/
theorem c5_lwi_bytes_refuted :
    (assemble progC5).toOption.map
        (fun o => o.items.map (fun x => x.1.hex)) =
      some [some "", some "D5010105", some "00", some "AB"] ∧
    (some "D5010105" : Option String) ≠ some "D5010104" := by
  constructor
  · decide
  · decide

/-- C5 (amended): assembling the four-line program under the `ibm5100`
architecture places the `lwi` at `$100` emitting bytes `D5 01 01 05`, then
`00` at `$104` and `AB` at `$105`; the label `label` binds to `$105` and the
`lwi` line resolves on the second code-generation pass (the per-pass
pending counts run `4, 1, 0, 0`). -/
theorem c5_lwi_program_assembles :
    (assemble progC5).toOption.map
        (fun o => o.items.map (fun x => (x.1.hex, x.2))) =
      some [(some "", some 0), (some "D5010105", some 0x100),
            (some "00", some 0x104), (some "AB", some 0x105)] ∧
    (assemble progC5).toOption.map (fun o => o.labels) =
      some [(cs "label", 0x105)] ∧
    (assemble progC5).toOption.map (fun o => o.hist) = some [4, 1, 0, 0] ∧
    (assemble progC5).toOption.map (fun o => o.binary.drop 0x100) =
      some [0xD5, 0x01, 0x01, 0x05, 0x00, 0xAB] ∧
    (assemble progC5).toOption.map (fun o => o.binary.length) = some 0x106 := by
  refine ⟨by decide, by decide, by decide, by decide, by decide⟩

/-! ## Shared proof utilities -/

theorem except_bind_ok {α β : Type} (a : α) (f : α → Except Exc β) :
    (Except.ok a >>= f) = f a := rfl

theorem _regcheck_ok (a : Arg) (h1 : 0 ≤ a.integer) (h2 : a.integer ≤ 15) :
    _regcheck [a] = .ok () := by
  simp [_regcheck, List.find?, inRange, h1, h2]

theorem regcheck_bind {α : Type} (a : Arg) (h1 : 0 ≤ a.integer)
    (h2 : a.integer ≤ 15) (k : Unit → Except Exc α) :
    (_regcheck [a] >>= k) = k () := by
  rw [_regcheck_ok a h1 h2]; rfl

/-! ## Claim C2: `add`/`sub` with an immediate second argument -/

/-- An `add`/`sub` op whose two arguments have already parsed as a register
and a NUMBER literal (argument parsing is the identity on parsed args). -/
def addSubOp (addsub : String) (r lit : Int) : Op :=
  { lineno := 7, line := cs "line",
    opcode := some (cs addsub),
    args := [{ stripped := cs "rX", argtype := Ty.REGISTER, integer := r,
               regPrefixText := cs "r" },
             { stripped := cs "#lit", argtype := Ty.NUMBER, integer := lit }],
    todo := some Todo.codegen }

/-- C2: for `add`/`sub` with a register first argument and a NUMBER second
argument, once both arguments parse: a literal outside `0..256` raises an
error; a literal of exactly 0 logs a NOP-substitution warning and emits the
NOP hex `0004`; otherwise the emitted halfword is the nybble `0xA` (add) or
`0xF` (sub), the destination-register nybble, then the byte
`(literal - 1) mod 256`.  (`add r4, #1` and `add r4, #0` are instantiated in
the witness.) -/
theorem c2_add_sub_immediate (addsub : String)
    (hA : addsub = "add" ∨ addsub = "sub") (ctx : Context) (r lit : Int)
    (hr1 : 0 ≤ r) (hr2 : r ≤ 15) :
    ((lit < 0 ∨ 256 < lit) →
      ∃ m, _gen_codegen_add_or_sub addsub ctx (addSubOp addsub r lit) =
        .error (.value m)) ∧
    (lit = 0 →
      _gen_codegen_add_or_sub addsub ctx (addSubOp addsub r lit) =
        .ok (ctx.advance_by_bytes 2,
             { addSubOp addsub r lit with todo := none, hex := some "0004" },
             [Warning.nopSubstitution 7])) ∧
    (0 < lit → lit ≤ 256 →
      _gen_codegen_add_or_sub addsub ctx (addSubOp addsub r lit) =
        .ok (ctx.advance_by_bytes 2,
             { addSubOp addsub r lit with
               todo := none
               hex := some (fmtX1 (if addsub = "add" then 0xA else 0xF) ++
                 fmtX1 r ++ fmt0Xi 2 ((lit - 1) % 256)) },
             [])) := by
  have hp : parse_args_if_able palmOpts ctx (addSubOp addsub r lit)
      [Ty.REGISTER, Ty.NUMBER.union Ty.REGISTER] =
      .ok (addSubOp addsub r lit).args := rfl
  have hr0 : inRange 0 15 r = true := by simp [inRange]; omega
  refine ⟨?_, ?_, ?_⟩
  · intro hlit
    have h256 : inRange 0 256 lit = false := by simp [inRange]; omega
    refine ⟨"Literal #lit not in range 0..256", ?_⟩
    simp only [_gen_codegen_add_or_sub, hp, except_bind_ok]
    simp only [addSubOp, List.getD, all_args_parsed]
    simp [except_bind_ok, Ty.inter, Ty.isTruthy, Ty.union, Ty.NUMBER,
      Ty.REGISTER, Ty.UNPARSED, h256, addSubOp]
    rw [regcheck_bind _ hr1 hr2]
    simp [h256]
    rfl
  · intro hlit
    subst hlit
    simp only [_gen_codegen_add_or_sub, hp, except_bind_ok]
    simp only [addSubOp, List.getD, all_args_parsed]
    simp [except_bind_ok, Ty.inter, Ty.isTruthy, Ty.union, Ty.NUMBER,
      Ty.REGISTER, Ty.UNPARSED, inRange, addSubOp]
    rw [regcheck_bind _ hr1 hr2]
  · intro h1 h2
    have h256 : inRange 0 256 lit = true := by simp [inRange]; omega
    have hne : ¬ (lit = 0) := by omega
    simp only [_gen_codegen_add_or_sub, hp, except_bind_ok]
    simp only [addSubOp, List.getD, all_args_parsed]
    simp [except_bind_ok, Ty.inter, Ty.isTruthy, Ty.union, Ty.NUMBER,
      Ty.REGISTER, Ty.UNPARSED, h256, hne, addSubOp]
    rw [regcheck_bind _ hr1 hr2]

/-- C2 witness: `add r4, #1` emits `A4 00` and `add r4, #0` emits the NOP
`00 04` with a NOP-substitution warning. -/
theorem c2_add_sub_immediate_witness :
    _gen_codegen_add_or_sub "add" ctx0 (addSubOp "add" 4 1) =
      .ok (ctx0.advance_by_bytes 2,
           { addSubOp "add" 4 1 with todo := none, hex := some "A400" },
           []) ∧
    _gen_codegen_add_or_sub "add" ctx0 (addSubOp "add" 4 0) =
      .ok (ctx0.advance_by_bytes 2,
           { addSubOp "add" 4 0 with todo := none, hex := some "0004" },
           [Warning.nopSubstitution 7]) := by
  constructor
  · have h := (c2_add_sub_immediate "add" (Or.inl rfl) ctx0 4 1
      (by decide) (by decide)).2.2 (by decide) (by decide)
    rw [h]
    rfl
  · exact (c2_add_sub_immediate "add" (Or.inl rfl) ctx0 4 0
      (by decide) (by decide)).2.1 rfl

/-! ## Claim C3: `bra` relative branches -/

theorem except_bind_err {α β : Type} (e : Exc) (x : Except Exc α)
    (f : α → Except Exc β) (h : x = .error e) : (x >>= f) = .error e := by
  subst h; rfl

theorem _jmpdestcheck_ok (a : Arg) (h1 : 0 ≤ a.integer)
    (h2 : a.integer ≤ 65535) (h3 : a.integer % 2 = 0) :
    _jmpdestcheck [a] = .ok () := by
  simp [_jmpdestcheck, _addrcheck, List.find?, inRange, h1, h2, h3]
  rfl

theorem _jmpdestcheck_err (a : Arg)
    (h : a.integer % 2 ≠ 0 ∨ a.integer < 0 ∨ 65535 < a.integer) :
    ∃ m, _jmpdestcheck [a] = .error (.value m) := by
  by_cases hr : 0 ≤ a.integer ∧ a.integer ≤ 65535
  · have hodd : a.integer % 2 ≠ 0 := by omega
    refine ⟨"Invalid jump address " ++ ⟨a.stripped⟩ ++
      "; must be 16-bit aligned", ?_⟩
    simp [_jmpdestcheck, _addrcheck, List.find?, inRange, hr.1, hr.2, hodd]
    rfl
  · refine ⟨"Invalid memory address " ++ ⟨a.stripped⟩, ?_⟩
    have : inRange 0 65535 a.integer = false := by simp [inRange]; omega
    simp [_jmpdestcheck, _addrcheck, List.find?, this]
    rfl

theorem jmpdest_bind {α : Type} (a : Arg) (h1 : 0 ≤ a.integer)
    (h2 : a.integer ≤ 65535) (h3 : a.integer % 2 = 0)
    (k : Unit → Except Exc α) : (_jmpdestcheck [a] >>= k) = k () := by
  rw [_jmpdestcheck_ok a h1 h2 h3]; rfl

theorem _reljmpoffset_ok (pos : Int) (a : Arg)
    (h1 : -254 ≤ a.integer - pos) (h2 : a.integer - pos ≤ 258) :
    _reljmpoffset pos a = .ok (a.integer - pos - 2) := by
  simp [_reljmpoffset, inRange]
  omega

theorem _reljmpoffset_err (pos : Int) (a : Arg)
    (h : a.integer - pos < -254 ∨ 258 < a.integer - pos) :
    _reljmpoffset pos a = .error (.value ("Invalid relative jump " ++
      ⟨a.stripped⟩ ++ "; limits are -254..258")) := by
  simp [_reljmpoffset, inRange]
  omega

/-- A `bra` op whose single argument has already parsed as an ADDRESS. -/
def braOp (target : Int) : Op :=
  { lineno := 9, line := cs "line", opcode := some (cs "bra"),
    args := [{ stripped := cs "target", argtype := Ty.ADDRESS,
               integer := target }],
    todo := some Todo.codegen }

/-- The two-line program of the claim's concrete scenario. -/
def progC3 : List (List Char) :=
  [cs "      org $100", cs "start: bra start"]

/-- C3: for `bra` with a resolved ADDRESS argument and known position: an
odd target raises an error; a true displacement `target - pos` outside
`-254..258` raises an error; a computed offset `target - (pos + 2)` of 0
logs a warning and emits the NOP hex `0004`; otherwise the halfword is
nybble `A` with byte `offset - 1` for positive offsets, or nybble `F` with
byte `-offset - 1` for negative ones.  In particular `start: bra start`
assembled at `$100` produces the bytes `F0 01` at offset `0x100` of the
image. -/
theorem c3_bra_relative (ctx : Context) (pos target : Int)
    (hpos : ctx.pos = some pos) :
    (target % 2 ≠ 0 →
      ∃ m, _codegen_bra ctx (braOp target) = .error (.value m)) ∧
    (0 ≤ target → target ≤ 65535 → target % 2 = 0 →
      (target - pos < -254 ∨ 258 < target - pos) →
      ∃ m, _codegen_bra ctx (braOp target) = .error (.value m)) ∧
    (0 ≤ target → target ≤ 65535 → target % 2 = 0 →
      -254 ≤ target - pos → target - pos ≤ 258 → target - (pos + 2) = 0 →
      _codegen_bra ctx (braOp target) =
        .ok (ctx.advance_by_bytes 2,
             { braOp target with todo := none, hex := some "0004" },
             [Warning.nopSubstitution 9])) ∧
    (0 ≤ target → target ≤ 65535 → target % 2 = 0 →
      -254 ≤ target - pos → target - pos ≤ 258 → target - (pos + 2) ≠ 0 →
      _codegen_bra ctx (braOp target) =
        .ok (ctx.advance_by_bytes 2,
             { braOp target with
               todo := none
               hex := some (if 0 < target - (pos + 2) then
                   fmtX1 0xA ++ "0" ++ fmt0Xi 2 (target - (pos + 2) - 1)
                 else
                   fmtX1 0xF ++ "0" ++
                     fmt0Xi 2 (-(target - (pos + 2)) - 1)) },
             [])) ∧
    ((assemble progC3).toOption.map
        (fun o => (o.items.map (fun x => (x.1.hex, x.2)),
                   o.binary.drop 0x100)) =
      some ([(some "", some 0), (some "F001", some 0x100)],
            [0xF0, 0x01])) := by
  have hp : parse_args_if_able palmOpts ctx (braOp target) [Ty.ADDRESS] =
      .ok (braOp target).args := rfl
  refine ⟨?_, ?_, ?_, ?_, by decide⟩
  · intro hodd
    obtain ⟨m, hm⟩ := _jmpdestcheck_err ((braOp target).args.headD defaultArg)
      (Or.inl hodd)
    refine ⟨m, ?_⟩
    simp only [_codegen_bra, hp, except_bind_ok, hpos]
    simp only [braOp, all_args_parsed, List.headD]
    simp [Ty.inter, Ty.isTruthy, Ty.ADDRESS, Ty.UNPARSED]
    exact except_bind_err _ _ _ hm
  · intro ht1 ht2 ht3 hd
    refine ⟨"Invalid relative jump target; limits are -254..258", ?_⟩
    simp only [_codegen_bra, hp, except_bind_ok, hpos]
    simp only [braOp, all_args_parsed, List.headD]
    simp only [Ty.inter, Ty.isTruthy, Ty.ADDRESS, Ty.UNPARSED]
    rw [jmpdest_bind _ ht1 ht2 ht3]
    rw [_reljmpoffset_err pos _ hd]
    rfl
  · intro ht1 ht2 ht3 hd1 hd2 hz
    simp only [_codegen_bra, hp, except_bind_ok, hpos]
    simp only [braOp, all_args_parsed, List.headD]
    simp only [Ty.inter, Ty.isTruthy, Ty.ADDRESS, Ty.UNPARSED]
    rw [jmpdest_bind _ ht1 ht2 ht3]
    rw [_reljmpoffset_ok pos _ hd1 hd2]
    rw [except_bind_ok]
    have hzz : target - pos - 2 = 0 := by omega
    simp [hzz, braOp]
  · intro ht1 ht2 ht3 hd1 hd2 hz
    simp only [_codegen_bra, hp, except_bind_ok, hpos]
    simp only [braOp, all_args_parsed, List.headD]
    simp only [Ty.inter, Ty.isTruthy, Ty.ADDRESS, Ty.UNPARSED]
    rw [jmpdest_bind _ ht1 ht2 ht3]
    rw [_reljmpoffset_ok pos _ hd1 hd2]
    rw [except_bind_ok]
    have hz' : ¬ (target - pos - 2 = 0) := by omega
    simp only [hz', if_false, braOp]
    have harith : target - pos - 2 = target - (pos + 2) := by omega
    simp [harith]
    split <;> rfl

/-- C3 witness: with the position at `$100`, `bra` to target `$100` (the
`start: bra start` situation) emits the hex `F001`, and `bra` to the odd
target 3 errors. -/
theorem c3_bra_relative_witness :
    _codegen_bra { ctx0 with pos := some 0x100 } (braOp 0x100) =
      .ok (Context.advance_by_bytes { ctx0 with pos := some 0x100 } 2,
           { braOp 0x100 with todo := none, hex := some "F001" }, []) ∧
    (∃ m, _codegen_bra { ctx0 with pos := some 0x100 } (braOp 3) =
      .error (.value m)) := by
  constructor
  · have h := (c3_bra_relative { ctx0 with pos := some 0x100 } 0x100 0x100
      rfl).2.2.2.1 (by decide) (by decide) (by decide) (by decide) (by decide)
      (by decide)
    rw [h]
    rfl
  · exact (c3_bra_relative { ctx0 with pos := some 0x100 } 0x100 3
      rfl).1 (by decide)

/-! ## Claim C7: accepted integer literal forms -/

/-- The value of a digit string in a base. -/
def digitsVal (base : Nat) (ds : List Char) : Nat :=
  ds.foldl (fun a c => a * base + digitVal c) 0

/-- A canonical (lower-case) digit of a base. -/
def lowerDigit (base : Nat) (c : Char) : Prop :=
  isDigitIn base c = true ∧ c.toLower = c

theorem digit_char_facts (b : Nat) (c : Char) (h : isDigitIn b c = true) :
    isSpaceChar c = false ∧ c ≠ '"' ∧ c ≠ '\'' ∧ c ≠ '$' ∧ c ≠ '+' ∧
      c ≠ '-' ∧ c ≠ '_' := by
  have hsp : isSpaceChar c = false := by
    by_contra hs
    rw [Bool.not_eq_false] at hs
    simp only [isSpaceChar, Bool.or_eq_true, decide_eq_true_eq] at hs
    rcases hs with ((((rfl | rfl) | rfl) | rfl) | rfl) | rfl <;>
      (unfold isDigitIn at h; split_ifs at h <;> exact absurd h (by decide))
  refine ⟨hsp, ?_, ?_, ?_, ?_, ?_, ?_⟩ <;>
    (rintro rfl; unfold isDigitIn at h; split_ifs at h <;>
      exact absurd h (by decide))

/-- Digits of bases 2, 8 and 10 are never postfix radix letters. -/
theorem digit_not_suffix (b : Nat) (hb : b = 2 ∨ b = 8 ∨ b = 10) (c : Char)
    (h : isDigitIn b c = true) :
    c ≠ 'h' ∧ c ≠ 'b' ∧ c ≠ 'o' ∧ c ≠ 'q' ∧ c ≠ 'd' := by
  refine ⟨?_, ?_, ?_, ?_, ?_⟩ <;>
    (rintro rfl; rcases hb with rfl | rfl | rfl <;> revert h <;> decide)

theorem trimLeft_eq_self (s : List Char)
    (h : ∀ c ∈ s, isSpaceChar c = false) : trimLeft s = s := by
  cases s with
  | nil => rfl
  | cons c rest => simp [trimLeft, h c (by simp)]

theorem pyStrip_eq_self (s : List Char)
    (h : ∀ c ∈ s, isSpaceChar c = false) : pyStrip s = s := by
  unfold pyStrip
  rw [trimLeft_eq_self s h, trimLeft_eq_self s.reverse (by simpa using h),
    List.reverse_reverse]

theorem pyLower_eq_self (s : List Char) (h : ∀ c ∈ s, c.toLower = c) :
    pyLower s = s := by
  unfold pyLower
  exact List.map_congr_left h |>.trans (List.map_id s)

theorem pyDigitsTail_all (b : Nat) :
    ∀ (ds : List Char) (acc : Nat), (∀ c ∈ ds, isDigitIn b c = true) →
      pyDigitsTail b acc ds =
        some (ds.foldl (fun a c => a * b + digitVal c) acc) := by
  intro ds
  induction ds with
  | nil => intro acc _; simp [pyDigitsTail]
  | cons c rest ih =>
    intro acc h
    have hc := h c (by simp)
    have hcu : c ≠ '_' := (digit_char_facts b c hc).2.2.2.2.2.2
    rw [pyDigitsTail.eq_def]
    simp only [hcu, if_false, hc, if_true]
    rw [ih _ (fun x hx => h x (by simp [hx]))]
    simp

theorem pyDigitsFirst_all (b : Nat) (allowU : Bool) (ds : List Char)
    (hne : ds ≠ []) (h : ∀ c ∈ ds, isDigitIn b c = true) :
    pyDigitsFirst b allowU ds = some (digitsVal b ds) := by
  cases ds with
  | nil => exact absurd rfl hne
  | cons c rest =>
    have hc := h c (by simp)
    have hcu : c ≠ '_' := (digit_char_facts b c hc).2.2.2.2.2.2
    rw [pyDigitsFirst.eq_def]
    simp only [hcu, if_false, hc, if_true]
    rw [pyDigitsTail_all b rest _ (fun x hx => h x (by simp [hx]))]
    simp [digitsVal]

theorem dollarToSuffix_ne (t : List Char) (h : t.head? ≠ some '$') :
    dollarToSuffix t = t := by
  unfold dollarToSuffix
  split
  · simp at h
  · rfl

theorem splitSign_ne (t : List Char) (h1 : t.head? ≠ some '+')
    (h2 : t.head? ≠ some '-') : splitSign t = ([], t) := by
  unfold splitSign
  split
  · simp at h1
  · simp at h2
  · rfl

theorem applySuffix_concat_h (ds : List Char) :
    applySuffix (ds ++ ['h']) = cs "0x" ++ ds := by
  unfold applySuffix
  rw [List.getLast?_concat, List.dropLast_concat]
  rfl

theorem applySuffix_concat_b (ds : List Char) :
    applySuffix (ds ++ ['b']) = cs "0b" ++ ds := by
  unfold applySuffix
  rw [List.getLast?_concat, List.dropLast_concat]
  rfl

theorem applySuffix_concat_o (ds : List Char) :
    applySuffix (ds ++ ['o']) = cs "0o" ++ ds := by
  unfold applySuffix
  rw [List.getLast?_concat, List.dropLast_concat]
  rfl

theorem applySuffix_concat_q (ds : List Char) :
    applySuffix (ds ++ ['q']) = cs "0o" ++ ds := by
  unfold applySuffix
  rw [List.getLast?_concat, List.dropLast_concat]
  rfl

theorem applySuffix_concat_d (ds : List Char) :
    applySuffix (ds ++ ['d']) = ds := by
  unfold applySuffix
  rw [List.getLast?_concat, List.dropLast_concat]
  rfl

theorem applySuffix_id (t : List Char)
    (h : ∀ c, t.getLast? = some c →
      c ≠ 'h' ∧ c ≠ 'b' ∧ c ≠ 'o' ∧ c ≠ 'q' ∧ c ≠ 'd') :
    applySuffix t = t := by
  unfold applySuffix
  split
  · rename_i heq; exact absurd rfl (h _ heq).1
  · rename_i heq; exact absurd rfl (h _ heq).2.1
  · rename_i heq; exact absurd rfl (h _ heq).2.2.1
  · rename_i heq; exact absurd rfl (h _ heq).2.2.2.1
  · rename_i heq; exact absurd rfl (h _ heq).2.2.2.2
  · rfl

theorem pyIntMag_pre16 (ds : List Char) (hne : ds ≠ [])
    (h : ∀ c ∈ ds, isDigitIn 16 c = true) :
    pyIntMag ('0' :: 'x' :: ds) = some (digitsVal 16 ds) := by
  rw [show pyIntMag ('0' :: 'x' :: ds) = pyDigitsFirst 16 true ds from rfl]
  exact pyDigitsFirst_all 16 true ds hne h

theorem pyIntMag_pre8 (ds : List Char) (hne : ds ≠ [])
    (h : ∀ c ∈ ds, isDigitIn 8 c = true) :
    pyIntMag ('0' :: 'o' :: ds) = some (digitsVal 8 ds) := by
  rw [show pyIntMag ('0' :: 'o' :: ds) = pyDigitsFirst 8 true ds from rfl]
  exact pyDigitsFirst_all 8 true ds hne h

theorem pyIntMag_pre2 (ds : List Char) (hne : ds ≠ [])
    (h : ∀ c ∈ ds, isDigitIn 2 c = true) :
    pyIntMag ('0' :: 'b' :: ds) = some (digitsVal 2 ds) := by
  rw [show pyIntMag ('0' :: 'b' :: ds) = pyDigitsFirst 2 true ds from rfl]
  exact pyDigitsFirst_all 2 true ds hne h

theorem pyIntMag_dec (ds : List Char) (hne : ds ≠ [])
    (h : ∀ c ∈ ds, isDigitIn 10 c = true)
    (h0 : ds.head? ≠ some '0' ∨ ds = ['0']) :
    pyIntMag ds = some (digitsVal 10 ds) := by
  rcases h0 with h0 | rfl
  · cases ds with
    | nil => exact absurd rfl hne
    | cons c rest =>
      have hc0 : c ≠ '0' := by simpa using h0
      rw [pyIntMag.eq_def]
      simp only [hc0, if_false]
      exact pyDigitsFirst_all 10 false _ (by simp) h
  · rfl

theorem pyIntBase0_nosign (m : List Char)
    (hsp : ∀ c ∈ m, isSpaceChar c = false)
    (h1 : m.head? ≠ some '+') (h2 : m.head? ≠ some '-') :
    pyIntBase0 m = (pyIntMag m).map Int.ofNat := by
  unfold pyIntBase0
  rw [pyStrip_eq_self m hsp]
  split
  · simp at h1
  · simp at h2
  · rfl

theorem pyIntBase0_neg (m : List Char)
    (hsp : ∀ c ∈ m, isSpaceChar c = false) :
    pyIntBase0 ('-' :: m) = (pyIntMag m).map (fun n => -(Int.ofNat n)) := by
  unfold pyIntBase0
  have hs : ∀ c ∈ ('-' :: m), isSpaceChar c = false := by
    intro c hc
    rcases List.mem_cons.mp hc with rfl | hm
    · rfl
    · exact hsp c hm
  rw [pyStrip_eq_self _ hs]
  rfl

theorem pyIntBase0_pos (m : List Char)
    (hsp : ∀ c ∈ m, isSpaceChar c = false) :
    pyIntBase0 ('+' :: m) = (pyIntMag m).map Int.ofNat := by
  unfold pyIntBase0
  have hs : ∀ c ∈ ('+' :: m), isSpaceChar c = false := by
    intro c hc
    rcases List.mem_cons.mp hc with rfl | hm
    · rfl
    · exact hsp c hm
  rw [pyStrip_eq_self _ hs]
  rfl

/-- The unsigned, non-`$` route through `parse_integer`. -/
theorem parse_integer_unsigned (c0 : Char) (rest : List Char)
    (hlow : ∀ c ∈ (c0 :: rest), c.toLower = c)
    (hsp : ∀ c ∈ (c0 :: rest), isSpaceChar c = false)
    (hq1 : c0 ≠ '"') (hq2 : c0 ≠ '\'') (hq3 : c0 ≠ '$') (hq4 : c0 ≠ '+')
    (hq5 : c0 ≠ '-')
    (happSp : ∀ c ∈ applySuffix (c0 :: rest), isSpaceChar c = false)
    (happ1 : (applySuffix (c0 :: rest)).head? ≠ some '+')
    (happ2 : (applySuffix (c0 :: rest)).head? ≠ some '-') :
    parse_integer commonOpts ctx0 (c0 :: rest) =
      match pyIntMag (applySuffix (c0 :: rest)) with
      | some v => .ok (Int.ofNat v)
      | none =>
        .error (.value ("Malformed numeric text " ++ ⟨c0 :: rest⟩)) := by
  have ht2 : dollarToSuffix (pyStrip (pyLower (c0 :: rest))) = c0 :: rest := by
    rw [pyLower_eq_self _ hlow, pyStrip_eq_self _ hsp,
      dollarToSuffix_ne _ (by simp [hq3])]
  simp only [parse_integer]
  rw [if_neg (by simp [hq1, hq2])]
  rw [ht2]
  rw [if_neg (by simp)]
  rw [splitSign_ne _ (by simp [hq4]) (by simp [hq5])]
  simp only [List.nil_append]
  rw [pyIntBase0_nosign _ happSp happ1 happ2]
  cases pyIntMag (applySuffix (c0 :: rest)) <;> rfl

/-- The `-`-signed, non-`$` route through `parse_integer`. -/
theorem parse_integer_negSigned (c0 : Char) (rest : List Char)
    (hlow : ∀ c ∈ (c0 :: rest), c.toLower = c)
    (hsp : ∀ c ∈ (c0 :: rest), isSpaceChar c = false)
    (happSp : ∀ c ∈ applySuffix (c0 :: rest), isSpaceChar c = false) :
    parse_integer commonOpts ctx0 ('-' :: c0 :: rest) =
      match pyIntMag (applySuffix (c0 :: rest)) with
      | some v => .ok (-(Int.ofNat v))
      | none =>
        .error (.value ("Malformed numeric text " ++ ⟨'-' :: c0 :: rest⟩)) := by
  have hlow' : ∀ c ∈ ('-' :: c0 :: rest), c.toLower = c := by
    intro c hc
    rcases List.mem_cons.mp hc with rfl | hm
    · rfl
    · exact hlow c hm
  have hsp' : ∀ c ∈ ('-' :: c0 :: rest), isSpaceChar c = false := by
    intro c hc
    rcases List.mem_cons.mp hc with rfl | hm
    · rfl
    · exact hsp c hm
  have ht2 : dollarToSuffix (pyStrip (pyLower ('-' :: c0 :: rest))) =
      '-' :: c0 :: rest := by
    rw [pyLower_eq_self _ hlow', pyStrip_eq_self _ hsp',
      dollarToSuffix_ne _ (by simp)]
  simp only [parse_integer]
  rw [if_neg (by simp)]
  rw [ht2]
  rw [if_neg (by simp)]
  rw [show splitSign ('-' :: c0 :: rest) = (['-'], c0 :: rest) from rfl]
  simp only []
  rw [show (['-'] ++ applySuffix (c0 :: rest) : List Char) =
    '-' :: applySuffix (c0 :: rest) from rfl]
  rw [pyIntBase0_neg _ happSp]
  cases pyIntMag (applySuffix (c0 :: rest)) <;> rfl

/-- The `+`-signed, non-`$` route through `parse_integer`. -/
theorem parse_integer_posSigned (c0 : Char) (rest : List Char)
    (hlow : ∀ c ∈ (c0 :: rest), c.toLower = c)
    (hsp : ∀ c ∈ (c0 :: rest), isSpaceChar c = false)
    (happSp : ∀ c ∈ applySuffix (c0 :: rest), isSpaceChar c = false) :
    parse_integer commonOpts ctx0 ('+' :: c0 :: rest) =
      match pyIntMag (applySuffix (c0 :: rest)) with
      | some v => .ok (Int.ofNat v)
      | none =>
        .error (.value ("Malformed numeric text " ++ ⟨'+' :: c0 :: rest⟩)) := by
  have hlow' : ∀ c ∈ ('+' :: c0 :: rest), c.toLower = c := by
    intro c hc
    rcases List.mem_cons.mp hc with rfl | hm
    · rfl
    · exact hlow c hm
  have hsp' : ∀ c ∈ ('+' :: c0 :: rest), isSpaceChar c = false := by
    intro c hc
    rcases List.mem_cons.mp hc with rfl | hm
    · rfl
    · exact hsp c hm
  have ht2 : dollarToSuffix (pyStrip (pyLower ('+' :: c0 :: rest))) =
      '+' :: c0 :: rest := by
    rw [pyLower_eq_self _ hlow', pyStrip_eq_self _ hsp',
      dollarToSuffix_ne _ (by simp)]
  simp only [parse_integer]
  rw [if_neg (by simp)]
  rw [ht2]
  rw [if_neg (by simp)]
  rw [show splitSign ('+' :: c0 :: rest) = (['+'], c0 :: rest) from rfl]
  simp only []
  rw [show (['+'] ++ applySuffix (c0 :: rest) : List Char) =
    '+' :: applySuffix (c0 :: rest) from rfl]
  rw [pyIntBase0_pos _ happSp]
  cases pyIntMag (applySuffix (c0 :: rest)) <;> rfl

/-- The `$` route through `parse_integer`. -/
theorem parse_integer_dollar (c0 : Char) (rest : List Char)
    (hlow : ∀ c ∈ (c0 :: rest), c.toLower = c)
    (hsp : ∀ c ∈ (c0 :: rest), isSpaceChar c = false)
    (hq4 : c0 ≠ '+') (hq5 : c0 ≠ '-') :
    parse_integer commonOpts ctx0 ('$' :: c0 :: rest) =
      match pyIntMag ('0' :: 'x' :: c0 :: rest) with
      | some v => .ok (Int.ofNat v)
      | none =>
        .error (.value ("Malformed numeric text " ++ ⟨'$' :: c0 :: rest⟩)) := by
  have hlow' : ∀ c ∈ ('$' :: c0 :: rest), c.toLower = c := by
    intro c hc
    rcases List.mem_cons.mp hc with rfl | hm
    · rfl
    · exact hlow c hm
  have hsp' : ∀ c ∈ ('$' :: c0 :: rest), isSpaceChar c = false := by
    intro c hc
    rcases List.mem_cons.mp hc with rfl | hm
    · rfl
    · exact hsp c hm
  have ht2 : dollarToSuffix (pyStrip (pyLower ('$' :: c0 :: rest))) =
      (c0 :: rest) ++ ['h'] := by
    rw [pyLower_eq_self _ hlow', pyStrip_eq_self _ hsp']
    rfl
  simp only [parse_integer]
  rw [if_neg (by simp)]
  rw [ht2]
  rw [if_neg (by simp)]
  rw [splitSign_ne _ (by simp [hq4]) (by simp [hq5])]
  simp only [List.nil_append]
  rw [applySuffix_concat_h]
  have happSp : ∀ c ∈ (cs "0x" ++ (c0 :: rest) : List Char),
      isSpaceChar c = false := by
    intro x hx
    rcases List.mem_append.mp hx with hm | hm
    · have hx2 : x = '0' ∨ x = 'x' := by simpa [cs] using hm
      rcases hx2 with rfl | rfl <;> rfl
    · exact hsp x hm
  rw [pyIntBase0_nosign _ happSp (by simp [cs]) (by simp [cs])]
  rw [show (cs "0x" ++ (c0 :: rest) : List Char) = '0' :: 'x' :: c0 :: rest
    from rfl]
  cases pyIntMag ('0' :: 'x' :: c0 :: rest) <;> rfl

/-- Generic postfix-radix form: digits followed by a radix letter that is
rewritten to a `0?`-style prefix, with an optional sign in front. -/
theorem c7form_suffix (b : Nat) (suf p2 : Char)
    (hsufl : suf.toLower = suf) (hsufs : isSpaceChar suf = false)
    (hp2s : isSpaceChar p2 = false)
    (happc : ∀ l : List Char, applySuffix (l ++ [suf]) = '0' :: p2 :: l)
    (hmag : ∀ l : List Char, l ≠ [] → (∀ c ∈ l, isDigitIn b c = true) →
      pyIntMag ('0' :: p2 :: l) = some (digitsVal b l))
    (ds : List Char) (hne : ds ≠ []) (hd : ∀ c ∈ ds, lowerDigit b c) :
    parse_integer commonOpts ctx0 (ds ++ [suf]) =
      .ok (Int.ofNat (digitsVal b ds)) ∧
    parse_integer commonOpts ctx0 ('-' :: (ds ++ [suf])) =
      .ok (-(Int.ofNat (digitsVal b ds))) ∧
    parse_integer commonOpts ctx0 ('+' :: (ds ++ [suf])) =
      .ok (Int.ofNat (digitsVal b ds)) := by
  obtain ⟨c0, rest, rfl⟩ : ∃ c0 rest, ds = c0 :: rest := by
    cases ds with
    | nil => exact absurd rfl hne
    | cons a l => exact ⟨a, l, rfl⟩
  have hdig : ∀ x ∈ (c0 :: rest), isDigitIn b x = true :=
    fun x hx => (hd x hx).1
  have hfacts := digit_char_facts b c0 (hdig c0 (by simp))
  have hlowAll : ∀ x ∈ c0 :: (rest ++ [suf]), x.toLower = x := by
    intro x hx
    rcases List.mem_cons.mp hx with rfl | hm
    · exact (hd x (by simp)).2
    · rcases List.mem_append.mp hm with hm2 | hm2
      · exact (hd x (by simp [hm2])).2
      · simp at hm2; subst hm2; exact hsufl
  have hspAll : ∀ x ∈ c0 :: (rest ++ [suf]), isSpaceChar x = false := by
    intro x hx
    rcases List.mem_cons.mp hx with rfl | hm
    · exact hfacts.1
    · rcases List.mem_append.mp hm with hm2 | hm2
      · exact (digit_char_facts b x (hdig x (by simp [hm2]))).1
      · simp at hm2; subst hm2; exact hsufs
  have happEq : applySuffix (c0 :: (rest ++ [suf])) =
      '0' :: p2 :: (c0 :: rest) := by
    rw [show c0 :: (rest ++ [suf]) = (c0 :: rest) ++ [suf] from rfl, happc]
  have happSp : ∀ x ∈ applySuffix (c0 :: (rest ++ [suf])),
      isSpaceChar x = false := by
    rw [happEq]
    intro x hx
    rcases List.mem_cons.mp hx with rfl | hm
    · rfl
    · rcases List.mem_cons.mp hm with rfl | hm2
      · exact hp2s
      · exact (digit_char_facts b x (hdig x hm2)).1
  refine ⟨?_, ?_, ?_⟩
  · rw [show (c0 :: rest) ++ [suf] = c0 :: (rest ++ [suf]) from rfl]
    rw [parse_integer_unsigned c0 (rest ++ [suf]) hlowAll hspAll
      hfacts.2.1 hfacts.2.2.1 hfacts.2.2.2.1 hfacts.2.2.2.2.1
      hfacts.2.2.2.2.2.1 happSp (by rw [happEq]; simp) (by rw [happEq]; simp)]
    rw [happEq, hmag _ (by simp) hdig]
  · rw [show (c0 :: rest) ++ [suf] = c0 :: (rest ++ [suf]) from rfl]
    rw [parse_integer_negSigned c0 (rest ++ [suf]) hlowAll hspAll happSp]
    rw [happEq, hmag _ (by simp) hdig]
  · rw [show (c0 :: rest) ++ [suf] = c0 :: (rest ++ [suf]) from rfl]
    rw [parse_integer_posSigned c0 (rest ++ [suf]) hlowAll hspAll happSp]
    rw [happEq, hmag _ (by simp) hdig]

/-- The decimal-suffix form `DECd`, with an optional sign in front. -/
theorem c7form_dec (ds : List Char) (hne : ds ≠ [])
    (hd : ∀ c ∈ ds, lowerDigit 10 c)
    (h0 : ds.head? ≠ some '0' ∨ ds = ['0']) :
    parse_integer commonOpts ctx0 (ds ++ ['d']) =
      .ok (Int.ofNat (digitsVal 10 ds)) ∧
    parse_integer commonOpts ctx0 ('-' :: (ds ++ ['d'])) =
      .ok (-(Int.ofNat (digitsVal 10 ds))) ∧
    parse_integer commonOpts ctx0 ('+' :: (ds ++ ['d'])) =
      .ok (Int.ofNat (digitsVal 10 ds)) := by
  obtain ⟨c0, rest, rfl⟩ : ∃ c0 rest, ds = c0 :: rest := by
    cases ds with
    | nil => exact absurd rfl hne
    | cons a l => exact ⟨a, l, rfl⟩
  have hdig : ∀ x ∈ (c0 :: rest), isDigitIn 10 x = true :=
    fun x hx => (hd x hx).1
  have hfacts := digit_char_facts 10 c0 (hdig c0 (by simp))
  have hlowAll : ∀ x ∈ c0 :: (rest ++ ['d']), x.toLower = x := by
    intro x hx
    rcases List.mem_cons.mp hx with rfl | hm
    · exact (hd x (by simp)).2
    · rcases List.mem_append.mp hm with hm2 | hm2
      · exact (hd x (by simp [hm2])).2
      · simp at hm2; subst hm2; rfl
  have hspAll : ∀ x ∈ c0 :: (rest ++ ['d']), isSpaceChar x = false := by
    intro x hx
    rcases List.mem_cons.mp hx with rfl | hm
    · exact hfacts.1
    · rcases List.mem_append.mp hm with hm2 | hm2
      · exact (digit_char_facts 10 x (hdig x (by simp [hm2]))).1
      · simp at hm2; subst hm2; rfl
  have happEq : applySuffix (c0 :: (rest ++ ['d'])) = c0 :: rest := by
    rw [show c0 :: (rest ++ ['d']) = (c0 :: rest) ++ ['d'] from rfl,
      applySuffix_concat_d]
  have hmagEq : pyIntMag (c0 :: rest) = some (digitsVal 10 (c0 :: rest)) :=
    pyIntMag_dec _ (by simp) hdig h0
  have happSp : ∀ x ∈ applySuffix (c0 :: (rest ++ ['d'])),
      isSpaceChar x = false := by
    rw [happEq]
    intro x hx
    exact (digit_char_facts 10 x (hdig x hx)).1
  refine ⟨?_, ?_, ?_⟩
  · rw [show (c0 :: rest) ++ ['d'] = c0 :: (rest ++ ['d']) from rfl]
    rw [parse_integer_unsigned c0 (rest ++ ['d']) hlowAll hspAll
      hfacts.2.1 hfacts.2.2.1 hfacts.2.2.2.1 hfacts.2.2.2.2.1
      hfacts.2.2.2.2.2.1 happSp
      (by rw [happEq]; simp; rintro rfl; exact absurd rfl hfacts.2.2.2.2.1)
      (by rw [happEq]; simp; rintro rfl; exact absurd rfl hfacts.2.2.2.2.2.1)]
    rw [happEq, hmagEq]
  · rw [show (c0 :: rest) ++ ['d'] = c0 :: (rest ++ ['d']) from rfl]
    rw [parse_integer_negSigned c0 (rest ++ ['d']) hlowAll hspAll happSp]
    rw [happEq, hmagEq]
  · rw [show (c0 :: rest) ++ ['d'] = c0 :: (rest ++ ['d']) from rfl]
    rw [parse_integer_posSigned c0 (rest ++ ['d']) hlowAll hspAll happSp]
    rw [happEq, hmagEq]

/-- A standard-prefix form `0x`/`0o`/`0b`, with an optional sign in front;
the digit string must not end in a letter that the suffix heuristic would
strip (`h`, `b`, `o`, `q`, `d`). -/
theorem c7form_prefixed (b : Nat) (p2 : Char)
    (hp2l : p2.toLower = p2) (hp2sp : isSpaceChar p2 = false)
    (hmag : ∀ l : List Char, l ≠ [] → (∀ c ∈ l, isDigitIn b c = true) →
      pyIntMag ('0' :: p2 :: l) = some (digitsVal b l))
    (ds : List Char) (hne : ds ≠ []) (hd : ∀ c ∈ ds, lowerDigit b c)
    (hlast : ∀ c, ds.getLast? = some c →
      c ≠ 'h' ∧ c ≠ 'b' ∧ c ≠ 'o' ∧ c ≠ 'q' ∧ c ≠ 'd') :
    parse_integer commonOpts ctx0 ('0' :: p2 :: ds) =
      .ok (Int.ofNat (digitsVal b ds)) ∧
    parse_integer commonOpts ctx0 ('-' :: '0' :: p2 :: ds) =
      .ok (-(Int.ofNat (digitsVal b ds))) ∧
    parse_integer commonOpts ctx0 ('+' :: '0' :: p2 :: ds) =
      .ok (Int.ofNat (digitsVal b ds)) := by
  have hdig : ∀ x ∈ ds, isDigitIn b x = true := fun x hx => (hd x hx).1
  have hlowAll : ∀ x ∈ '0' :: (p2 :: ds), x.toLower = x := by
    intro x hx
    rcases List.mem_cons.mp hx with rfl | hm
    · rfl
    · rcases List.mem_cons.mp hm with rfl | hm2
      · exact hp2l
      · exact (hd x hm2).2
  have hspAll : ∀ x ∈ '0' :: (p2 :: ds), isSpaceChar x = false := by
    intro x hx
    rcases List.mem_cons.mp hx with rfl | hm
    · rfl
    · rcases List.mem_cons.mp hm with rfl | hm2
      · exact hp2sp
      · exact (digit_char_facts b x (hdig x hm2)).1
  have happEq : applySuffix ('0' :: p2 :: ds) = '0' :: p2 :: ds := by
    apply applySuffix_id
    intro c hc
    apply hlast
    obtain ⟨d0, ds', rfl⟩ : ∃ d0 ds', ds = d0 :: ds' := by
      cases ds with
      | nil => exact absurd rfl hne
      | cons a l => exact ⟨a, l, rfl⟩
    rw [List.getLast?_cons_cons, List.getLast?_cons_cons] at hc
    exact hc
  have happSp : ∀ x ∈ applySuffix ('0' :: p2 :: ds),
      isSpaceChar x = false := by
    rw [happEq]; exact hspAll
  have hmagEq : pyIntMag ('0' :: p2 :: ds) = some (digitsVal b ds) :=
    hmag ds hne hdig
  refine ⟨?_, ?_, ?_⟩
  · rw [parse_integer_unsigned '0' (p2 :: ds) hlowAll hspAll
      (by decide) (by decide) (by decide) (by decide) (by decide) happSp
      (by rw [happEq]; simp) (by rw [happEq]; simp)]
    rw [happEq, hmagEq]
  · rw [parse_integer_negSigned '0' (p2 :: ds) hlowAll hspAll happSp]
    rw [happEq, hmagEq]
  · rw [parse_integer_posSigned '0' (p2 :: ds) hlowAll hspAll happSp]
    rw [happEq, hmagEq]

theorem mem_of_getLast?_eq {α : Type} (l : List α) (c : α)
    (h : l.getLast? = some c) : c ∈ l := by
  obtain ⟨hne, rfl⟩ := List.mem_getLast?_eq_getLast (Option.mem_def.mpr h)
  exact List.getLast_mem hne

/-- The `$HEX` sigil form (unsigned: the sigil rewrite happens before sign
splitting, so a sign can only appear where the rewrite no longer fires). -/
theorem c7form_dollar (ds : List Char) (hne : ds ≠ [])
    (hd : ∀ c ∈ ds, lowerDigit 16 c) :
    parse_integer commonOpts ctx0 ('$' :: ds) =
      .ok (Int.ofNat (digitsVal 16 ds)) := by
  obtain ⟨c0, rest, rfl⟩ : ∃ c0 rest, ds = c0 :: rest := by
    cases ds with
    | nil => exact absurd rfl hne
    | cons a l => exact ⟨a, l, rfl⟩
  have hdig : ∀ x ∈ (c0 :: rest), isDigitIn 16 x = true :=
    fun x hx => (hd x hx).1
  have hfacts := digit_char_facts 16 c0 (hdig c0 (by simp))
  rw [parse_integer_dollar c0 rest (fun c hc => (hd c hc).2)
    (fun c hc => (digit_char_facts 16 c (hdig c hc)).1)
    hfacts.2.2.2.2.1 hfacts.2.2.2.2.2.1]
  rw [pyIntMag_pre16 _ (by simp) hdig]

/-- C7 (amended). The integer-literal parser accepts `$HEX` (unsigned),
and, with an optional leading `+` or `-`, `HEXh`, `BINb`, `OCTo`, `OCTq`,
`DECd` and the standard-prefix forms `0x`/`0o`/`0b` (for `0x` only when the
last digit is not one of the suffix letters h/b/o/q/d, which the suffix
heuristic would strip), returning the denoted value; the prefix/suffix
letters are case-insensitive (shown on concrete uppercase inputs). A sign
may NOT precede the `$` sigil form: the sigil rewrite runs before sign
splitting, so `-$1a` and `+$1a` are rejected as malformed. -/
theorem c7_integer_literal_forms_amended
    (ds16 ds2 ds8 ds10 : List Char)
    (h16ne : ds16 ≠ []) (h16d : ∀ c ∈ ds16, lowerDigit 16 c)
    (h2ne : ds2 ≠ []) (h2d : ∀ c ∈ ds2, lowerDigit 2 c)
    (h8ne : ds8 ≠ []) (h8d : ∀ c ∈ ds8, lowerDigit 8 c)
    (h10ne : ds10 ≠ []) (h10d : ∀ c ∈ ds10, lowerDigit 10 c)
    (h10z : ds10.head? ≠ some '0' ∨ ds10 = ['0'])
    (h16last : ∀ c, ds16.getLast? = some c →
      c ≠ 'h' ∧ c ≠ 'b' ∧ c ≠ 'o' ∧ c ≠ 'q' ∧ c ≠ 'd') :
    parse_integer commonOpts ctx0 ('$' :: ds16) =
      .ok (Int.ofNat (digitsVal 16 ds16)) ∧
    parse_integer commonOpts ctx0 (ds16 ++ ['h']) =
      .ok (Int.ofNat (digitsVal 16 ds16)) ∧
    parse_integer commonOpts ctx0 ('-' :: (ds16 ++ ['h'])) =
      .ok (-(Int.ofNat (digitsVal 16 ds16))) ∧
    parse_integer commonOpts ctx0 ('+' :: (ds16 ++ ['h'])) =
      .ok (Int.ofNat (digitsVal 16 ds16)) ∧
    parse_integer commonOpts ctx0 (ds2 ++ ['b']) =
      .ok (Int.ofNat (digitsVal 2 ds2)) ∧
    parse_integer commonOpts ctx0 ('-' :: (ds2 ++ ['b'])) =
      .ok (-(Int.ofNat (digitsVal 2 ds2))) ∧
    parse_integer commonOpts ctx0 ('+' :: (ds2 ++ ['b'])) =
      .ok (Int.ofNat (digitsVal 2 ds2)) ∧
    parse_integer commonOpts ctx0 (ds8 ++ ['o']) =
      .ok (Int.ofNat (digitsVal 8 ds8)) ∧
    parse_integer commonOpts ctx0 ('-' :: (ds8 ++ ['o'])) =
      .ok (-(Int.ofNat (digitsVal 8 ds8))) ∧
    parse_integer commonOpts ctx0 ('+' :: (ds8 ++ ['o'])) =
      .ok (Int.ofNat (digitsVal 8 ds8)) ∧
    parse_integer commonOpts ctx0 (ds8 ++ ['q']) =
      .ok (Int.ofNat (digitsVal 8 ds8)) ∧
    parse_integer commonOpts ctx0 ('-' :: (ds8 ++ ['q'])) =
      .ok (-(Int.ofNat (digitsVal 8 ds8))) ∧
    parse_integer commonOpts ctx0 ('+' :: (ds8 ++ ['q'])) =
      .ok (Int.ofNat (digitsVal 8 ds8)) ∧
    parse_integer commonOpts ctx0 (ds10 ++ ['d']) =
      .ok (Int.ofNat (digitsVal 10 ds10)) ∧
    parse_integer commonOpts ctx0 ('-' :: (ds10 ++ ['d'])) =
      .ok (-(Int.ofNat (digitsVal 10 ds10))) ∧
    parse_integer commonOpts ctx0 ('+' :: (ds10 ++ ['d'])) =
      .ok (Int.ofNat (digitsVal 10 ds10)) ∧
    parse_integer commonOpts ctx0 ('0' :: 'x' :: ds16) =
      .ok (Int.ofNat (digitsVal 16 ds16)) ∧
    parse_integer commonOpts ctx0 ('-' :: '0' :: 'x' :: ds16) =
      .ok (-(Int.ofNat (digitsVal 16 ds16))) ∧
    parse_integer commonOpts ctx0 ('+' :: '0' :: 'x' :: ds16) =
      .ok (Int.ofNat (digitsVal 16 ds16)) ∧
    parse_integer commonOpts ctx0 ('0' :: 'o' :: ds8) =
      .ok (Int.ofNat (digitsVal 8 ds8)) ∧
    parse_integer commonOpts ctx0 ('-' :: '0' :: 'o' :: ds8) =
      .ok (-(Int.ofNat (digitsVal 8 ds8))) ∧
    parse_integer commonOpts ctx0 ('+' :: '0' :: 'o' :: ds8) =
      .ok (Int.ofNat (digitsVal 8 ds8)) ∧
    parse_integer commonOpts ctx0 ('0' :: 'b' :: ds2) =
      .ok (Int.ofNat (digitsVal 2 ds2)) ∧
    parse_integer commonOpts ctx0 ('-' :: '0' :: 'b' :: ds2) =
      .ok (-(Int.ofNat (digitsVal 2 ds2))) ∧
    parse_integer commonOpts ctx0 ('+' :: '0' :: 'b' :: ds2) =
      .ok (Int.ofNat (digitsVal 2 ds2)) ∧
    parse_integer commonOpts ctx0 (cs "1Ah") = .ok 26 ∧
    parse_integer commonOpts ctx0 (cs "$1A") = .ok 26 ∧
    parse_integer commonOpts ctx0 (cs "0B101") = .ok 5 ∧
    (parse_integer commonOpts ctx0 (cs "-$1a")).toOption = none ∧
    (parse_integer commonOpts ctx0 (cs "+$1a")).toOption = none := by
  have Hdollar := c7form_dollar ds16 h16ne h16d
  have Hh := c7form_suffix 16 'h' 'x' rfl rfl rfl
    (fun l => applySuffix_concat_h l) pyIntMag_pre16 ds16 h16ne h16d
  have Hb := c7form_suffix 2 'b' 'b' rfl rfl rfl
    (fun l => applySuffix_concat_b l) pyIntMag_pre2 ds2 h2ne h2d
  have Ho := c7form_suffix 8 'o' 'o' rfl rfl rfl
    (fun l => applySuffix_concat_o l) pyIntMag_pre8 ds8 h8ne h8d
  have Hq := c7form_suffix 8 'q' 'o' rfl rfl rfl
    (fun l => applySuffix_concat_q l) pyIntMag_pre8 ds8 h8ne h8d
  have Hd := c7form_dec ds10 h10ne h10d h10z
  have Hx := c7form_prefixed 16 'x' rfl rfl pyIntMag_pre16 ds16 h16ne h16d
    h16last
  have Ho2 := c7form_prefixed 8 'o' rfl rfl pyIntMag_pre8 ds8 h8ne h8d
    (fun c hc => digit_not_suffix 8 (by simp) c
      ((h8d c (mem_of_getLast?_eq _ _ hc)).1))
  have Hb2 := c7form_prefixed 2 'b' rfl rfl pyIntMag_pre2 ds2 h2ne h2d
    (fun c hc => digit_not_suffix 2 (by simp) c
      ((h2d c (mem_of_getLast?_eq _ _ hc)).1))
  exact ⟨Hdollar, Hh.1, Hh.2.1, Hh.2.2, Hb.1, Hb.2.1, Hb.2.2,
    Ho.1, Ho.2.1, Ho.2.2, Hq.1, Hq.2.1, Hq.2.2, Hd.1, Hd.2.1, Hd.2.2,
    Hx.1, Hx.2.1, Hx.2.2, Ho2.1, Ho2.2.1, Ho2.2.2, Hb2.1, Hb2.2.1, Hb2.2.2,
    rfl, rfl, rfl, rfl, rfl⟩

/-- C7 counterexample to the claim as stated: a sign may not precede the
`$` sigil (`-$1A` and `+$10` are rejected), and a standard-prefix literal
whose last digit is a suffix letter is mangled: `0x2d` parses as 2, not
0x2d = 45. -/
theorem c7_sign_before_dollar_refuted :
    (parse_integer commonOpts ctx0 (cs "-$1A")).toOption = none ∧
    (parse_integer commonOpts ctx0 (cs "+$10")).toOption = none ∧
    parse_integer commonOpts ctx0 (cs "0x2d") = .ok 2 ∧
    (2 : Int) ≠ 0x2d := by
  refine ⟨rfl, rfl, rfl, by decide⟩

/-- Witness for C7: the amended theorem instantiated at concrete digit
strings `1a`, `101`, `17`, `42`. -/
theorem c7_integer_literal_forms_amended_witness :
    (cs "1a" ≠ [] ∧ (∀ c ∈ cs "1a", lowerDigit 16 c)) ∧
    (cs "101" ≠ [] ∧ (∀ c ∈ cs "101", lowerDigit 2 c)) ∧
    (cs "17" ≠ [] ∧ (∀ c ∈ cs "17", lowerDigit 8 c)) ∧
    (cs "42" ≠ [] ∧ (∀ c ∈ cs "42", lowerDigit 10 c) ∧
      ((cs "42").head? ≠ some '0' ∨ cs "42" = ['0'])) ∧
    (∀ c, (cs "1a").getLast? = some c →
      c ≠ 'h' ∧ c ≠ 'b' ∧ c ≠ 'o' ∧ c ≠ 'q' ∧ c ≠ 'd') ∧
    parse_integer commonOpts ctx0 ('$' :: cs "1a") = .ok 26 ∧
    parse_integer commonOpts ctx0 ('-' :: (cs "1a" ++ ['h'])) = .ok (-26) ∧
    parse_integer commonOpts ctx0 ('-' :: '0' :: 'b' :: cs "101") =
      .ok (-5) := by
  have hd16 : ∀ c ∈ cs "1a", lowerDigit 16 c := by
    intro c hc; fin_cases hc <;> exact ⟨by decide, by decide⟩
  have hd2 : ∀ c ∈ cs "101", lowerDigit 2 c := by
    intro c hc; fin_cases hc <;> exact ⟨by decide, by decide⟩
  have hd8 : ∀ c ∈ cs "17", lowerDigit 8 c := by
    intro c hc; fin_cases hc <;> exact ⟨by decide, by decide⟩
  have hd10 : ∀ c ∈ cs "42", lowerDigit 10 c := by
    intro c hc; fin_cases hc <;> exact ⟨by decide, by decide⟩
  have hlast : ∀ c, (cs "1a").getLast? = some c →
      c ≠ 'h' ∧ c ≠ 'b' ∧ c ≠ 'o' ∧ c ≠ 'q' ∧ c ≠ 'd' := by
    intro c hc
    injection (show some 'a' = some c from hc) with h
    subst h
    decide
  have H := c7_integer_literal_forms_amended (cs "1a") (cs "101") (cs "17")
    (cs "42") (by decide) hd16 (by decide) hd2 (by decide) hd8 (by decide)
    hd10 (by decide) hlast
  exact ⟨⟨by decide, hd16⟩, ⟨by decide, hd2⟩, ⟨by decide, hd8⟩,
    ⟨by decide, hd10, by decide⟩, hlast, H.1, H.2.2.1, H.2.2.2.2.2.2.2.2.2.2.2.2.2.2.2.2.2.2.2.2.2.2.2.1⟩

/-! ## C4: data-statement alignment -/

/-- A concrete `dd $12345678` op (element size 4). -/
def ddOpC4 : Op :=
  { lineno := 3, line := cs "      dd $12345678",
    opcode := some (cs "dd"),
    args := [{ stripped := cs "$12345678" }],
    todo := some Todo.codegen }

/-- A concrete `dw $1234` op (element size 2). -/
def dwOpC4 : Op :=
  { lineno := 3, line := cs "      dw $1234",
    opcode := some (cs "dw"),
    args := [{ stripped := cs "$1234" }],
    todo := some Todo.codegen }

/-- C4 (code bug). `codegen_data` pads with `'00' * (pos % element_size)`
zero bytes, which does NOT align the data to a multiple of the element
size: with `pos = 1`, `dd $12345678` pads exactly one zero byte, so its
payload begins at address 2, not at a multiple of 4 — contradicting both
the claim and the function's own docstring ("align generated data to an
integer multiple of element_size").  The claim's own `dw` example (pos = 3
pads one byte, payload at 4) does hold, because for element size 2 the
wrong formula coincides with the right one; and with `pos` unknown the
statement raises the alignment `ValueError` unconditionally. -/
theorem c4_data_alignment_code_bug :
    ((_gen_codegen_data 4 false true commonOpts { ctx0 with pos := some 1 }
        ddOpC4).toOption.map (fun r => (r.2.1.hex, r.1.pos)) =
      some (some "0012345678", some 6)) ∧
    ((1 : Int) + 1) % 4 ≠ 0 ∧
    ((_gen_codegen_data 2 false true commonOpts { ctx0 with pos := some 3 }
        dwOpC4).toOption.map (fun r => (r.2.1.hex, r.1.pos)) =
      some (some "001234", some 6)) ∧
    ((3 : Int) + 1) % 2 = 0 ∧
    (_gen_codegen_data 2 false true commonOpts { ctx0 with pos := none }
        dwOpC4) = .error (.value dataAlignErrMsg) := by
  refine ⟨by decide, by decide, by decide, by decide, rfl⟩

/-! ## C8: label shape and uniqueness -/

/-- All label names attached to a list of ops, in source order. -/
def opLabels : List Op → List (List Char)
  | [] => []
  | op :: rest => op.labels ++ opLabels rest

theorem mem_insertLex (x y : List Char) (l : List (List Char)) :
    x ∈ insertLex y l ↔ x = y ∨ x ∈ l := by
  induction l with
  | nil => simp [insertLex]
  | cons z rest ih =>
    simp only [insertLex]
    split
    · simp [List.mem_cons]
    · simp only [List.mem_cons, ih]
      tauto

theorem mem_sortStrings (x : List Char) (l : List (List Char)) :
    x ∈ sortStrings l ↔ x ∈ l := by
  induction l with
  | nil => simp [sortStrings]
  | cons y rest ih =>
    show x ∈ insertLex y (sortStrings rest) ↔ _
    rw [mem_insertLex]
    simp [List.mem_cons, ih]

theorem nodup_insertLex (y : List Char) (l : List (List Char))
    (hy : y ∉ l) (hl : l.Nodup) : (insertLex y l).Nodup := by
  induction l with
  | nil => simp [insertLex]
  | cons z rest ih =>
    simp only [insertLex]
    rw [List.nodup_cons] at hl
    split
    · rw [List.nodup_cons, List.nodup_cons]
      exact ⟨hy, hl.1, hl.2⟩
    · rw [List.nodup_cons]
      constructor
      · rw [mem_insertLex]
        push_neg
        exact ⟨fun h => hy (by simp [h]), hl.1⟩
      · exact ih (fun h => hy (by simp [h])) hl.2

theorem nodup_sortStrings (l : List (List Char)) (h : l.Nodup) :
    (sortStrings l).Nodup := by
  induction l with
  | nil => simp [sortStrings]
  | cons y rest ih =>
    rw [List.nodup_cons] at h
    exact nodup_insertLex y (sortStrings rest)
      (fun hm => h.1 ((mem_sortStrings _ _).mp hm)) (ih h.2)

theorem mem_addToSet (x y : List Char) (l : List (List Char)) :
    x ∈ addToSet l y ↔ x = y ∨ x ∈ l := by
  unfold addToSet
  split
  · rename_i hmem
    constructor
    · tauto
    · rintro (rfl | h) <;> [exact hmem; exact h]
  · simp [List.mem_append]
    tauto

theorem nodup_addToSet (y : List Char) (l : List (List Char))
    (h : l.Nodup) : (addToSet l y).Nodup := by
  unfold addToSet
  split
  · exact h
  · rename_i hmem
    rw [List.nodup_append]
    refine ⟨h, List.nodup_singleton y, fun a ha hb => ?_⟩
    have : a = y := by simpa using hb
    exact hmem (this ▸ ha)

theorem find?_append {α : Type} (p : α → Bool) (l1 l2 : List α) :
    (l1 ++ l2).find? p =
      match l1.find? p with
      | some x => some x
      | none => l2.find? p := by
  induction l1 with
  | nil => simp
  | cons a rest ih =>
    by_cases h : p a
    · simp [List.find?_cons_of_pos _ h]
    · simp only [List.cons_append,
        List.find?_cons_of_neg _ (by simpa using h)]
      exact ih

theorem find?_isSome_mono {α : Type} (p : α → Bool) (l1 l2 : List α)
    (h : (l1.find? p).isSome = true) :
    ((l1 ++ l2).find? p).isSome = true := by
  rw [find?_append]
  cases hf : l1.find? p with
  | none => rw [hf] at h; simp at h
  | some x => simp

theorem find?_isSome_anti {α : Type} (p : α → Bool) (l1 l2 : List α)
    (h : ((l1 ++ l2).find? p).isSome = false) :
    (l1.find? p).isSome = false := by
  rw [find?_append] at h
  cases hf : l1.find? p with
  | none => simp
  | some x => rw [hf] at h; simp at h

/-- The step of `read_source` that flushes the pending labels into a new op:
the conclusions of the label invariant carry over from the recursive call. -/
theorem readGo_flush_step (current' : List (List Char))
    (claimed' : List (List Char × Nat))
    (hm' : ∀ lab ∈ current', labelMatch lab = true)
    (hn' : current'.Nodup)
    (hs' : ∀ lab ∈ current',
      (claimed'.find? (fun p => p.1 = lab)).isSome = true)
    (ops' : List Op)
    (ih1 : ∀ op ∈ ops', ∀ lab ∈ op.labels, labelMatch lab = true)
    (ih2 : (opLabels ops').Nodup)
    (ih3 : ∀ lab ∈ opLabels ops',
      lab ∈ ([] : List (List Char)) ∨
        (claimed'.find? (fun p => p.1 = lab)).isSome = false)
    (op0 : Op) (hop0 : op0.labels = sortStrings current') :
    (∀ op ∈ op0 :: ops', ∀ lab ∈ op.labels, labelMatch lab = true) ∧
    (opLabels (op0 :: ops')).Nodup ∧
    (∀ lab ∈ opLabels (op0 :: ops'),
      lab ∈ current' ∨
        (claimed'.find? (fun p => p.1 = lab)).isSome = false) := by
  have hfresh : ∀ lab ∈ opLabels ops',
      (claimed'.find? (fun p => p.1 = lab)).isSome = false := by
    intro lab hl
    rcases ih3 lab hl with hin | hout
    · simp at hin
    · exact hout
  refine ⟨?_, ?_, ?_⟩
  · intro op hop lab hl
    rcases List.mem_cons.mp hop with rfl | hmem
    · exact hm' lab ((mem_sortStrings _ _).mp (hop0 ▸ hl))
    · exact ih1 op hmem lab hl
  · show (op0.labels ++ opLabels ops').Nodup
    rw [hop0, List.nodup_append]
    refine ⟨nodup_sortStrings _ hn', ih2, ?_⟩
    intro a ha hb
    have h1 : (claimed'.find? (fun p => p.1 = a)).isSome = true :=
      hs' a ((mem_sortStrings _ _).mp ha)
    have h2 := hfresh a hb
    rw [h1] at h2
    exact absurd h2 (by simp)
  · intro lab hl
    rcases List.mem_append.mp
        (show lab ∈ op0.labels ++ opLabels ops' from hl) with hmem | hmem
    · exact Or.inl ((mem_sortStrings _ _).mp (hop0 ▸ hmem))
    · exact Or.inr (hfresh lab hmem)

/-- The label invariant of `read_source`'s loop: on success, every recorded
label satisfies the anchored *prefix* match, the labels of all ops are
pairwise distinct, and every one is either pending or fresh with respect to
the claimed table. -/
theorem readGo_labels_inv (lines : List (List Char)) :
    ∀ (lineno : Nat) (current : List (List Char))
      (claimed : List (List Char × Nat)) (ops : List Op),
    readGo lineno lines current claimed = .ok ops →
    (∀ lab ∈ current, labelMatch lab = true) →
    current.Nodup →
    (∀ lab ∈ current,
      (claimed.find? (fun p => p.1 = lab)).isSome = true) →
    (∀ op ∈ ops, ∀ lab ∈ op.labels, labelMatch lab = true) ∧
    (opLabels ops).Nodup ∧
    (∀ lab ∈ opLabels ops,
      lab ∈ current ∨
        (claimed.find? (fun p => p.1 = lab)).isSome = false) := by
  induction lines with
  | nil =>
    intro lineno current claimed ops h hmatch hnodup hsub
    simp only [readGo, Except.ok.injEq] at h
    subst h
    exact ⟨by simp, by simp [opLabels], by simp [opLabels]⟩
  | cons line rest ih =>
    intro lineno current claimed ops h hmatch hnodup hsub
    simp only [readGo] at h
    cases htok : tokenize (codePrefix line) with
    | nil =>
      rw [htok] at h
      simp only [ne_eq, not_true_eq_false, if_false] at h
      exact ih (lineno + 1) current claimed ops h hmatch hnodup hsub
    | cons t0 trest =>
      rw [htok] at h
      dsimp only at h
      by_cases hcond : t0.getLast? = some ':' ∧ labelMatch t0.dropLast = true
      · rw [if_pos hcond] at h
        cases hfind : claimed.find? (fun p => p.1 = t0.dropLast) with
        | some p => rw [hfind] at h; simp at h
        | none =>
          rw [hfind] at h
          simp only [] at h
          by_cases htr : trest = []
          · subst htr
            simp only [ne_eq, not_true_eq_false, if_false] at h
            have hm' : ∀ lab ∈ addToSet current t0.dropLast,
                labelMatch lab = true := by
              intro lab hl
              rcases (mem_addToSet _ _ _).mp hl with rfl | hmem
              · exact hcond.2
              · exact hmatch lab hmem
            have hn' := nodup_addToSet t0.dropLast current hnodup
            have hs' : ∀ lab ∈ addToSet current t0.dropLast,
                ((claimed ++ [(t0.dropLast, lineno)]).find?
                  (fun p => p.1 = lab)).isSome = true := by
              intro lab hl
              rcases (mem_addToSet _ _ _).mp hl with rfl | hmem
              · rw [find?_append, hfind]
                simp [List.find?_cons_of_pos]
              · exact find?_isSome_mono _ _ _ (hsub lab hmem)
            obtain ⟨ih1, ih2, ih3⟩ :=
              ih (lineno + 1) (addToSet current t0.dropLast)
                (claimed ++ [(t0.dropLast, lineno)]) ops h hm' hn' hs'
            refine ⟨ih1, ih2, ?_⟩
            intro lab hl
            rcases ih3 lab hl with hin | hout
            · rcases (mem_addToSet _ _ _).mp hin with rfl | hmem
              · right; rw [hfind]; rfl
              · exact Or.inl hmem
            · exact Or.inr (find?_isSome_anti _ _ _ hout)
          · rw [if_pos (by simpa using htr)] at h
            cases hrec : readGo (lineno + 1) rest []
                (claimed ++ [(t0.dropLast, lineno)]) with
            | error e => rw [hrec] at h; simp at h
            | ok ops' =>
              rw [hrec] at h
              simp only [Except.ok.injEq] at h
              subst h
              obtain ⟨ih1, ih2, ih3⟩ :=
                ih (lineno + 1) [] (claimed ++ [(t0.dropLast, lineno)])
                  ops' hrec (by simp) List.nodup_nil (by simp)
              have hm' : ∀ lab ∈ addToSet current t0.dropLast,
                  labelMatch lab = true := by
                intro lab hl
                rcases (mem_addToSet _ _ _).mp hl with rfl | hmem
                · exact hcond.2
                · exact hmatch lab hmem
              have hn' := nodup_addToSet t0.dropLast current hnodup
              have hs' : ∀ lab ∈ addToSet current t0.dropLast,
                  ((claimed ++ [(t0.dropLast, lineno)]).find?
                    (fun p => p.1 = lab)).isSome = true := by
                intro lab hl
                rcases (mem_addToSet _ _ _).mp hl with rfl | hmem
                · rw [find?_append, hfind]
                  simp [List.find?_cons_of_pos]
                · exact find?_isSome_mono _ _ _ (hsub lab hmem)
              obtain ⟨c1, c2, c3⟩ := readGo_flush_step
                (addToSet current t0.dropLast)
                (claimed ++ [(t0.dropLast, lineno)]) hm' hn' hs'
                ops' ih1 ih2 ih3
                { lineno := lineno, line := line, tokens := trest,
                  labels := sortStrings (addToSet current t0.dropLast),
                  todo := some Todo.lexer } rfl
              refine ⟨c1, c2, ?_⟩
              intro lab hl
              rcases c3 lab hl with hin | hout
              · rcases (mem_addToSet _ _ _).mp hin with rfl | hmem
                · right; rw [hfind]; rfl
                · exact Or.inl hmem
              · exact Or.inr (find?_isSome_anti _ _ _ hout)
      · rw [if_neg hcond] at h
        simp only [] at h
        rw [if_pos (by simp)] at h
        cases hrec : readGo (lineno + 1) rest [] claimed with
        | error e => rw [hrec] at h; simp at h
        | ok ops' =>
          rw [hrec] at h
          simp only [Except.ok.injEq] at h
          subst h
          obtain ⟨ih1, ih2, ih3⟩ :=
            ih (lineno + 1) [] claimed ops' hrec (by simp)
              List.nodup_nil (by simp)
          obtain ⟨c1, c2, c3⟩ := readGo_flush_step current claimed
            hmatch hnodup hsub ops' ih1 ih2 ih3
            { lineno := lineno, line := line, tokens := t0 :: trest,
              labels := sortStrings current,
              todo := some Todo.lexer } rfl
          exact ⟨c1, c2, c3⟩

/-- C8 (amended). Every label name recorded by `read_source` satisfies the
anchored *prefix* match of `LABEL_RE` (`read_source` uses `match`, not
`fullmatch`, so only the first character is constrained to
`[_A-Za-z]`); each name is bound at most once across the whole program;
and a label reused on a second source line is a fatal load-time error
whose message references the earlier line that first used the name
(instantiated on the two-line program `x: nop` / `x: nop`, which fails
citing line 0). -/
theorem c8_label_rules_amended (program : List (List Char)) (ops : List Op)
    (lines : List (List Char)) (h : read_source program = .ok (ops, lines)) :
    (∀ op ∈ ops, ∀ lab ∈ op.labels, labelMatch lab = true) ∧
    (opLabels ops).Nodup ∧
    read_source [cs "x: nop", cs "x: nop"] =
      .error (.fatal 1 (cs "x: nop") (.dupLabel (cs "x") 0)) := by
  have hdup : read_source [cs "x: nop", cs "x: nop"] =
      .error (.fatal 1 (cs "x: nop") (.dupLabel (cs "x") 0)) := rfl
  have h' : readGo 0 program [] [] = .ok ops := by
    unfold read_source at h
    cases hg : readGo 0 program [] [] with
    | error e => rw [hg] at h; exact absurd h (by simp [Except.map])
    | ok o =>
      rw [hg] at h
      simp only [Except.map, Except.ok.injEq, Prod.mk.injEq] at h
      rw [h.1]
  obtain ⟨a, b, -⟩ := readGo_labels_inv program 0 [] [] ops h'
    (by simp) List.nodup_nil (by simp)
  exact ⟨a, b, hdup⟩

/-- C8 counterexample to the full-match reading: the one-line program
`a$b: nop` loads successfully and records the label `a$b`, which does not
match `[_A-Za-z][_A-Za-z0-9]*` in full. -/
theorem c8_full_match_refuted :
    (read_source [cs "a$b: nop"]).toOption.map (fun r => opLabels r.1) =
      some [cs "a$b"] ∧
    labelFullmatch (cs "a$b") = false := ⟨by decide, by decide⟩

/-- The two-line program of the C8 witness. -/
def progC8 : List (List Char) := [cs "lbl: nop", cs "      nop"]

/-- What `read_source` produces for `progC8`. -/
def opsC8 : List Op :=
  [{ lineno := 0, line := cs "lbl: nop", tokens := [cs "nop"],
     labels := [cs "lbl"], todo := some Todo.lexer },
   { lineno := 1, line := cs "      nop", tokens := [cs "nop"],
     labels := [], todo := some Todo.lexer }]

/-- Witness for C8: the amended theorem instantiated on `progC8`. -/
theorem c8_label_rules_amended_witness :
    read_source progC8 = .ok (opsC8, progC8) ∧
    ((∀ op ∈ opsC8, ∀ lab ∈ op.labels, labelMatch lab = true) ∧
     (opLabels opsC8).Nodup ∧
     read_source [cs "x: nop", cs "x: nop"] =
       .error (.fatal 1 (cs "x: nop") (.dupLabel (cs "x") 0))) :=
  ⟨rfl, c8_label_rules_amended progC8 opsC8 progC8 rfl⟩

/-! ## C10: address collisions keep the first op -/

/-- `setdefault` semantics of the `addr_to_op` construction: looking up an
address in the finished map finds the first `(addr, op)` pair of the input,
in source order (after any pairs already accumulated). -/
theorem buildGo_find? (pairs : List (Option Int × Op)) :
    ∀ (acc : List (Option Int × Op)) (coll : List (Option Int × Op × Op))
      (addr : Option Int),
    ((buildGo acc coll pairs).1.find? (fun p => p.1 = addr)) =
      match acc.find? (fun p => p.1 = addr) with
      | some p => some p
      | none => pairs.find? (fun p => p.1 = addr) := by
  induction pairs with
  | nil =>
    intro acc coll addr
    simp only [buildGo]
    cases acc.find? (fun p => p.1 = addr) <;> simp
  | cons pr rest ih =>
    obtain ⟨a0, op⟩ := pr
    intro acc coll addr
    simp only [buildGo]
    split
    · rename_i hf
      rw [ih, find?_append]
      cases hacc : acc.find? (fun p => p.1 = addr) with
      | some p => rfl
      | none =>
        by_cases ha : a0 = addr
        · rw [List.find?_cons_of_pos _ (by simp [ha])]
          rw [List.find?_cons_of_pos _ (by simp [ha])]
        · rw [List.find?_cons_of_neg _ (by simp [ha])]
          rw [List.find?_cons_of_neg _ (by simp [ha]), List.find?_nil]
    · rename_i pOld hf
      have hgoal : ∀ coll',
          ((buildGo acc coll' rest).1.find? (fun p => p.1 = addr)) =
            match acc.find? (fun p => p.1 = addr) with
            | some p => some p
            | none =>
              ((a0, op) :: rest).find? (fun p => p.1 = addr) := by
        intro coll'
        rw [ih]
        cases hacc : acc.find? (fun p => p.1 = addr) with
        | some p => rfl
        | none =>
          have ha : a0 ≠ addr := by
            rintro rfl
            rw [hf] at hacc
            exact absurd hacc (by simp)
          rw [List.find?_cons_of_neg _ (by simp [ha])]
      split
      · exact hgoal _
      · exact hgoal _

/-- Every collision record carries two truthy (non-empty, non-`None`) hex
strings: that is the exact condition under which the source logs the
"replacing previously-generated code" warning. -/
theorem buildGo_coll_truthy (pairs : List (Option Int × Op)) :
    ∀ (acc : List (Option Int × Op)) (coll : List (Option Int × Op × Op)),
    (∀ c ∈ coll, (c.2.1.hex.getD "") ≠ "" ∧ (c.2.2.hex.getD "") ≠ "") →
    ∀ c ∈ (buildGo acc coll pairs).2,
      (c.2.1.hex.getD "") ≠ "" ∧ (c.2.2.hex.getD "") ≠ "" := by
  induction pairs with
  | nil =>
    intro acc coll hcoll
    simpa only [buildGo] using hcoll
  | cons pr rest ih =>
    obtain ⟨a0, op⟩ := pr
    intro acc coll hcoll
    simp only [buildGo]
    split
    · exact ih _ _ hcoll
    · rename_i pOld hf
      split
      · rename_i hhex
        refine ih _ _ ?_
        intro c hc
        rcases List.mem_append.mp hc with hm | hm
        · exact hcoll c hm
        · have : c = (a0, pOld.2, op) := by simpa using hm
          subst this
          exact hhex
      · exact ih _ _ hcoll

/-- The two-line program of C10's silent-omission scenario: the `org` is
pinned at address 0 with empty hex, and the `db` is pinned at the same
address. -/
def progC10 : List (List Char) := [cs "      org $0", cs "      db $AA"]

/-- C10. The address-to-op map keeps only the first op per address in
source order; every "replacing previously-generated code" collision
warning requires both colliding ops to have truthy hex; and in the
concrete program `org $0` / `db $AA` both ops are pinned at address 0,
the `db` generated the byte `AA`, yet the output binary is empty and no
warning at all is produced: the bytes are silently omitted because the
first op at the address (the `org`) has empty hex. -/
theorem c10_first_op_wins (pairs : List (Option Int × Op))
    (addr : Option Int) :
    ((buildAddrToOp pairs).1.find? (fun p => p.1 = addr)) =
      pairs.find? (fun p => p.1 = addr) ∧
    (∀ c ∈ (buildAddrToOp pairs).2,
      (c.2.1.hex.getD "") ≠ "" ∧ (c.2.2.hex.getD "") ≠ "") ∧
    (assemble progC10).toOption.map
        (fun o => (o.items.map (fun x => (x.1.hex, x.2)), o.binary,
                   o.warns)) =
      some ([(some "", some 0), (some "AA", some 0)], [], []) := by
  refine ⟨?_, ?_, by decide⟩
  · rw [show buildAddrToOp pairs = buildGo [] [] pairs from rfl,
      buildGo_find? pairs [] [] addr]
    rfl
  · exact buildGo_coll_truthy pairs [] [] (by simp)

/-! ## C9: `Context.pos` never becomes unknown -/

/-- A handler preserves knowledge of the stream position. -/
def PreservesPos (h : Handler) : Prop :=
  ∀ ctx op res, h ctx op = .ok res → ctx.pos.isSome = true →
    res.1.pos.isSome = true

theorem bind_def {ε α β : Type} (x : Except ε α) (f : α → Except ε β) :
    (x >>= f) =
      match x with
      | .error e => .error e
      | .ok a => f a := by
  cases x <;> rfl

theorem advance_pos (ctx : Context) (s : String)
    (h : ctx.pos.isSome = true) : (Context.advance ctx s).pos.isSome = true := by
  unfold Context.advance
  split
  · rename_i hp; rw [hp] at h; simp at h
  · simp

theorem advance_by_bytes_pos (ctx : Context) (n : Int)
    (h : ctx.pos.isSome = true) :
    (Context.advance_by_bytes ctx n).pos.isSome = true := by
  unfold Context.advance_by_bytes
  split
  · rename_i hp; rw [hp] at h; simp at h
  · simp

theorem bind_label_pos (ctx : Context) (label : List Char) :
    (Context.bind_label ctx label).pos = ctx.pos := by
  unfold Context.bind_label
  split
  · rfl
  · rename_i p hp; rw [hp]

theorem foldl_bind_label_pos (labels : List (List Char)) :
    ∀ ctx : Context, (labels.foldl Context.bind_label ctx).pos = ctx.pos := by
  induction labels with
  | nil => intro ctx; rfl
  | cons l rest ih =>
    intro ctx
    rw [List.foldl_cons, ih, bind_label_pos]

theorem pp_org : PreservesPos _codegen_org := by
  intro ctx op res hok hpos
  unfold _codegen_org at hok
  simp only [bind_def] at hok
  repeat' split at hok
  all_goals first
    | exact Except.noConfusion hok
    | (cases hok; first
        | exact hpos
        | exact advance_pos _ _ hpos
        | exact advance_by_bytes_pos _ _ hpos
        | simp)

theorem pp_data (es : Nat) (le al : Bool) (popts : ParseOptions) :
    PreservesPos (_gen_codegen_data es le al popts) := by
  intro ctx op res hok hpos
  unfold _gen_codegen_data at hok
  simp only [bind_def] at hok
  repeat' split at hok
  all_goals first
    | exact Except.noConfusion hok
    | (cases hok; first
        | exact hpos
        | exact advance_pos _ _ hpos
        | exact advance_by_bytes_pos _ _ hpos
        | simp)

theorem pp_onereg (n1 n2 : Int) (ap : Nat) :
    PreservesPos (_gen_codegen_onereg n1 n2 ap) := by
  intro ctx op res hok hpos
  unfold _gen_codegen_onereg at hok
  simp only [bind_def] at hok
  repeat' split at hok
  all_goals first
    | exact Except.noConfusion hok
    | (cases hok; first
        | exact hpos
        | exact advance_pos _ _ hpos
        | exact advance_by_bytes_pos _ _ hpos
        | simp)

theorem pp_reg_to_reg (n1 n2 : Int) :
    PreservesPos (_gen_codegen_reg_to_reg n1 n2) := by
  intro ctx op res hok hpos
  unfold _gen_codegen_reg_to_reg at hok
  simp only [bind_def] at hok
  repeat' split at hok
  all_goals first
    | exact Except.noConfusion hok
    | (cases hok; first
        | exact hpos
        | exact advance_pos _ _ hpos
        | exact advance_by_bytes_pos _ _ hpos
        | simp)

theorem pp_dev_to_reg (n : Int) :
    PreservesPos (_gen_codegen_dev_to_reg n) := by
  intro ctx op res hok hpos
  unfold _gen_codegen_dev_to_reg at hok
  simp only [bind_def] at hok
  repeat' split at hok
  all_goals first
    | exact Except.noConfusion hok
    | (cases hok; first
        | exact hpos
        | exact advance_pos _ _ hpos
        | exact advance_by_bytes_pos _ _ hpos
        | simp)

theorem pp_immed_to_reg (n : Int) :
    PreservesPos (_gen_codegen_immed_to_reg n) := by
  intro ctx op res hok hpos
  unfold _gen_codegen_immed_to_reg at hok
  simp only [bind_def] at hok
  repeat' split at hok
  all_goals first
    | exact Except.noConfusion hok
    | (cases hok; first
        | exact hpos
        | exact advance_pos _ _ hpos
        | exact advance_by_bytes_pos _ _ hpos
        | simp)

theorem pp_add_or_sub (s : String) :
    PreservesPos (_gen_codegen_add_or_sub s) := by
  intro ctx op res hok hpos
  unfold _gen_codegen_add_or_sub at hok
  simp only [bind_def] at hok
  repeat' split at hok
  all_goals first
    | exact Except.noConfusion hok
    | (cases hok; first
        | exact hpos
        | exact advance_pos _ _ hpos
        | exact advance_by_bytes_pos _ _ hpos
        | simp)

theorem pp_ctrl : PreservesPos _codegen_ctrl := by
  intro ctx op res hok hpos
  unfold _codegen_ctrl at hok
  simp only [bind_def] at hok
  repeat' split at hok
  all_goals first
    | exact Except.noConfusion hok
    | (cases hok; first
        | exact hpos
        | exact advance_pos _ _ hpos
        | exact advance_by_bytes_pos _ _ hpos
        | simp)

theorem pp_putb : PreservesPos _codegen_putb := by
  intro ctx op res hok hpos
  unfold _codegen_putb at hok
  simp only [bind_def] at hok
  repeat' split at hok
  all_goals first
    | exact Except.noConfusion hok
    | (cases hok; first
        | exact hpos
        | exact advance_pos _ _ hpos
        | exact advance_by_bytes_pos _ _ hpos
        | simp)

theorem pp_getb : PreservesPos _codegen_getb := by
  intro ctx op res hok hpos
  unfold _codegen_getb at hok
  simp only [bind_def] at hok
  repeat' split at hok
  all_goals first
    | exact Except.noConfusion hok
    | (cases hok; first
        | exact hpos
        | exact advance_pos _ _ hpos
        | exact advance_by_bytes_pos _ _ hpos
        | simp)

theorem pp_movb : PreservesPos _codegen_movb := by
  intro ctx op res hok hpos
  unfold _codegen_movb at hok
  simp only [bind_def] at hok
  repeat' split at hok
  all_goals first
    | exact Except.noConfusion hok
    | (cases hok; first
        | exact hpos
        | exact advance_pos _ _ hpos
        | exact advance_by_bytes_pos _ _ hpos
        | simp)

theorem pp_move : PreservesPos _codegen_move := by
  intro ctx op res hok hpos
  unfold _codegen_move at hok
  simp only [bind_def] at hok
  repeat' split at hok
  all_goals first
    | exact Except.noConfusion hok
    | (cases hok; first
        | exact hpos
        | exact advance_pos _ _ hpos
        | exact advance_by_bytes_pos _ _ hpos
        | simp)

theorem pp_halt : PreservesPos _codegen_halt := by
  intro ctx op res hok hpos
  unfold _codegen_halt at hok
  simp only [bind_def] at hok
  repeat' split at hok
  all_goals first
    | exact Except.noConfusion hok
    | (cases hok; first
        | exact hpos
        | exact advance_pos _ _ hpos
        | exact advance_by_bytes_pos _ _ hpos
        | simp)

theorem pp_nop : PreservesPos _codegen_nop := by
  intro ctx op res hok hpos
  unfold _codegen_nop at hok
  simp only [bind_def] at hok
  repeat' split at hok
  all_goals first
    | exact Except.noConfusion hok
    | (cases hok; first
        | exact hpos
        | exact advance_pos _ _ hpos
        | exact advance_by_bytes_pos _ _ hpos
        | simp)

theorem pp_lwi : PreservesPos _codegen_lwi := by
  intro ctx op res hok hpos
  unfold _codegen_lwi at hok
  simp only [bind_def] at hok
  repeat' split at hok
  all_goals first
    | exact Except.noConfusion hok
    | (cases hok; first
        | exact hpos
        | exact advance_pos _ _ hpos
        | exact advance_by_bytes_pos _ _ hpos
        | simp)

theorem pp_bra : PreservesPos _codegen_bra := by
  intro ctx op res hok hpos
  unfold _codegen_bra at hok
  simp only [bind_def] at hok
  repeat' split at hok
  all_goals first
    | exact Except.noConfusion hok
    | (cases hok; first
        | exact hpos
        | exact advance_pos _ _ hpos
        | exact advance_by_bytes_pos _ _ hpos
        | simp)

theorem pp_jmp : PreservesPos _codegen_jmp := by
  intro ctx op res hok hpos
  unfold _codegen_jmp at hok
  simp only [bind_def] at hok
  repeat' split at hok
  all_goals first
    | exact Except.noConfusion hok
    | (cases hok; first
        | exact hpos
        | exact advance_pos _ _ hpos
        | exact advance_by_bytes_pos _ _ hpos
        | simp)

theorem pp_call : PreservesPos _codegen_call := by
  intro ctx op res hok hpos
  unfold _codegen_call at hok
  simp only [bind_def] at hok
  repeat' split at hok
  all_goals first
    | exact Except.noConfusion hok
    | (cases hok; first
        | exact hpos
        | exact advance_pos _ _ hpos
        | exact advance_by_bytes_pos _ _ hpos
        | simp)

theorem pp_rcall : PreservesPos _codegen_rcall := by
  intro ctx op res hok hpos
  unfold _codegen_rcall at hok
  simp only [bind_def] at hok
  repeat' split at hok
  all_goals first
    | exact Except.noConfusion hok
    | (cases hok; first
        | exact hpos
        | exact advance_pos _ _ hpos
        | exact advance_by_bytes_pos _ _ hpos
        | simp)

/-- Every handler in the `ibm5100` code-generator table preserves knowledge
of the position. -/
theorem pp_table : ∀ p ∈ palmTable, PreservesPos p.2 := by
  intro p hp
  fin_cases hp <;>
    first
      | exact pp_org
      | exact pp_data 1 false true commonOpts
      | exact pp_data 2 false true commonOpts
      | exact pp_data 4 false true commonOpts
      | exact pp_onereg _ _ _
      | exact pp_reg_to_reg _ _
      | exact pp_dev_to_reg _
      | exact pp_immed_to_reg _
      | exact pp_add_or_sub _
      | exact pp_ctrl
      | exact pp_putb
      | exact pp_getb
      | exact pp_movb
      | exact pp_move
      | exact pp_halt
      | exact pp_nop
      | exact pp_lwi
      | exact pp_bra
      | exact pp_jmp
      | exact pp_call
      | exact pp_rcall

theorem pp_palmCodegen (opcode : List Char) (h : Handler)
    (hfind : palmCodegen opcode = some h) : PreservesPos h := by
  unfold palmCodegen at hfind
  cases hf : palmTable.find? (fun p => p.1 = opcode) with
  | none => rw [hf] at hfind; exact Option.noConfusion hfind
  | some p =>
    rw [hf] at hfind
    simp only [Option.map] at hfind
    rw [Option.some.injEq] at hfind
    subst hfind
    exact pp_table p (List.mem_of_find?_eq_some hf)

theorem pp_lexer : PreservesPos asmpass_lexer := by
  intro ctx op res hok hpos
  unfold asmpass_lexer at hok
  split at hok
  · exact Except.noConfusion hok
  · cases hok; exact hpos

theorem pp_codegen : PreservesPos asmpass_codegen := by
  intro ctx op res hok hpos
  unfold asmpass_codegen at hok
  simp only [bind_def] at hok
  have hfold : (op.labels.foldl Context.bind_label ctx).pos.isSome = true := by
    rw [foldl_bind_label_pos]; exact hpos
  split at hok
  · split at hok
    · exact Except.noConfusion hok
    · cases hok; exact hfold
  · split at hok
    · exact Except.noConfusion hok
    · rename_i hdl hentry
      cases hres : hdl (op.labels.foldl Context.bind_label ctx) op with
      | error e => rw [hres] at hok; exact Except.noConfusion hok
      | ok r =>
        rw [hres] at hok
        have hr := pp_palmCodegen _ _ hentry _ _ _ hres hfold
        obtain ⟨c1, o1, w1⟩ := r
        cases hok
        exact hr

theorem pp_runTodo (t : Todo) : PreservesPos (runTodo t) := by
  cases t with
  | lexer => exact pp_lexer
  | codegen => exact pp_codegen

/-- One pass never loses the position: if it starts known it ends known,
and every `pos` value recorded in the trace (the value handed to each
executed todo) is known. -/
theorem runPass_pos (items : List (Op × Option Int)) :
    ∀ (ctx ctx' : Context) (items' : List (Op × Option Int))
      (w : List Warning) (tr : List (Option Int)),
    ctx.pos.isSome = true →
    runPass ctx items = .ok (ctx', items', w, tr) →
    ctx'.pos.isSome = true ∧ ∀ x ∈ tr, x.isSome = true := by
  induction items with
  | nil =>
    intro ctx ctx' items' w tr hpos h
    simp only [runPass, Except.ok.injEq, Prod.mk.injEq] at h
    obtain ⟨h1, -, -, h4⟩ := h
    subst h1
    subst h4
    exact ⟨hpos, by simp⟩
  | cons pr rest ih =>
    obtain ⟨op, addr⟩ := pr
    intro ctx ctx' items' w tr hpos h
    simp only [runPass] at h
    cases addr with
    | none =>
      dsimp only at h
      split at h
      · -- op.todo = none
        split at h
        · exact Except.noConfusion h
        · rename_i c' r' w'' tr' hrec
          simp only [Except.ok.injEq, Prod.mk.injEq] at h
          obtain ⟨h1, -, -, h4⟩ := h
          subst h1
          subst h4
          exact ih ctx c' r' w'' tr' hpos hrec
      · -- op.todo = some t
        rename_i t htodo
        split at h
        · exact Except.noConfusion h
        · exact Except.noConfusion h
        · rename_i ctx1 op1 w1 heq
          have hpos1 : ctx1.pos.isSome = true :=
            pp_runTodo t ctx op (ctx1, op1, w1) heq hpos
          split at h
          · exact Except.noConfusion h
          · split at h
            · exact Except.noConfusion h
            · rename_i c' r' w'' tr' hrec
              simp only [Except.ok.injEq, Prod.mk.injEq] at h
              obtain ⟨h1, -, -, h4⟩ := h
              subst h1
              subst h4
              obtain ⟨hc, htr⟩ := ih ctx1 c' r' w'' tr' hpos1 hrec
              refine ⟨hc, ?_⟩
              intro x hx
              rcases List.mem_cons.mp hx with rfl | hm
              · exact hpos
              · exact htr x hm
    | some a =>
      dsimp only at h
      split at h
      · -- op.todo = none
        split at h
        · exact Except.noConfusion h
        · rename_i c' r' w'' tr' hrec
          simp only [Except.ok.injEq, Prod.mk.injEq] at h
          obtain ⟨h1, -, -, h4⟩ := h
          subst h1
          subst h4
          exact ih _ c' r' w'' tr' (by simp) hrec
      · rename_i t htodo
        split at h
        · exact Except.noConfusion h
        · exact Except.noConfusion h
        · rename_i ctx1 op1 w1 heq
          have hpos1 : ctx1.pos.isSome = true :=
            pp_runTodo t { ctx with pos := some a } op (ctx1, op1, w1) heq
              (by simp)
          split at h
          · exact Except.noConfusion h
          · split at h
            · exact Except.noConfusion h
            · rename_i c' r' w'' tr' hrec
              simp only [Except.ok.injEq, Prod.mk.injEq] at h
              obtain ⟨h1, -, -, h4⟩ := h
              subst h1
              subst h4
              obtain ⟨hc, htr⟩ := ih ctx1 c' r' w'' tr' hpos1 hrec
              refine ⟨hc, ?_⟩
              intro x hx
              rcases List.mem_cons.mp hx with rfl | hm
              · simp
              · exact htr x hm

/-- Every trace entry of the fixpoint loop is a known position: each pass
starts from `pos = some 0` and `runPass` keeps positions known. -/
theorem passLoop_pos (fuel : Nat) :
    ∀ (num : Option Nat) (ctx : Context)
      (items : List (Op × Option Int)) (pc : Nat) (hist : List Nat)
      (ws : List Warning) (tr : List (Option Int)) (out : LoopOut),
    passLoop fuel num ctx items pc hist ws tr = .ok (some out) →
    (∀ x ∈ tr, x.isSome = true) →
    ∀ x ∈ out.trace, x.isSome = true := by
  induction fuel with
  | zero =>
    intro num ctx items pc hist ws tr out h htr
    simp only [passLoop] at h
    exact absurd h (by simp)
  | succ f ih =>
    intro num ctx items pc hist ws tr out h htr
    simp only [passLoop] at h
    split at h
    · exact Except.noConfusion h
    · rename_i ctx' items' w t hrun
      have ht : ∀ x ∈ t, x.isSome = true :=
        (runPass_pos items _ ctx' items' w t (by simp) hrun).2
      have happ : ∀ x ∈ tr ++ t, x.isSome = true := by
        intro x hx
        rcases List.mem_append.mp hx with hm | hm
        · exact htr x hm
        · exact ht x hm
      split at h
      · simp only [Except.ok.injEq, Option.some.injEq] at h
        subst h
        exact happ
      · exact ih _ ctx' items' _ _ _ _ out h happ

/-- `codegen_data` with the unknown-position error branch removed: the
padding is computed directly from the known position. -/
def codegen_data_known (element_size : Nat) (little_endian : Bool)
    (align : Bool) (popts : ParseOptions := commonOpts) : Handler :=
  fun ctx op => do
    let pad :=
      if align && element_size ≠ 1 then
        String.join
          (List.replicate ((ctx.pos.getD 0) % (element_size : Int)).toNat "00")
      else ""
    let (parts, all_hex_ok) ←
      dataArgLoop element_size little_endian popts ctx op.args true
    let h := pad ++ String.join parts
    let op := { op with todo := if all_hex_ok then none else op.todo,
                        hex := some h }
    .ok (ctx.advance h, op, [])

/-- With a known position the data generator coincides with its error-free
variant: the unknown-position `ValueError` branch cannot fire. -/
theorem codegen_data_known_eq (es : Nat) (le al : Bool)
    (popts : ParseOptions) (ctx : Context) (op : Op)
    (hpos : ctx.pos.isSome = true) :
    _gen_codegen_data es le al popts ctx op =
      codegen_data_known es le al popts ctx op := by
  obtain ⟨p, hp⟩ := Option.isSome_iff_exists.mp hpos
  unfold _gen_codegen_data codegen_data_known
  rw [hp]
  split_ifs with h1
  · rfl
  · rfl

/-- C9. Throughout a successful run of `assemble`, `Context.pos` is never
unknown: every position handed to an executed pass callback (the trace) is
a known integer; every handler of the code-generator table preserves
knowledge of the position, as does `Context.advance`; and consequently the
data statement's unknown-position error branch is unreachable — with a
known position `codegen_data` coincides with its error-free variant. -/
theorem c9_pos_always_known (program : List (List Char)) (out : AsmOut)
    (h : assemble program = .ok out) :
    (∀ x ∈ out.trace, x.isSome = true) ∧
    (∀ p ∈ palmTable, PreservesPos p.2) ∧
    (∀ (ctx : Context) (s : String), ctx.pos.isSome = true →
      (Context.advance ctx s).pos.isSome = true) ∧
    (∀ (es : Nat) (le al : Bool) (popts : ParseOptions) (ctx : Context)
      (op : Op), ctx.pos.isSome = true →
      _gen_codegen_data es le al popts ctx op =
        codegen_data_known es le al popts ctx op) := by
  refine ⟨?_, pp_table, advance_pos,
    fun es le al popts ctx op hp => codegen_data_known_eq es le al popts ctx op hp⟩
  unfold assemble assembleWithFuel at h
  simp only [bind_def] at h
  repeat' split at h
  any_goals exact Except.noConfusion h
  simp only [Except.ok.injEq] at h
  subst h
  exact passLoop_pos _ _ _ _ _ _ _ _ _ (by assumption) (by simp)

/-- The witness program for C9. -/
def progC9 : List (List Char) := [cs "      nop"]

/-- Witness for C9: `progC9` assembles, and the theorem applies to its
output. -/
theorem c9_pos_always_known_witness :
    ∃ out, assemble progC9 = .ok out ∧ ∀ x ∈ out.trace, x.isSome = true := by
  have hsome : (assemble progC9).toOption.isSome = true := by decide
  cases hA : assemble progC9 with
  | error e => rw [hA] at hsome; simp [Except.toOption] at hsome
  | ok out =>
    exact ⟨out, rfl, (c9_pos_always_known progC9 out hA).1⟩

/-! ## C1: the fixpoint loop -/

/-- A handler either finishes its op (`todo := None`) or leaves the todo
unchanged for a later pass. -/
def TodoMono (h : Handler) : Prop :=
  ∀ ctx op res, h ctx op = .ok res →
    res.2.1.todo = none ∨ res.2.1.todo = op.todo

theorem tm_org :
    TodoMono _codegen_org := by
  intro ctx op res hok
  unfold _codegen_org at hok
  simp only [bind_def] at hok
  repeat' split at hok
  all_goals first
    | exact Except.noConfusion hok
    | (cases hok; first
        | exact Or.inl rfl
        | exact Or.inr rfl
        | (split <;> first | exact Or.inl rfl | exact Or.inr rfl))

theorem tm_data (es : Nat) (le al : Bool) (popts : ParseOptions) :
    TodoMono (_gen_codegen_data es le al popts) := by
  intro ctx op res hok
  unfold _gen_codegen_data at hok
  simp only [bind_def] at hok
  repeat' split at hok
  all_goals first
    | exact Except.noConfusion hok
    | (cases hok; first
        | exact Or.inl rfl
        | exact Or.inr rfl
        | (split <;> first | exact Or.inl rfl | exact Or.inr rfl))

theorem tm_onereg (n1 n2 : Int) (ap : Nat) :
    TodoMono (_gen_codegen_onereg n1 n2 ap) := by
  intro ctx op res hok
  unfold _gen_codegen_onereg at hok
  simp only [bind_def] at hok
  repeat' split at hok
  all_goals first
    | exact Except.noConfusion hok
    | (cases hok; first
        | exact Or.inl rfl
        | exact Or.inr rfl
        | (split <;> first | exact Or.inl rfl | exact Or.inr rfl))

theorem tm_reg_to_reg (n1 n2 : Int) :
    TodoMono (_gen_codegen_reg_to_reg n1 n2) := by
  intro ctx op res hok
  unfold _gen_codegen_reg_to_reg at hok
  simp only [bind_def] at hok
  repeat' split at hok
  all_goals first
    | exact Except.noConfusion hok
    | (cases hok; first
        | exact Or.inl rfl
        | exact Or.inr rfl
        | (split <;> first | exact Or.inl rfl | exact Or.inr rfl))

theorem tm_dev_to_reg (n : Int) :
    TodoMono (_gen_codegen_dev_to_reg n) := by
  intro ctx op res hok
  unfold _gen_codegen_dev_to_reg at hok
  simp only [bind_def] at hok
  repeat' split at hok
  all_goals first
    | exact Except.noConfusion hok
    | (cases hok; first
        | exact Or.inl rfl
        | exact Or.inr rfl
        | (split <;> first | exact Or.inl rfl | exact Or.inr rfl))

theorem tm_immed_to_reg (n : Int) :
    TodoMono (_gen_codegen_immed_to_reg n) := by
  intro ctx op res hok
  unfold _gen_codegen_immed_to_reg at hok
  simp only [bind_def] at hok
  repeat' split at hok
  all_goals first
    | exact Except.noConfusion hok
    | (cases hok; first
        | exact Or.inl rfl
        | exact Or.inr rfl
        | (split <;> first | exact Or.inl rfl | exact Or.inr rfl))

theorem tm_add_or_sub (s : String) :
    TodoMono (_gen_codegen_add_or_sub s) := by
  intro ctx op res hok
  unfold _gen_codegen_add_or_sub at hok
  simp only [bind_def] at hok
  repeat' split at hok
  all_goals first
    | exact Except.noConfusion hok
    | (cases hok; first
        | exact Or.inl rfl
        | exact Or.inr rfl
        | (split <;> first | exact Or.inl rfl | exact Or.inr rfl))

theorem tm_ctrl :
    TodoMono _codegen_ctrl := by
  intro ctx op res hok
  unfold _codegen_ctrl at hok
  simp only [bind_def] at hok
  repeat' split at hok
  all_goals first
    | exact Except.noConfusion hok
    | (cases hok; first
        | exact Or.inl rfl
        | exact Or.inr rfl
        | (split <;> first | exact Or.inl rfl | exact Or.inr rfl))

theorem tm_putb :
    TodoMono _codegen_putb := by
  intro ctx op res hok
  unfold _codegen_putb at hok
  simp only [bind_def] at hok
  repeat' split at hok
  all_goals first
    | exact Except.noConfusion hok
    | (cases hok; first
        | exact Or.inl rfl
        | exact Or.inr rfl
        | (split <;> first | exact Or.inl rfl | exact Or.inr rfl))

theorem tm_getb :
    TodoMono _codegen_getb := by
  intro ctx op res hok
  unfold _codegen_getb at hok
  simp only [bind_def] at hok
  repeat' split at hok
  all_goals first
    | exact Except.noConfusion hok
    | (cases hok; first
        | exact Or.inl rfl
        | exact Or.inr rfl
        | (split <;> first | exact Or.inl rfl | exact Or.inr rfl))

theorem tm_movb :
    TodoMono _codegen_movb := by
  intro ctx op res hok
  unfold _codegen_movb at hok
  simp only [bind_def] at hok
  repeat' split at hok
  all_goals first
    | exact Except.noConfusion hok
    | (cases hok; first
        | exact Or.inl rfl
        | exact Or.inr rfl
        | (split <;> first | exact Or.inl rfl | exact Or.inr rfl))

theorem tm_move :
    TodoMono _codegen_move := by
  intro ctx op res hok
  unfold _codegen_move at hok
  simp only [bind_def] at hok
  repeat' split at hok
  all_goals first
    | exact Except.noConfusion hok
    | (cases hok; first
        | exact Or.inl rfl
        | exact Or.inr rfl
        | (split <;> first | exact Or.inl rfl | exact Or.inr rfl))

theorem tm_halt :
    TodoMono _codegen_halt := by
  intro ctx op res hok
  unfold _codegen_halt at hok
  simp only [bind_def] at hok
  repeat' split at hok
  all_goals first
    | exact Except.noConfusion hok
    | (cases hok; first
        | exact Or.inl rfl
        | exact Or.inr rfl
        | (split <;> first | exact Or.inl rfl | exact Or.inr rfl))

theorem tm_nop :
    TodoMono _codegen_nop := by
  intro ctx op res hok
  unfold _codegen_nop at hok
  simp only [bind_def] at hok
  repeat' split at hok
  all_goals first
    | exact Except.noConfusion hok
    | (cases hok; first
        | exact Or.inl rfl
        | exact Or.inr rfl
        | (split <;> first | exact Or.inl rfl | exact Or.inr rfl))

theorem tm_lwi :
    TodoMono _codegen_lwi := by
  intro ctx op res hok
  unfold _codegen_lwi at hok
  simp only [bind_def] at hok
  repeat' split at hok
  all_goals first
    | exact Except.noConfusion hok
    | (cases hok; first
        | exact Or.inl rfl
        | exact Or.inr rfl
        | (split <;> first | exact Or.inl rfl | exact Or.inr rfl))

theorem tm_bra :
    TodoMono _codegen_bra := by
  intro ctx op res hok
  unfold _codegen_bra at hok
  simp only [bind_def] at hok
  repeat' split at hok
  all_goals first
    | exact Except.noConfusion hok
    | (cases hok; first
        | exact Or.inl rfl
        | exact Or.inr rfl
        | (split <;> first | exact Or.inl rfl | exact Or.inr rfl))

theorem tm_jmp :
    TodoMono _codegen_jmp := by
  intro ctx op res hok
  unfold _codegen_jmp at hok
  simp only [bind_def] at hok
  repeat' split at hok
  all_goals first
    | exact Except.noConfusion hok
    | (cases hok; first
        | exact Or.inl rfl
        | exact Or.inr rfl
        | (split <;> first | exact Or.inl rfl | exact Or.inr rfl))

theorem tm_call :
    TodoMono _codegen_call := by
  intro ctx op res hok
  unfold _codegen_call at hok
  simp only [bind_def] at hok
  repeat' split at hok
  all_goals first
    | exact Except.noConfusion hok
    | (cases hok; first
        | exact Or.inl rfl
        | exact Or.inr rfl
        | (split <;> first | exact Or.inl rfl | exact Or.inr rfl))

theorem tm_rcall :
    TodoMono _codegen_rcall := by
  intro ctx op res hok
  unfold _codegen_rcall at hok
  simp only [bind_def] at hok
  repeat' split at hok
  all_goals first
    | exact Except.noConfusion hok
    | (cases hok; first
        | exact Or.inl rfl
        | exact Or.inr rfl
        | (split <;> first | exact Or.inl rfl | exact Or.inr rfl))

theorem tm_table : ∀ p ∈ palmTable, TodoMono p.2 := by
  intro p hp
  fin_cases hp <;>
    first
      | exact tm_org
      | exact tm_data 1 false true commonOpts
      | exact tm_data 2 false true commonOpts
      | exact tm_data 4 false true commonOpts
      | exact tm_onereg _ _ _
      | exact tm_reg_to_reg _ _
      | exact tm_dev_to_reg _
      | exact tm_immed_to_reg _
      | exact tm_add_or_sub _
      | exact tm_ctrl
      | exact tm_putb
      | exact tm_getb
      | exact tm_movb
      | exact tm_move
      | exact tm_halt
      | exact tm_nop
      | exact tm_lwi
      | exact tm_bra
      | exact tm_jmp
      | exact tm_call
      | exact tm_rcall

theorem tm_palmCodegen (opcode : List Char) (h : Handler)
    (hfind : palmCodegen opcode = some h) : TodoMono h := by
  unfold palmCodegen at hfind
  cases hf : palmTable.find? (fun p => p.1 = opcode) with
  | none => rw [hf] at hfind; exact Option.noConfusion hfind
  | some p =>
    rw [hf] at hfind
    simp only [Option.map] at hfind
    rw [Option.some.injEq] at hfind
    subst hfind
    exact tm_table p (List.mem_of_find?_eq_some hf)

/-- The lexer pass always hands the op to the code generator. -/
theorem todo_lexer (ctx : Context) (op : Op) (res : HRes)
    (hok : asmpass_lexer ctx op = .ok res) :
    res.2.1.todo = some Todo.codegen := by
  unfold asmpass_lexer at hok
  split at hok
  · exact Except.noConfusion hok
  · cases hok; rfl

/-- The codegen pass leaves the op finished, unchanged, or pending
another codegen pass. -/
theorem todo_codegen (ctx : Context) (op : Op) (res : HRes)
    (hok : asmpass_codegen ctx op = .ok res) :
    res.2.1.todo = none ∨ res.2.1.todo = op.todo ∨
      res.2.1.todo = some Todo.codegen := by
  unfold asmpass_codegen at hok
  simp only [bind_def] at hok
  split at hok
  · split at hok
    · exact Except.noConfusion hok
    · cases hok
      dsimp only
      split
      · exact Or.inr (Or.inr rfl)
      · split
        · exact Or.inl rfl
        · exact Or.inr (Or.inr rfl)
  · split at hok
    · exact Except.noConfusion hok
    · rename_i hdl hentry
      cases hres : hdl (op.labels.foldl Context.bind_label ctx) op with
      | error e => rw [hres] at hok; exact Except.noConfusion hok
      | ok r =>
        rw [hres] at hok
        have htm := tm_palmCodegen _ _ hentry _ _ _ hres
        obtain ⟨c1, o1, w1⟩ := r
        cases hok
        dsimp only
        dsimp only at htm
        split
        · exact Or.inr (Or.inr rfl)
        · split
          · rcases htm with h1 | h1
            · exact Or.inl h1
            · exact Or.inr (Or.inl h1)
          · exact Or.inr (Or.inr rfl)

/-- The number of ops still awaiting the codegen pass. -/
def pend (items : List (Op × Option Int)) : Nat :=
  (items.filter (fun x => x.1.todo = some Todo.codegen)).length

/-- No op still awaits the lexer pass (true after any pass has run). -/
def noLexer (items : List (Op × Option Int)) : Prop :=
  ∀ x ∈ items, x.1.todo ≠ some Todo.lexer

theorem pend_cons (y : Op × Option Int) (l : List (Op × Option Int)) :
    pend (y :: l) =
      (if y.1.todo = some Todo.codegen then 1 else 0) + pend l := by
  by_cases hc : y.1.todo = some Todo.codegen <;>
    simp [pend, List.filter_cons, hc, Nat.add_comm]

/-- A pass preserves the number of ops, leaves no op awaiting the lexer,
and (once no op awaits the lexer) never increases the number of ops
awaiting codegen. -/
theorem runPass_evolve (items : List (Op × Option Int)) :
    ∀ (ctx ctx' : Context) (items' : List (Op × Option Int))
      (w : List Warning) (tr : List (Option Int)),
    runPass ctx items = .ok (ctx', items', w, tr) →
    items'.length = items.length ∧
    noLexer items' ∧
    (noLexer items → pend items' ≤ pend items) := by
  induction items with
  | nil =>
    intro ctx ctx' items' w tr h
    simp only [runPass, Except.ok.injEq, Prod.mk.injEq] at h
    obtain ⟨-, h2, -, -⟩ := h
    subst h2
    exact ⟨rfl, fun x hx => absurd hx (List.not_mem_nil x), fun _ => le_rfl⟩
  | cons pr rest ih =>
    obtain ⟨op, addr⟩ := pr
    intro ctx ctx' items' w tr h
    simp only [runPass] at h
    cases addr with
    | none =>
      dsimp only at h
      cases htodo : op.todo with
      | none =>
        rw [htodo] at h
        dsimp only at h
        split at h
        · exact Except.noConfusion h
        · rename_i c' r' w'' tr' hrec
          simp only [Except.ok.injEq, Prod.mk.injEq] at h
          obtain ⟨-, h2, -, -⟩ := h
          subst h2
          obtain ⟨ihl, ihnl, ihp⟩ := ih _ c' r' w'' tr' hrec
          refine ⟨by simp [ihl], ?_, ?_⟩
          · intro x hx
            rcases List.mem_cons.mp hx with rfl | hm
            · simp [htodo]
            · exact ihnl x hm
          · intro hnl
            rw [pend_cons, pend_cons]
            dsimp only
            rw [htodo]
            simpa using ihp (fun x hx => hnl x (List.mem_cons_of_mem _ hx))
      | some t =>
        rw [htodo] at h
        dsimp only at h
        split at h
        · exact Except.noConfusion h
        · exact Except.noConfusion h
        · rename_i ctx1 op1 w1 heq
          split at h
          · exact Except.noConfusion h
          · split at h
            · exact Except.noConfusion h
            · rename_i c' r' w'' tr' hrec
              simp only [Except.ok.injEq, Prod.mk.injEq] at h
              obtain ⟨-, h2, -, -⟩ := h
              subst h2
              obtain ⟨ihl, ihnl, ihp⟩ := ih _ c' r' w'' tr' hrec
              have hop1ne : op1.todo ≠ some Todo.lexer := by
                cases t with
                | lexer => rw [todo_lexer _ _ _ heq]; simp
                | codegen =>
                  rcases todo_codegen _ _ _ heq with h1 | h1 | h1
                  · rw [h1]; simp
                  · rw [h1, htodo]; simp
                  · rw [h1]; simp
              refine ⟨by simp [ihl], ?_, ?_⟩
              · intro x hx
                rcases List.mem_cons.mp hx with rfl | hm
                · exact hop1ne
                · exact ihnl x hm
              · intro hnl
                have htne : t ≠ Todo.lexer := fun hte =>
                  hnl (op, none) (List.mem_cons_self _ _)
                    (by dsimp only; rw [htodo, hte])
                have htc : t = Todo.codegen := by
                  cases t with
                  | lexer => exact absurd rfl htne
                  | codegen => rfl
                rw [pend_cons, pend_cons]
                dsimp only
                have h1 : (if op.todo = some Todo.codegen then 1 else 0)
                    = 1 := by
                  rw [htodo, htc]
                  simp
                rw [h1]
                have hp := ihp (fun x hx => hnl x (List.mem_cons_of_mem _ hx))
                split <;> omega
    | some a =>
      dsimp only at h
      cases htodo : op.todo with
      | none =>
        rw [htodo] at h
        dsimp only at h
        split at h
        · exact Except.noConfusion h
        · rename_i c' r' w'' tr' hrec
          simp only [Except.ok.injEq, Prod.mk.injEq] at h
          obtain ⟨-, h2, -, -⟩ := h
          subst h2
          obtain ⟨ihl, ihnl, ihp⟩ := ih _ c' r' w'' tr' hrec
          refine ⟨by simp [ihl], ?_, ?_⟩
          · intro x hx
            rcases List.mem_cons.mp hx with rfl | hm
            · simp [htodo]
            · exact ihnl x hm
          · intro hnl
            rw [pend_cons, pend_cons]
            dsimp only
            rw [htodo]
            simpa using ihp (fun x hx => hnl x (List.mem_cons_of_mem _ hx))
      | some t =>
        rw [htodo] at h
        dsimp only at h
        split at h
        · exact Except.noConfusion h
        · exact Except.noConfusion h
        · rename_i ctx1 op1 w1 heq
          split at h
          · exact Except.noConfusion h
          · split at h
            · exact Except.noConfusion h
            · rename_i c' r' w'' tr' hrec
              simp only [Except.ok.injEq, Prod.mk.injEq] at h
              obtain ⟨-, h2, -, -⟩ := h
              subst h2
              obtain ⟨ihl, ihnl, ihp⟩ := ih _ c' r' w'' tr' hrec
              have hop1ne : op1.todo ≠ some Todo.lexer := by
                cases t with
                | lexer => rw [todo_lexer _ _ _ heq]; simp
                | codegen =>
                  rcases todo_codegen _ _ _ heq with h1 | h1 | h1
                  · rw [h1]; simp
                  · rw [h1, htodo]; simp
                  · rw [h1]; simp
              refine ⟨by simp [ihl], ?_, ?_⟩
              · intro x hx
                rcases List.mem_cons.mp hx with rfl | hm
                · exact hop1ne
                · exact ihnl x hm
              · intro hnl
                have htne : t ≠ Todo.lexer := fun hte =>
                  hnl (op, some a) (List.mem_cons_self _ _)
                    (by dsimp only; rw [htodo, hte])
                have htc : t = Todo.codegen := by
                  cases t with
                  | lexer => exact absurd rfl htne
                  | codegen => rfl
                rw [pend_cons, pend_cons]
                dsimp only
                have h1 : (if op.todo = some Todo.codegen then 1 else 0)
                    = 1 := by
                  rw [htodo, htc]
                  simp
                rw [h1]
                have hp := ihp (fun x hx => hnl x (List.mem_cons_of_mem _ hx))
                split <;> omega

/-- `read_source` yields at most one op per source line. -/
theorem readGo_length (lines : List (List Char)) :
    ∀ (lineno : Nat) (current : List (List Char))
      (claimed : List (List Char × Nat)) (ops : List Op),
    readGo lineno lines current claimed = .ok ops →
    ops.length ≤ lines.length := by
  induction lines with
  | nil =>
    intro lineno current claimed ops h
    simp only [readGo, Except.ok.injEq] at h
    subst h
    simp
  | cons line rest ih =>
    intro lineno current claimed ops h
    simp only [readGo] at h
    cases htok : tokenize (codePrefix line) with
    | nil =>
      rw [htok] at h
      simp only [ne_eq, not_true_eq_false, if_false] at h
      have := ih (lineno + 1) current claimed ops h
      simp only [List.length_cons]
      omega
    | cons t0 trest =>
      rw [htok] at h
      dsimp only at h
      by_cases hcond : t0.getLast? = some ':' ∧ labelMatch t0.dropLast = true
      · rw [if_pos hcond] at h
        cases hfind : claimed.find? (fun p => p.1 = t0.dropLast) with
        | some p => rw [hfind] at h; exact absurd h (by simp)
        | none =>
          rw [hfind] at h
          simp only [] at h
          by_cases htr : trest = []
          · subst htr
            simp only [ne_eq, not_true_eq_false, if_false] at h
            have := ih (lineno + 1) _ _ ops h
            simp only [List.length_cons]
            omega
          · rw [if_pos (by simpa using htr)] at h
            split at h
            · exact Except.noConfusion h
            · rename_i ops' hrec
              simp only [Except.ok.injEq] at h
              subst h
              have := ih (lineno + 1) _ _ ops' hrec
              simp only [List.length_cons]
              omega
      · rw [if_neg hcond] at h
        simp only [] at h
        rw [if_pos (by simp)] at h
        split at h
        · exact Except.noConfusion h
        · rename_i ops' hrec
          simp only [Except.ok.injEq] at h
          subst h
          have := ih (lineno + 1) _ _ ops' hrec
          simp only [List.length_cons]
          omega

/-- The only load-time failure is the duplicate-label fatal error. -/
theorem readGo_err (lines : List (List Char)) :
    ∀ (lineno : Nat) (current : List (List Char))
      (claimed : List (List Char × Nat)) (e : AsmError),
    readGo lineno lines current claimed = .error e →
    ∃ ln li lab earlier, e = .fatal ln li (Why.dupLabel lab earlier) := by
  induction lines with
  | nil =>
    intro lineno current claimed e h
    simp only [readGo] at h
    exact absurd h (by simp)
  | cons line rest ih =>
    intro lineno current claimed e h
    simp only [readGo] at h
    cases htok : tokenize (codePrefix line) with
    | nil =>
      rw [htok] at h
      simp only [ne_eq, not_true_eq_false, if_false] at h
      exact ih (lineno + 1) current claimed e h
    | cons t0 trest =>
      rw [htok] at h
      dsimp only at h
      by_cases hcond : t0.getLast? = some ':' ∧ labelMatch t0.dropLast = true
      · rw [if_pos hcond] at h
        cases hfind : claimed.find? (fun p => p.1 = t0.dropLast) with
        | some p =>
          rw [hfind] at h
          simp only [Except.error.injEq] at h
          exact ⟨_, _, _, _, h.symm⟩
        | none =>
          rw [hfind] at h
          simp only [] at h
          by_cases htr : trest = []
          · subst htr
            simp only [ne_eq, not_true_eq_false, if_false] at h
            exact ih (lineno + 1) _ _ e h
          · rw [if_pos (by simpa using htr)] at h
            split at h
            · rename_i e' hrec
              simp only [Except.error.injEq] at h
              subst h
              exact ih (lineno + 1) _ _ e' hrec
            · exact Except.noConfusion h
      · rw [if_neg hcond] at h
        simp only [] at h
        rw [if_pos (by simp)] at h
        split at h
        · rename_i e' hrec
          simp only [Except.error.injEq] at h
          subst h
          exact ih (lineno + 1) _ _ e' hrec
        · exact Except.noConfusion h

/-- Fuel-insensitivity of the fixpoint loop: once the fuel covers the
pending-count bound, adding more fuel does not change the result — the
loop reaches its own stop condition (or a fatal error) first. -/
theorem passLoop_fuel_eq (fuel : Nat) :
    ∀ (extra : Nat) (num : Option Nat) (ctx : Context)
      (items : List (Op × Option Int)) (pc : Nat) (hist : List Nat)
      (ws : List Warning) (tr : List (Option Int)),
    (∀ n, num = some n → pend items = n ∧ noLexer items) →
    (match num with
      | none => items.length + 2
      | some n => n + 1) ≤ fuel →
    passLoop (fuel + extra) num ctx items pc hist ws tr =
      passLoop fuel num ctx items pc hist ws tr := by
  induction fuel with
  | zero =>
    intro extra num ctx items pc hist ws tr hnum hfuel
    exfalso
    cases num with
    | none => simp at hfuel
    | some n => simp at hfuel
  | succ f ih =>
    intro extra num ctx items pc hist ws tr hnum hfuel
    have hq : f + 1 + extra = (f + extra) + 1 := by omega
    rw [hq]
    simp only [passLoop]
    cases hrun : runPass { ctx with pos := some 0 } items with
    | error e => rfl
    | ok r =>
      obtain ⟨ctx', items', w, t⟩ := r
      obtain ⟨hlen, hnl', hmono⟩ :=
        runPass_evolve items _ ctx' items' w t hrun
      dsimp only
      split
      · rfl
      · rename_i hne
        apply ih extra
        · intro n hn
          injection hn with hn
          exact ⟨hn ▸ rfl, hnl'⟩
        · cases num with
          | none =>
            have hpe : pend items' = (items'.filter
              (fun x => x.1.todo = some Todo.codegen)).length := rfl
            have h1 : pend items' ≤ items'.length := List.length_filter_le _ _
            have h2 : items'.length = items.length := hlen
            simp only [] at hfuel ⊢
            omega
          | some n =>
            obtain ⟨hpend, hnl⟩ := hnum n rfl
            have hpe : pend items' = (items'.filter
              (fun x => x.1.todo = some Todo.codegen)).length := rfl
            have h1 : pend items' ≤ pend items := hmono hnl
            have h2 : pend items' ≠ n := by
              intro hcnt
              exact hne (by rw [← hcnt]; rfl)
            simp only [] at hfuel ⊢
            omega

/-- When the fixpoint loop stops on its own condition: the pending history
ends with the first adjacent repeat, the number of ops is preserved, the
pending lines are exactly the ops still awaiting codegen, and the number
of passes recorded is bounded. -/
theorem passLoop_shape (fuel : Nat) :
    ∀ (num : Option Nat) (ctx : Context)
      (items : List (Op × Option Int)) (pc : Nat) (hist : List Nat)
      (ws : List Warning) (tr : List (Option Int)) (out : LoopOut),
    passLoop fuel num ctx items pc hist ws tr = .ok (some out) →
    List.Chain' (· ≠ ·) hist →
    (num = none → hist = []) →
    (∀ n, num = some n → pend items = n ∧ noLexer items ∧
      hist.getLast? = some n) →
    (∃ l0 c, out.hist = l0 ++ [c, c] ∧ List.Chain' (· ≠ ·) (l0 ++ [c])) ∧
    out.items.length = items.length ∧
    out.pendLines = (out.items.filter
        (fun x => x.1.todo = some Todo.codegen)).map
      (fun x => (x.1.lineno, x.1.line)) ∧
    out.hist.length ≤ hist.length +
      (match num with
        | none => items.length + 2
        | some n => n + 1) := by
  induction fuel with
  | zero =>
    intro num ctx items pc hist ws tr out h
    simp only [passLoop] at h
    exact absurd h (by simp)
  | succ f ih =>
    intro num ctx items pc hist ws tr out h hchain hnone hnum
    simp only [passLoop] at h
    split at h
    · exact Except.noConfusion h
    · rename_i ctx' items' w t hrun
      obtain ⟨hlen, hnl', hmono⟩ :=
        runPass_evolve items _ ctx' items' w t hrun
      split at h
      · -- the loop stops here
        rename_i hstop
        simp only [Except.ok.injEq, Option.some.injEq] at h
        subst h
        obtain ⟨hpend, hnl, hlast⟩ := hnum _ hstop
        have hhist : hist =
            hist.dropLast ++
              [(items'.filter
                (fun x => x.1.todo = some Todo.codegen)).length] := by
          symm
          exact List.dropLast_append_getLast? _ (Option.mem_def.mpr hlast)
        refine ⟨⟨hist.dropLast,
          (items'.filter (fun x => x.1.todo = some Todo.codegen)).length,
          ?_, ?_⟩, hlen, rfl, ?_⟩
        · show hist ++ [_] = _
          rw [hhist]
          simp
        · rw [← hhist]
          exact hchain
        · show (hist ++ [_]).length ≤ _
          rw [hstop]
          simp only [List.length_append, List.length_singleton]
          omega
      · rename_i hne
        have hch' : List.Chain' (· ≠ ·)
            (hist ++ [(items'.filter
              (fun x => x.1.todo = some Todo.codegen)).length]) := by
          rw [List.chain'_append]
          refine ⟨hchain, List.chain'_singleton _, ?_⟩
          intro x hx y hy
          cases num with
          | none => rw [hnone rfl] at hx; simp at hx
          | some n =>
            obtain ⟨-, -, hlast⟩ := hnum n rfl
            rw [hlast] at hx
            simp only [Option.mem_def, Option.some.injEq] at hx hy
            subst hx
            rw [List.head?_cons] at hy
            cases hy
            intro hxy
            exact hne (by rw [hxy])
        obtain ⟨s1, s2, s3, s4⟩ := ih _ ctx' items' (pc + 1) _ _ _ out h
          hch'
          (fun hc => Option.noConfusion hc)
          (fun n hn => by
            injection hn with hn
            exact ⟨hn ▸ rfl, hnl', by rw [← hn, List.getLast?_concat]⟩)
        refine ⟨s1, by rw [s2, hlen], s3, ?_⟩
        have hpe : pend items' = (items'.filter
          (fun x => x.1.todo = some Todo.codegen)).length := rfl
        cases num with
        | none =>
          have h1 : pend items' ≤ items'.length := List.length_filter_le _ _
          simp only [List.length_append, List.length_singleton] at s4
          simp only []
          omega
        | some n =>
          obtain ⟨hpend, hnl, -⟩ := hnum n rfl
          have h1 : pend items' ≤ pend items := hmono hnl
          have h2 : pend items' ≠ n := by
            intro hcnt
            exact hne (by rw [← hcnt]; rfl)
          simp only [List.length_append, List.length_singleton] at s4
          simp only []
          omega

/-- `runPass` only fails with a per-line fatal error of msg/internal
shape. -/
theorem runPass_err (items : List (Op × Option Int)) :
    ∀ (ctx : Context) (e : AsmError),
    runPass ctx items = .error e →
    (∃ l li m, e = AsmError.fatal l li (Why.msg m)) ∨
    (∃ l li m, e = AsmError.fatal l li (Why.internal m)) := by
  induction items with
  | nil =>
    intro ctx e h
    simp only [runPass] at h
    exact absurd h (by simp)
  | cons pr rest ih =>
    obtain ⟨op, addr⟩ := pr
    intro ctx e h
    simp only [runPass] at h
    cases addr
    all_goals dsimp only at h
    all_goals repeat' split at h
    all_goals first
      | exact Except.noConfusion h
      | (simp only [Except.error.injEq] at h
         subst h
         first
           | exact Or.inl ⟨_, _, _, rfl⟩
           | exact Or.inr ⟨_, _, _, rfl⟩
           | (rename_i hrec; exact ih _ _ hrec)
           | (rename_i x hrec; exact ih _ _ hrec))

/-- The fixpoint loop only fails with a per-line fatal error of
msg/internal shape (raised by a pass). -/
theorem passLoop_err (fuel : Nat) :
    ∀ (num : Option Nat) (ctx : Context)
      (items : List (Op × Option Int)) (pc : Nat) (hist : List Nat)
      (ws : List Warning) (tr : List (Option Int)) (e : AsmError),
    passLoop fuel num ctx items pc hist ws tr = .error e →
    (∃ l li m, e = AsmError.fatal l li (Why.msg m)) ∨
    (∃ l li m, e = AsmError.fatal l li (Why.internal m)) := by
  induction fuel with
  | zero =>
    intro num ctx items pc hist ws tr e h
    simp only [passLoop] at h
    exact absurd h (by simp)
  | succ f ih =>
    intro num ctx items pc hist ws tr e h
    simp only [passLoop] at h
    split at h
    · rename_i e' hrun
      simp only [Except.error.injEq] at h
      subst h
      exact runPass_err items _ e' hrun
    · rename_i ctx' items' w t hrun
      split at h
      · exact Except.noConfusion h
      · exact ih _ ctx' items' _ _ _ _ e h

/-- Inversion of a successful `assemble` run down to its fixpoint loop. -/
theorem assemble_ok_inv (program : List (List Char)) (out : AsmOut)
    (h : assemble program = .ok out) :
    ∃ ops lines lo,
      read_source program = .ok (ops, lines) ∧ ops ≠ [] ∧
      passLoop (program.length + 2) none ctx0
        (ops.map (fun o => (o, (none : Option Int)))) 0 [] [] [] =
        .ok (some lo) ∧
      lo.pendLines = [] ∧
      out.items = lo.items ∧ out.hist = lo.hist := by
  unfold assemble assembleWithFuel at h
  simp only [bind_def] at h
  split at h
  · exact Except.noConfusion h
  · rename_i pr hR
    obtain ⟨ops, lines⟩ := pr
    dsimp only at h
    split at h
    · exact Except.noConfusion h
    · rename_i hops
      split at h
      · exact Except.noConfusion h
      · rename_i lo hpl
        cases lo with
        | none => dsimp only at h; exact Except.noConfusion h
        | some lo =>
          dsimp only at h
          split at h
          · exact Except.noConfusion h
          · rename_i hpend0
            rw [not_not] at hpend0
            split at h
            · exact Except.noConfusion h
            · rename_i intMap hall
              simp only [Except.ok.injEq] at h
              subst h
              exact ⟨ops, lines, lo, hR, hops, hpl, hpend0, rfl, rfl⟩

/-- Inversion of an `assemble` run that fails with unresolved lines. -/
theorem assemble_unresolved_inv (program : List (List Char))
    (lineno : Int) (line : List Char) (passes : Nat)
    (pending : List (Nat × List Char))
    (h : assemble program =
      .error (.fatal lineno line (Why.unresolved passes pending))) :
    ∃ lo : LoopOut, pending = lo.pendLines ∧ lo.pendLines ≠ [] := by
  unfold assemble assembleWithFuel at h
  simp only [bind_def] at h
  split at h
  · rename_i e hR
    simp only [Except.error.injEq] at h
    subst h
    have hg : readGo 0 program [] [] =
        .error (.fatal lineno line (Why.unresolved passes pending)) := by
      unfold read_source at hR
      cases hg0 : readGo 0 program [] [] with
      | error e0 =>
        rw [hg0] at hR
        simp only [Except.map, Except.error.injEq] at hR
        rw [hR]
      | ok o => rw [hg0] at hR; exact absurd hR (by simp [Except.map])
    obtain ⟨ln, li, lab, earlier, heq⟩ := readGo_err program 0 [] [] _ hg
    simp only [AsmError.fatal.injEq] at heq
    exact absurd heq.2.2 (by simp)
  · rename_i pr hR
    obtain ⟨ops, lines⟩ := pr
    dsimp only at h
    split at h
    · simp at h
    · rename_i hops
      split at h
      · rename_i e hpl
        simp only [Except.error.injEq] at h
        rcases passLoop_err _ _ _ _ _ _ _ _ _ hpl with
          ⟨l, li, m, he⟩ | ⟨l, li, m, he⟩ <;>
          (rw [he] at h
           simp only [AsmError.fatal.injEq] at h
           exact absurd h.2.2 (by simp))
      · rename_i lo hpl
        cases lo with
        | none =>
          dsimp only at h
          simp only [Except.error.injEq, AsmError.fatal.injEq] at h
          exact absurd h (by simp)
        | some lo =>
          dsimp only at h
          split at h
          · rename_i hpend
            simp only [Except.error.injEq, AsmError.fatal.injEq,
              Why.unresolved.injEq] at h
            exact ⟨lo, h.2.2.2.symm, hpend⟩
          · rename_i hpend
            split at h
            · simp only [Except.error.injEq, AsmError.fatal.injEq] at h
              exact absurd h (by simp)
            · exact Except.noConfusion h

/-- C1. The multi-pass driver terminates on every input: it is insensitive
to any fuel beyond `|program| + 2` (the loop reaches its own stop
condition — the pending-codegen count repeating across a pass — or a
fatal error first); on success the per-pass pending history ends at its
first adjacent repeat and records at most `|ops| + 2` passes, with no op
left awaiting codegen; and when assembly fails with the unresolved-lines
error, the listed pending lines are non-empty. -/
theorem c1_fixpoint_termination (program : List (List Char)) :
    (∀ extra : Nat,
      assembleWithFuel (program.length + 2 + extra) program =
        assemble program) ∧
    (∀ out, assemble program = .ok out →
      (∃ l0 c, out.hist = l0 ++ [c, c] ∧
        List.Chain' (· ≠ ·) (l0 ++ [c])) ∧
      out.hist.length ≤ out.items.length + 2 ∧
      out.items.filter (fun x => x.1.todo = some Todo.codegen) = []) ∧
    (∀ (lineno : Int) (line : List Char) (passes : Nat)
        (pending : List (Nat × List Char)),
      assemble program =
        .error (.fatal lineno line (Why.unresolved passes pending)) →
      pending ≠ []) := by
  refine ⟨?_, ?_, ?_⟩
  · intro extra
    unfold assemble assembleWithFuel
    cases hR : read_source program with
    | error e => rfl
    | ok pr =>
      obtain ⟨ops, lines⟩ := pr
      simp only [bind_def]
      by_cases hops : ops = []
      · rw [if_pos hops, if_pos hops]
      · rw [if_neg hops, if_neg hops]
        have hlen : ops.length ≤ program.length := by
          unfold read_source at hR
          cases hg : readGo 0 program [] [] with
          | error e =>
            rw [hg] at hR
            exact absurd hR (by simp [Except.map])
          | ok o =>
            rw [hg] at hR
            simp only [Except.map, Except.ok.injEq, Prod.mk.injEq] at hR
            obtain ⟨h1, -⟩ := hR
            rw [h1] at hg
            exact readGo_length program 0 [] [] _ hg
        have hPL := passLoop_fuel_eq (program.length + 2) extra none ctx0
          (ops.map (fun o => (o, (none : Option Int)))) 0 [] [] []
          (fun n hn => Option.noConfusion hn)
          (by simp only []; rw [List.length_map]; omega)
        rw [hPL]
  · intro out hOut
    obtain ⟨ops, lines, lo, hR, hops, hpl, hpend0, hitems, hhist⟩ :=
      assemble_ok_inv program out hOut
    obtain ⟨s1, s2, s3, s4⟩ := passLoop_shape (program.length + 2) none ctx0
      (ops.map (fun o => (o, (none : Option Int)))) 0 [] [] [] lo hpl
      List.chain'_nil (fun _ => rfl) (fun n hn => Option.noConfusion hn)
    refine ⟨by rw [hhist]; exact s1, ?_, ?_⟩
    · have h4 : lo.hist.length ≤
          (ops.map (fun o => (o, (none : Option Int)))).length + 2 := by
        simpa using s4
      rw [hhist, hitems, s2]
      exact h4
    · have hmap : (lo.items.filter
          (fun x => x.1.todo = some Todo.codegen)).map
            (fun x => (x.1.lineno, x.1.line)) = [] := by
        rw [← s3]
        exact hpend0
      rw [hitems]
      exact List.map_eq_nil_iff.mp hmap
  · intro lineno line passes pending h
    obtain ⟨lo, hp1, hp2⟩ := assemble_unresolved_inv program lineno line
      passes pending h
    rw [hp1]
    exact hp2

/-- The witness program for C1: two passes of real work then the stop. -/
def progC1w : List (List Char) := [cs "      org $100", cs "      nop"]

/-- Witness for C1: fuel-insensitivity and the history shape hold on a
concrete two-line program. -/
theorem c1_fixpoint_termination_witness :
    assembleWithFuel (progC1w.length + 2 + 5) progC1w = assemble progC1w ∧
    ∃ out, assemble progC1w = .ok out ∧
      (∃ l0 c, out.hist = l0 ++ [c, c] ∧
        List.Chain' (· ≠ ·) (l0 ++ [c])) ∧
      out.hist.length ≤ out.items.length + 2 := by
  refine ⟨(c1_fixpoint_termination progC1w).1 5, ?_⟩
  have hsome : (assemble progC1w).toOption.isSome = true := by decide
  cases hA : assemble progC1w with
  | error e => rw [hA] at hsome; simp [Except.toOption] at hsome
  | ok out =>
    have hc := (c1_fixpoint_termination progC1w).2.1 out hA
    exact ⟨out, rfl, hc.1, hc.2.1⟩

/-! ## C6: the argument-parser dispatch order -/

theorem char_eq_iff_toNat (c d : Char) : c = d ↔ c.toNat = d.toNat := by
  constructor
  · rintro rfl; rfl
  · intro h
    have h2 := congrArg Char.ofNat h
    rwa [Char.ofNat_toNat, Char.ofNat_toNat] at h2

theorem toNat_of_space (c : Char) (h : isSpaceChar c = true) :
    c.toNat ≤ 32 := by
  simp only [isSpaceChar, Bool.or_eq_true, decide_eq_true_eq] at h
  rcases h with ((((rfl | rfl) | rfl) | rfl) | rfl) | rfl <;> decide

theorem toNat_ofNat_small (n : Nat) (h : n < 55296) :
    (Char.ofNat n).toNat = n := by
  rw [Char.ofNat, dif_pos (Or.inl h)]
  rfl

theorem isSpaceChar_toLower (c : Char) :
    isSpaceChar c.toLower = isSpaceChar c := by
  simp only [Char.toLower]
  split
  · rename_i h
    have h1 : isSpaceChar c = false := by
      cases hs : isSpaceChar c with
      | false => rfl
      | true => exact absurd (toNat_of_space c hs) (by omega)
    have h2 : isSpaceChar (Char.ofNat (c.toNat + 32)) = false := by
      cases hs : isSpaceChar (Char.ofNat (c.toNat + 32)) with
      | false => rfl
      | true =>
        have h3 := toNat_of_space _ hs
        rw [toNat_ofNat_small _ (by omega)] at h3
        omega
    rw [h1, h2]
  · rfl

theorem word_not_space (c : Char) (h : isWordChar c = true) :
    isSpaceChar c = false := by
  cases hs : isSpaceChar c with
  | false => rfl
  | true =>
    exfalso
    simp only [isSpaceChar, Bool.or_eq_true, decide_eq_true_eq] at hs
    rcases hs with ((((rfl | rfl) | rfl) | rfl) | rfl) | rfl <;>
      revert h <;> decide

theorem trimLeft_map_toLower (l : List Char) :
    trimLeft (pyLower l) = pyLower (trimLeft l) := by
  induction l with
  | nil => rfl
  | cons c rest ih =>
    show trimLeft (c.toLower :: pyLower rest) = pyLower (trimLeft (c :: rest))
    simp only [trimLeft, isSpaceChar_toLower]
    by_cases h : isSpaceChar c = true
    · rw [if_pos h, if_pos h]
      exact ih
    · rw [if_neg h, if_neg h]
      rfl

theorem pyLower_reverse (l : List Char) :
    (pyLower l).reverse = pyLower l.reverse := by
  simp [pyLower, List.map_reverse]

theorem pyStrip_pyLower (l : List Char) :
    pyStrip (pyLower l) = pyLower (pyStrip l) := by
  unfold pyStrip
  rw [trimLeft_map_toLower, pyLower_reverse, trimLeft_map_toLower,
    pyLower_reverse]

theorem trimLeft_nonspace_head (l : List Char)
    (h : ∀ c, l.head? = some c → isSpaceChar c = false) : trimLeft l = l := by
  cases l with
  | nil => rfl
  | cons c rest => simp [trimLeft, h c rfl]

theorem pyStrip_of_ends (l : List Char)
    (h1 : ∀ c, l.head? = some c → isSpaceChar c = false)
    (h2 : ∀ c, l.getLast? = some c → isSpaceChar c = false) :
    pyStrip l = l := by
  unfold pyStrip
  rw [trimLeft_nonspace_head l h1]
  rw [trimLeft_nonspace_head l.reverse
    (fun c hc => h2 c (by rwa [List.head?_reverse] at hc))]
  rw [List.reverse_reverse]

theorem isDigitIn_word (b : Nat) (c : Char) (h : isDigitIn b c = true) :
    isWordChar c = true := by
  have hdig : c.isDigit = true → isWordChar c = true := by
    intro hd
    simp only [isWordChar, Char.isAlphanum, Char.isAlpha, hd,
      Bool.or_true, Bool.true_or]
  unfold isDigitIn at h
  split_ifs at h
  · simp only [isBinDigit, Bool.or_eq_true, decide_eq_true_eq] at h
    rcases h with rfl | rfl <;> decide
  · simp only [isOctDigit, Bool.and_eq_true, decide_eq_true_eq,
      Char.le_def] at h
    apply hdig
    simp only [Char.isDigit, Bool.and_eq_true, decide_eq_true_eq]
    constructor
    · exact h.1
    · exact UInt32.le_trans h.2 (by decide)
  · simp only [isHexDigitChar, Bool.or_eq_true, Bool.and_eq_true,
      decide_eq_true_eq, Char.le_def] at h
    rcases h with (hd | ⟨h1, h2⟩) | ⟨h1, h2⟩
    · exact hdig hd
    · simp only [isWordChar, Char.isAlphanum, Char.isAlpha, Char.isLower]
      have : (c.val ≥ 97 && c.val ≤ 122) = true := by
        simp only [Bool.and_eq_true, decide_eq_true_eq]
        exact ⟨h1, UInt32.le_trans h2 (by decide)⟩
      rw [this]
      simp
    · simp only [isWordChar, Char.isAlphanum, Char.isAlpha, Char.isUpper]
      have : (c.val ≥ 65 && c.val ≤ 90) = true := by
        simp only [Bool.and_eq_true, decide_eq_true_eq]
        exact ⟨h1, UInt32.le_trans h2 (by decide)⟩
      rw [this]
      simp
  · exact hdig h

theorem pyDigitsTail_word (base : Nat) :
    ∀ (n : Nat) (l : List Char), l.length ≤ n → ∀ (acc v : Nat),
    pyDigitsTail base acc l = some v → ∀ c ∈ l, isWordChar c = true := by
  intro n
  induction n with
  | zero =>
    intro l hl acc v h c hc
    cases l with
    | nil => exact absurd hc (List.not_mem_nil c)
    | cons a rest => simp at hl
  | succ n ih =>
    intro l hl acc v h c hc
    cases l with
    | nil => exact absurd hc (List.not_mem_nil c)
    | cons c0 rest =>
      rw [pyDigitsTail.eq_def] at h
      dsimp only at h
      by_cases h0 : c0 = '_'
      · rw [if_pos h0] at h
        cases rest with
        | nil => exact absurd h (by simp)
        | cons c2 rest2 =>
          dsimp only at h
          split_ifs at h with hd
          rcases List.mem_cons.mp hc with rfl | hm
          · rw [h0]; decide
          · rcases List.mem_cons.mp hm with rfl | hm2
            · exact isDigitIn_word base c hd
            · exact ih rest2 (by simp at hl ⊢; omega) _ v h c hm2
      · rw [if_neg h0] at h
        split_ifs at h with hd
        rcases List.mem_cons.mp hc with rfl | hm
        · exact isDigitIn_word base c hd
        · exact ih rest (by simp at hl ⊢; omega) _ v h c hm

theorem pyDigitsFirst_word (base : Nat) (allowU : Bool) (l : List Char)
    (v : Nat) (h : pyDigitsFirst base allowU l = some v) :
    ∀ c ∈ l, isWordChar c = true := by
  intro c hc
  cases l with
  | nil => exact absurd hc (List.not_mem_nil c)
  | cons c0 rest =>
    simp only [pyDigitsFirst] at h
    by_cases h0 : c0 = '_'
    · rw [if_pos h0] at h
      cases rest with
      | nil => exact absurd h (by simp)
      | cons c2 rest2 =>
        dsimp only at h
        split_ifs at h with hd
        rcases List.mem_cons.mp hc with rfl | hm
        · rw [h0]; decide
        · rcases List.mem_cons.mp hm with rfl | hm2
          · exact isDigitIn_word base c (by
              rcases Bool.and_eq_true .. |>.mp hd with ⟨-, h2⟩
              exact h2)
          · exact pyDigitsTail_word base rest2.length rest2 le_rfl _ v h c hm2
    · rw [if_neg h0] at h
      split_ifs at h with hd
      rcases List.mem_cons.mp hc with rfl | hm
      · exact isDigitIn_word base c hd
      · exact pyDigitsTail_word base rest.length rest le_rfl _ v h c hm

theorem allZeros_word :
    ∀ (n : Nat) (l : List Char), l.length ≤ n → allZeros l = true →
    ∀ c ∈ l, isWordChar c = true := by
  intro n
  induction n with
  | zero =>
    intro l hl h c hc
    cases l with
    | nil => exact absurd hc (List.not_mem_nil c)
    | cons a rest => simp at hl
  | succ n ih =>
    intro l hl h c hc
    cases l with
    | nil => exact absurd hc (List.not_mem_nil c)
    | cons c0 rest =>
      rw [allZeros.eq_def] at h
      dsimp only at h
      by_cases h0 : c0 = '_'
      · rw [if_pos h0] at h
        cases rest with
        | nil => exact absurd h (by simp)
        | cons c2 rest2 =>
          dsimp only at h
          split_ifs at h with hd
          rcases List.mem_cons.mp hc with rfl | hm
          · rw [h0]; decide
          · rcases List.mem_cons.mp hm with rfl | hm2
            · rw [hd]; decide
            · exact ih rest2 (by simp at hl ⊢; omega) h c hm2
      · rw [if_neg h0] at h
        split_ifs at h with hd
        rcases List.mem_cons.mp hc with rfl | hm
        · rw [hd]; decide
        · exact ih rest (by simp at hl ⊢; omega) h c hm

theorem pyIntMag_word (l : List Char) (v : Nat) (h : pyIntMag l = some v) :
    ∀ c ∈ l, isWordChar c = true := by
  intro c hc
  cases l with
  | nil => exact absurd hc (List.not_mem_nil c)
  | cons c0 rest =>
    simp only [pyIntMag] at h
    by_cases h0 : c0 = '0'
    · rw [if_pos h0] at h
      cases rest with
      | nil =>
        have : c = c0 := by simpa using hc
        rw [this, h0]; decide
      | cons x rest2 =>
        dsimp only at h
        rcases List.mem_cons.mp hc with rfl | hm
        · rw [h0]; decide
        · split_ifs at h with hx ho hb hz
          · simp only [Bool.or_eq_true, decide_eq_true_eq] at hx
            rcases List.mem_cons.mp hm with rfl | hm2
            · rcases hx with rfl | rfl <;> decide
            · exact pyDigitsFirst_word 16 true rest2 v h c hm2
          · simp only [Bool.or_eq_true, decide_eq_true_eq] at ho
            rcases List.mem_cons.mp hm with rfl | hm2
            · rcases ho with rfl | rfl <;> decide
            · exact pyDigitsFirst_word 8 true rest2 v h c hm2
          · simp only [Bool.or_eq_true, decide_eq_true_eq] at hb
            rcases List.mem_cons.mp hm with rfl | hm2
            · rcases hb with rfl | rfl <;> decide
            · exact pyDigitsFirst_word 2 true rest2 v h c hm2
          · exact allZeros_word (x :: rest2).length (x :: rest2) le_rfl hz
              c hm
    · rw [if_neg h0] at h
      exact pyDigitsFirst_word 10 false (c0 :: rest) v h c hc

theorem pyIntMag_none_of_nonword (l : List Char) (c0 : Char) (hc : c0 ∈ l)
    (hw : isWordChar c0 = false) : pyIntMag l = none := by
  cases h : pyIntMag l with
  | none => rfl
  | some v =>
    have := pyIntMag_word l v h c0 hc
    rw [hw] at this
    exact absurd this (by simp)

theorem postLoop_shape : ∀ (l : List Char) (p q : Rat),
    postLoop p l = (q, []) → ∀ c ∈ l, c = '+' ∨ c = '-' := by
  intro l
  induction l with
  | nil =>
    intro p q h c hc
    exact absurd hc (List.not_mem_nil c)
  | cons c0 rest ih =>
    intro p q h c hc
    simp only [postLoop] at h
    split_ifs at h with h1 h2
    · rcases List.mem_cons.mp hc with rfl | hm
      · exact Or.inl h1
      · exact ih _ _ h c hm
    · rcases List.mem_cons.mp hc with rfl | hm
      · exact Or.inr h2
      · exact ih _ _ h c hm
    · simp only [Prod.mk.injEq] at h
      exact absurd h.2 (by simp)

theorem cremVal_some (opts : ParseOptions) (c : Char) (v : Rat)
    (h : cremVal opts c = some v) :
    c = '-' ∨ c = '+' ∨ c = '~' ∨ c = '\'' := by
  unfold cremVal at h
  split_ifs at h with h1 h2 h3 h4
  · exact Or.inl h1
  · exact Or.inr (Or.inl h2)
  · exact Or.inr (Or.inr (Or.inl
      (of_decide_eq_true (Bool.and_eq_true .. |>.mp h3).2)))
  · exact Or.inr (Or.inr (Or.inr
      (of_decide_eq_true (Bool.and_eq_true .. |>.mp h4).2)))

theorem preLoop_shape (opts : ParseOptions) : ∀ (l : List Char) (p q : Rat)
    (u : List Char), preLoop opts p l = .ok (q, u) →
    ∃ s, l = s ++ u ∧
      ∀ c ∈ s, c = '-' ∨ c = '+' ∨ c = '~' ∨ c = '\'' := by
  intro l
  induction l with
  | nil =>
    intro p q u h
    exact absurd h (by simp [preLoop])
  | cons c0 rest ih =>
    intro p q u h
    simp only [preLoop] at h
    split at h
    · rename_i v hcrem
      split_ifs at h with h1
      obtain ⟨s', hs1, hs2⟩ := ih _ _ _ h
      refine ⟨c0 :: s', by rw [List.cons_append, hs1], ?_⟩
      intro c hc
      rcases List.mem_cons.mp hc with rfl | hm
      · exact cremVal_some opts c v hcrem
      · exact hs2 c hm
    · simp only [Except.ok.injEq, Prod.mk.injEq] at h
      refine ⟨[], by rw [List.nil_append, h.2], by simp⟩

theorem dropWhile_head {α : Type} (p : α → Bool) : ∀ (l : List α) (d : α)
    (ds : List α), l.dropWhile p = d :: ds → p d = false := by
  intro l
  induction l with
  | nil => intro d ds h; exact absurd h (by simp)
  | cons c rest ih =>
    intro d ds h
    rw [List.dropWhile_cons] at h
    split_ifs at h with h1
    · exact ih d ds h
    · injection h with h2 h3
      rw [← h2]
      simpa using h1

theorem splitOnceParen_eq (l inner rest : List Char)
    (h : splitOnceParen l = some (inner, rest)) :
    l = inner ++ ')' :: rest := by
  unfold splitOnceParen at h
  split_ifs at h with hcount
  simp only [Option.some.injEq, Prod.mk.injEq] at h
  obtain ⟨h1, h2⟩ := h
  have hsplit := List.takeWhile_append_dropWhile
    (p := fun c => decide (c ≠ ')')) (l := l)
  cases hd : l.dropWhile (fun c => decide (c ≠ ')')) with
  | nil =>
    exfalso
    rw [hd, List.append_nil] at hsplit
    have hnotmem : ')' ∉ l := by
      intro hmem
      rw [← hsplit] at hmem
      have := List.mem_takeWhile_imp hmem
      simp at this
    rw [List.count_eq_zero.mpr hnotmem] at hcount
    exact absurd hcount (by simp)
  | cons d ds =>
    have hdf := dropWhile_head _ l d ds hd
    have hdr : d = ')' := by simpa using hdf
    rw [← h1, ← h2, hd]
    rw [hd, hdr] at hsplit
    simpa using hsplit.symm

/-- Inversion of a successful dereference parse: the stripped token is
crement sigils, an open parenthesis, the inner text, a close parenthesis,
and post-crement sigils. -/
theorem deref_ok_shape (opts : ParseOptions) (ctx : Context) (t : List Char)
    (a : Arg) (h : _parse_deref opts ctx t = .ok a) :
    t ≠ [] ∧ ∃ s inner posts,
      pyStrip t = s ++ '(' :: (inner ++ ')' :: posts) ∧
      (∀ c ∈ s, c = '-' ∨ c = '+' ∨ c = '~' ∨ c = '\'') ∧
      (∀ c ∈ posts, c = '+' ∨ c = '-') := by
  unfold _parse_deref at h
  split_ifs at h with ht
  refine ⟨ht, ?_⟩
  dsimp only at h
  split at h
  · exact Except.noConfusion h
  · rename_i pre t1 hpre
    split at h
    · rename_i t2
      split at h
      · exact Except.noConfusion h
      · rename_i inner t3 hsplit
        split at h
        · exact Except.noConfusion h
        · rename_i toderef hatt
          split at h
          · exact Except.noConfusion h
          · rename_i ht4
            rw [not_not] at ht4
            obtain ⟨s, hs1, hs2⟩ := preLoop_shape opts _ _ _ _ hpre
            have ht3 : t2 = inner ++ ')' :: t3 :=
              splitOnceParen_eq _ _ _ hsplit
            refine ⟨s, inner, t3, ?_, hs2, ?_⟩
            · rw [hs1, ht3]
            · intro c hc
              exact postLoop_shape t3 0 (postLoop 0 t3).1
                (by rw [← ht4]) c hc
    · exact Except.noConfusion h

/-! Auxiliary list facts for the dispatch-order analysis. -/

theorem lastMem : ∀ (l : List Char) (c : Char), l.getLast? = some c → c ∈ l := by
  intro l
  induction l with
  | nil => intro c hc; exact absurd hc (by simp)
  | cons b bs ih =>
    intro c hc
    cases bs with
    | nil =>
      rw [List.getLast?_singleton, Option.some.injEq] at hc
      rw [← hc]
      exact List.mem_cons_self b []
    | cons d ds =>
      rw [List.getLast?_cons_cons] at hc
      exact List.mem_cons_of_mem b (ih c hc)

theorem dropLast_mem : ∀ (l : List Char) (c : Char), c ∈ l.dropLast → c ∈ l := by
  intro l
  induction l with
  | nil => intro c hc; simpa using hc
  | cons a as ih =>
    intro c hc
    cases as with
    | nil => simp at hc
    | cons b bs =>
      rw [show (a :: b :: bs).dropLast = a :: (b :: bs).dropLast from rfl] at hc
      rcases List.mem_cons.mp hc with rfl | h2
      · exact List.mem_cons_self c (b :: bs)
      · exact List.mem_cons_of_mem a (ih c h2)

theorem pyLower_getLast (l : List Char) :
    (pyLower l).getLast? = l.getLast?.map Char.toLower := by
  rw [← List.head?_reverse, pyLower_reverse]
  simp only [pyLower]
  rw [List.head?_map, List.head?_reverse]

theorem wordStart_word (c : Char) (h : isWordStart c = true) :
    isWordChar c = true := by
  simp only [isWordStart, Bool.or_eq_true, decide_eq_true_eq] at h
  rcases h with h | rfl
  · simp [isWordChar, Char.isAlphanum, h]
  · decide

/-! The head and last character of a dereference-shaped token. -/

theorem shape_head (s inner posts : List Char)
    (hs : ∀ c ∈ s, c = '-' ∨ c = '+' ∨ c = '~' ∨ c = '\'') :
    ∃ h0 tl, s ++ '(' :: (inner ++ ')' :: posts) = h0 :: tl ∧
      (h0 = '-' ∨ h0 = '+' ∨ h0 = '~' ∨ h0 = '\'' ∨ h0 = '(') := by
  cases s with
  | nil =>
    exact ⟨'(', inner ++ ')' :: posts, rfl,
      Or.inr (Or.inr (Or.inr (Or.inr rfl)))⟩
  | cons c0 s2 =>
    refine ⟨c0, s2 ++ '(' :: (inner ++ ')' :: posts), rfl, ?_⟩
    rcases hs c0 (List.mem_cons_self c0 s2) with rfl | rfl | rfl | rfl
    · exact Or.inl rfl
    · exact Or.inr (Or.inl rfl)
    · exact Or.inr (Or.inr (Or.inl rfl))
    · exact Or.inr (Or.inr (Or.inr (Or.inl rfl)))

theorem shape_lower_head (s inner posts : List Char)
    (hs : ∀ c ∈ s, c = '-' ∨ c = '+' ∨ c = '~' ∨ c = '\'') :
    ∃ h0 tl, pyLower (s ++ '(' :: (inner ++ ')' :: posts)) = h0 :: tl ∧
      (h0 = '-' ∨ h0 = '+' ∨ h0 = '~' ∨ h0 = '\'' ∨ h0 = '(') := by
  obtain ⟨h0, tl, hsh, hh0⟩ := shape_head s inner posts hs
  refine ⟨h0.toLower, pyLower tl, by rw [hsh]; rfl, ?_⟩
  rcases hh0 with rfl | rfl | rfl | rfl | rfl
  · exact Or.inl (by decide)
  · exact Or.inr (Or.inl (by decide))
  · exact Or.inr (Or.inr (Or.inl (by decide)))
  · exact Or.inr (Or.inr (Or.inr (Or.inl (by decide))))
  · exact Or.inr (Or.inr (Or.inr (Or.inr (by decide))))

theorem shape_last (s inner posts : List Char)
    (hposts : ∀ c ∈ posts, c = '+' ∨ c = '-') :
    ∀ c, (s ++ '(' :: (inner ++ ')' :: posts)).getLast? = some c →
      c = ')' ∨ c = '+' ∨ c = '-' := by
  intro c hc
  rw [List.getLast?_append_of_ne_nil s (by simp)] at hc
  rw [show ('(' :: (inner ++ ')' :: posts)) =
    ('(' :: inner) ++ ')' :: posts from rfl] at hc
  rw [List.getLast?_append_of_ne_nil ('(' :: inner) (by simp)] at hc
  cases posts with
  | nil =>
    rw [List.getLast?_singleton, Option.some.injEq] at hc
    exact Or.inl hc.symm
  | cons p ps =>
    rw [List.getLast?_cons_cons] at hc
    rcases hposts c (lastMem (p :: ps) c hc) with rfl | rfl
    · exact Or.inr (Or.inl rfl)
    · exact Or.inr (Or.inr rfl)

/-! `int(text, base=0)` fails when a non-word character survives into the
magnitude. -/

theorem pyIntBase0_none_drop (l : List Char) (d : Char)
    (hd : d ∈ (pyStrip l).drop 1) (hw : isWordChar d = false) :
    pyIntBase0 l = none := by
  unfold pyIntBase0
  split
  · rename_i rest heq
    rw [heq, List.drop_one, List.tail_cons] at hd
    rw [pyIntMag_none_of_nonword rest d hd hw]
    rfl
  · rename_i rest heq
    rw [heq, List.drop_one, List.tail_cons] at hd
    rw [pyIntMag_none_of_nonword rest d hd hw]
    rfl
  · rw [pyIntMag_none_of_nonword (pyStrip l) d (List.mem_of_mem_drop hd) hw]
    rfl

theorem pyIntBase0_none_head (l : List Char) (d : Char) (rest : List Char)
    (hd : pyStrip l = d :: rest) (h1 : d ≠ '+') (h2 : d ≠ '-')
    (hw : isWordChar d = false) :
    pyIntBase0 l = none := by
  unfold pyIntBase0
  rw [hd]
  split
  · rename_i r2 heq
    injection heq with ha hb
    exact absurd ha h1
  · rename_i r2 heq
    injection heq with ha hb
    exact absurd ha h2
  · rw [pyIntMag_none_of_nonword (d :: rest) d (List.mem_cons_self d rest) hw]
    rfl

/-- `parse_integer` rejects any non-quote token whose stripped, lowered form
keeps a non-word character beyond the first position and does not end in a
base-suffix letter. -/
theorem parse_integer_err_shape (opts : ParseOptions) (ctx : Context)
    (c0 : Char) (rest u : List Char)
    (hq1 : c0 ≠ '"') (hq2 : c0 ≠ '\'')
    (hu : pyStrip (pyLower (c0 :: rest)) = u)
    (hne : u ≠ [])
    (hhead : ∀ c, u.head? = some c → c ≠ '$' ∧ isSpaceChar c = false)
    (hlast : ∀ c, u.getLast? = some c → isSpaceChar c = false ∧
      c ≠ 'h' ∧ c ≠ 'b' ∧ c ≠ 'o' ∧ c ≠ 'q' ∧ c ≠ 'd')
    (hbad : ∃ d ∈ u.drop 1, isWordChar d = false) :
    parse_integer opts ctx (c0 :: rest) =
      .error (.value ("Malformed numeric text " ++ ⟨c0 :: rest⟩)) := by
  obtain ⟨d, hdmem, hdw⟩ := hbad
  cases u with
  | nil => exact absurd rfl hne
  | cons x r =>
    rw [List.drop_one, List.tail_cons] at hdmem
    have hxprop := hhead x rfl
    have hrlast : ∀ c, r.getLast? = some c → isSpaceChar c = false ∧
        c ≠ 'h' ∧ c ≠ 'b' ∧ c ≠ 'o' ∧ c ≠ 'q' ∧ c ≠ 'd' := by
      intro c hc
      apply hlast
      cases r with
      | nil => exact absurd hc (by simp)
      | cons b bs => rw [List.getLast?_cons_cons]; exact hc
    have hstr : pyStrip (x :: r) = x :: r := by
      apply pyStrip_of_ends
      · intro c hc
        rw [List.head?_cons, Option.some.injEq] at hc
        rw [← hc]
        exact hxprop.2
      · intro c hc
        cases r with
        | nil =>
          rw [List.getLast?_singleton, Option.some.injEq] at hc
          rw [← hc]
          exact hxprop.2
        | cons b bs =>
          rw [List.getLast?_cons_cons] at hc
          exact (hrlast c hc).1
    simp only [parse_integer]
    rw [if_neg (by simp [hq1, hq2])]
    rw [hu, dollarToSuffix_ne (x :: r) (by
      rw [List.head?_cons]
      intro hcon
      rw [Option.some.injEq] at hcon
      exact hxprop.1 hcon)]
    rw [if_neg (List.cons_ne_nil x r)]
    by_cases hx1 : x = '+'
    · subst hx1
      rw [show splitSign ('+' :: r) = (['+'], r) from rfl]
      simp only []
      rw [applySuffix_id r (fun c hc => (hrlast c hc).2)]
      rw [show (['+'] ++ r : List Char) = '+' :: r from rfl]
      rw [pyIntBase0_none_drop ('+' :: r) d (by
        rw [hstr, List.drop_one, List.tail_cons]
        exact hdmem) hdw]
    · by_cases hx2 : x = '-'
      · subst hx2
        rw [show splitSign ('-' :: r) = (['-'], r) from rfl]
        simp only []
        rw [applySuffix_id r (fun c hc => (hrlast c hc).2)]
        rw [show (['-'] ++ r : List Char) = '-' :: r from rfl]
        rw [pyIntBase0_none_drop ('-' :: r) d (by
          rw [hstr, List.drop_one, List.tail_cons]
          exact hdmem) hdw]
      · rw [splitSign_ne (x :: r) (by simp [hx1]) (by simp [hx2])]
        simp only [List.nil_append]
        rw [applySuffix_id (x :: r) (fun c hc => (hlast c hc).2)]
        rw [pyIntBase0_none_drop (x :: r) d (by
          rw [hstr, List.drop_one, List.tail_cons]
          exact hdmem) hdw]

/-- `parse_integer` rejects every dereference-shaped token. -/
theorem parse_integer_shape_err (opts : ParseOptions) (ctx : Context)
    (s inner posts : List Char)
    (hs : ∀ c ∈ s, c = '-' ∨ c = '+' ∨ c = '~' ∨ c = '\'')
    (hposts : ∀ c ∈ posts, c = '+' ∨ c = '-') :
    ∃ m, parse_integer opts ctx (s ++ '(' :: (inner ++ ')' :: posts)) =
      .error (.value m) := by
  obtain ⟨h0, tl, hsh, hh0⟩ := shape_head s inner posts hs
  have hlastL := shape_last s inner posts hposts
  rw [hsh] at hlastL
  have hmemR : ')' ∈ h0 :: tl := by
    rw [← hsh]
    exact List.mem_append_right s
      (List.mem_cons_of_mem '(' (List.mem_append_right inner
        (List.mem_cons_self ')' posts)))
  rw [hsh]
  by_cases hq : h0 = '\''
  · subst hq
    refine ⟨"Could not parse as a delimited string.", ?_⟩
    simp only [parse_integer]
    rw [if_pos (by decide)]
    have hex : ('\'' :: tl).getLast? = some (('\'' :: tl).getLast (by simp)) :=
      List.getLast?_eq_getLast _ (by simp)
    have hcond : (('\'' :: tl).length < 2 ||
        ('\'' :: tl).head? ≠ ('\'' :: tl).getLast?) = true := by
      rw [Bool.or_eq_true]
      right
      rw [decide_eq_true_eq]
      intro hcon
      rw [List.head?_cons, hex, Option.some.injEq] at hcon
      rcases hlastL _ hex with h1 | h1 | h1 <;> rw [h1] at hcon <;>
        exact absurd hcon (by decide)
    have hps : parse_string opts ctx ('\'' :: tl) =
        .error (.value "Could not parse as a delimited string.") := by
      unfold parse_string
      rw [if_pos hcond]
    rw [hps]
  · refine ⟨"Malformed numeric text " ++ ⟨h0 :: tl⟩, ?_⟩
    have hh0ns : isSpaceChar h0 = false := by
      rcases hh0 with rfl | rfl | rfl | rfl | rfl <;> decide
    have hlastns : ∀ c, (h0 :: tl).getLast? = some c →
        isSpaceChar c = false := by
      intro c hc
      rcases hlastL c hc with rfl | rfl | rfl <;> decide
    have hstr0 : pyStrip (h0 :: tl) = h0 :: tl := by
      apply pyStrip_of_ends
      · intro c hc
        rw [List.head?_cons, Option.some.injEq] at hc
        rw [← hc]
        exact hh0ns
      · exact hlastns
    apply parse_integer_err_shape opts ctx h0 tl (pyLower (h0 :: tl))
    · rcases hh0 with rfl | rfl | rfl | rfl | rfl <;> decide
    · exact hq
    · exact (pyStrip_pyLower (h0 :: tl)).trans (congrArg pyLower hstr0)
    · simp [pyLower]
    · intro c hc
      rw [show pyLower (h0 :: tl) = h0.toLower :: pyLower tl from rfl,
        List.head?_cons, Option.some.injEq] at hc
      rw [← hc]
      rcases hh0 with rfl | rfl | rfl | rfl | rfl <;>
        exact ⟨by decide, by decide⟩
    · intro c hc
      rw [pyLower_getLast] at hc
      cases hg : (h0 :: tl).getLast? with
      | none => rw [hg] at hc; exact absurd hc (by simp)
      | some g =>
        rw [hg, Option.map_some', Option.some.injEq] at hc
        rw [← hc]
        rcases hlastL g hg with rfl | rfl | rfl <;>
          exact ⟨by decide, by decide, by decide, by decide, by decide,
            by decide⟩
    · refine ⟨')', ?_, by decide⟩
      rw [show pyLower (h0 :: tl) = h0.toLower :: pyLower tl from rfl,
        List.drop_one, List.tail_cons]
      rcases List.mem_cons.mp hmemR with h1 | h1
      · exfalso
        rcases hh0 with rfl | rfl | rfl | rfl | rfl <;>
          exact absurd h1 (by decide)
      · exact List.mem_map.mpr ⟨')', h1, by decide⟩

/-! After a successful dereference parse of `t`, the register, number, and
address parsers each reject `t` with a `ValueError`. -/

theorem deref_shape_register_fails (opts : ParseOptions) (ctx : Context)
    (t s inner posts : List Char)
    (hopts : opts.regPrefixes = [] ∨ opts.regPrefixes = [cs "r"])
    (ht : t ≠ []) (hstrip : pyStrip t = s ++ '(' :: (inner ++ ')' :: posts))
    (hs : ∀ c ∈ s, c = '-' ∨ c = '+' ∨ c = '~' ∨ c = '\'') :
    ∃ m, _parse_register opts ctx t = .error (.value m) := by
  obtain ⟨h0, tl, hsh, hh0⟩ := shape_lower_head s inner posts hs
  have hlow : pyStrip (pyLower t) = h0 :: tl := by
    rw [pyStrip_pyLower, hstrip, hsh]
  refine ⟨"Register specification has an unknown prefix: " ++ ⟨h0 :: tl⟩, ?_⟩
  unfold _parse_register
  rw [if_neg ht]
  dsimp only
  rw [hlow]
  rcases hopts with ho | ho <;> rw [ho]
  · rfl
  · rw [List.find?_cons_of_neg, List.find?_nil]
    rcases hh0 with rfl | rfl | rfl | rfl | rfl <;>
      exact fun hpre => Bool.noConfusion hpre

theorem deref_shape_number_fails (opts : ParseOptions) (ctx : Context)
    (t s inner posts : List Char)
    (ht : t ≠ []) (hstrip : pyStrip t = s ++ '(' :: (inner ++ ')' :: posts))
    (hs : ∀ c ∈ s, c = '-' ∨ c = '+' ∨ c = '~' ∨ c = '\'') :
    ∃ m, _parse_number opts ctx t = .error (.value m) := by
  obtain ⟨h0, tl, hsh, hh0⟩ := shape_head s inner posts hs
  refine ⟨"Malformed numerical value " ++ ⟨t⟩, ?_⟩
  unfold _parse_number
  rw [if_neg ht]
  rw [hstrip, hsh]
  dsimp only
  rw [if_pos (by rcases hh0 with rfl | rfl | rfl | rfl | rfl <;> decide)]

theorem deref_shape_address_fails (opts : ParseOptions) (ctx : Context)
    (t s inner posts : List Char)
    (ht : t ≠ []) (hstrip : pyStrip t = s ++ '(' :: (inner ++ ')' :: posts))
    (hs : ∀ c ∈ s, c = '-' ∨ c = '+' ∨ c = '~' ∨ c = '\'')
    (hposts : ∀ c ∈ posts, c = '+' ∨ c = '-') :
    ∃ m, _parse_address opts ctx t = .error (.value m) := by
  obtain ⟨mi, hint⟩ := parse_integer_shape_err opts ctx s inner posts hs hposts
  obtain ⟨h0, tl, hsh, hh0⟩ := shape_head s inner posts hs
  have hws : isWordStart h0 = false := by
    rcases hh0 with rfl | rfl | rfl | rfl | rfl <;> decide
  have hlabf : ¬ labelFullmatch (s ++ '(' :: (inner ++ ')' :: posts)) = true := by
    intro hcon
    rw [hsh] at hcon
    simp only [labelFullmatch] at hcon
    rw [hws, Bool.false_and] at hcon
    exact Bool.noConfusion hcon
  refine ⟨"Malformed address " ++ ⟨s ++ '(' :: (inner ++ ')' :: posts)⟩, ?_⟩
  unfold _parse_address
  rw [if_neg ht]
  dsimp only
  rw [hstrip, hint]
  dsimp only
  rw [if_pos hlabf]

/-! A number parse that leaves an unresolved label forces the address parser
to reject the token. -/

theorem pyIntBase0_prefix_hash (p1 p2 : Char) (D : List Char)
    (hns : ∀ c ∈ (p1 :: p2 :: '#' :: D), isSpaceChar c = false) :
    pyIntBase0 (p1 :: p2 :: '#' :: D) = none := by
  apply pyIntBase0_none_drop _ '#'
  · rw [pyStrip_eq_self _ hns, List.drop_one, List.tail_cons]
    exact List.mem_cons_of_mem p2 (List.mem_cons_self '#' D)
  · decide

theorem pyIntBase0_head_hash (D : List Char)
    (hns : ∀ c ∈ ('#' :: D), isSpaceChar c = false) :
    pyIntBase0 ('#' :: D) = none :=
  pyIntBase0_none_head ('#' :: D) '#' D (pyStrip_eq_self _ hns) (by decide)
    (by decide) (by decide)

theorem parse_integer_hash (opts : ParseOptions) (ctx : Context)
    (tonumber : List Char) (hlab : labelFullmatch tonumber = true) :
    parse_integer opts ctx ('#' :: tonumber) =
      .error (.value ("Malformed numeric text " ++ ⟨'#' :: tonumber⟩)) := by
  have hword : ∀ c ∈ tonumber, isWordChar c = true := by
    cases tonumber with
    | nil => exact absurd hlab (by decide)
    | cons c1 tn =>
      simp only [labelFullmatch, Bool.and_eq_true] at hlab
      intro c hc
      rcases List.mem_cons.mp hc with rfl | hm
      · exact wordStart_word c hlab.1
      · exact List.all_eq_true.mp hlab.2 c hm
  have hns : ∀ c ∈ ('#' :: tonumber), isSpaceChar c = false := by
    intro c hc
    rcases List.mem_cons.mp hc with rfl | hm
    · decide
    · exact word_not_space c (hword c hm)
  have hnsu : ∀ c ∈ pyLower ('#' :: tonumber), isSpaceChar c = false := by
    intro c hc
    obtain ⟨a, ha, rfl⟩ := List.mem_map.mp hc
    rw [isSpaceChar_toLower]
    exact hns a ha
  simp only [parse_integer]
  rw [if_neg (by decide)]
  rw [pyStrip_eq_self _ hnsu]
  rw [show pyLower ('#' :: tonumber) = '#' :: pyLower tonumber from rfl]
  rw [dollarToSuffix_ne _ (by
    rw [List.head?_cons]
    intro hcon
    rw [Option.some.injEq] at hcon
    exact absurd hcon (by decide))]
  rw [if_neg (List.cons_ne_nil _ _)]
  rw [splitSign_ne _ (by
      rw [List.head?_cons]
      intro hcon
      rw [Option.some.injEq] at hcon
      exact absurd hcon (by decide))
    (by
      rw [List.head?_cons]
      intro hcon
      rw [Option.some.injEq] at hcon
      exact absurd hcon (by decide))]
  simp only [List.nil_append]
  have hnsl : ∀ c ∈ ('#' :: pyLower tonumber), isSpaceChar c = false := by
    rw [show ('#' :: pyLower tonumber) = pyLower ('#' :: tonumber) from rfl]
    exact hnsu
  have hkey : pyIntBase0 (applySuffix ('#' :: pyLower tonumber)) = none := by
    unfold applySuffix
    split
    · rename_i hgl
      cases hX : pyLower tonumber with
      | nil =>
        rw [hX] at hgl
        exact absurd hgl (by decide)
      | cons y ys =>
        rw [hX] at hnsl
        rw [show ('#' :: y :: ys).dropLast = '#' :: (y :: ys).dropLast from rfl]
        rw [show (cs "0x" ++ '#' :: (y :: ys).dropLast : List Char) =
          '0' :: 'x' :: '#' :: (y :: ys).dropLast from rfl]
        apply pyIntBase0_prefix_hash
        intro c hc
        rcases List.mem_cons.mp hc with rfl | hc2
        · decide
        rcases List.mem_cons.mp hc2 with rfl | hc3
        · decide
        rcases List.mem_cons.mp hc3 with rfl | hc4
        · decide
        · exact hnsl c (List.mem_cons_of_mem '#'
            (dropLast_mem (y :: ys) c hc4))
    · rename_i hgl
      cases hX : pyLower tonumber with
      | nil =>
        rw [hX] at hgl
        exact absurd hgl (by decide)
      | cons y ys =>
        rw [hX] at hnsl
        rw [show ('#' :: y :: ys).dropLast = '#' :: (y :: ys).dropLast from rfl]
        rw [show (cs "0b" ++ '#' :: (y :: ys).dropLast : List Char) =
          '0' :: 'b' :: '#' :: (y :: ys).dropLast from rfl]
        apply pyIntBase0_prefix_hash
        intro c hc
        rcases List.mem_cons.mp hc with rfl | hc2
        · decide
        rcases List.mem_cons.mp hc2 with rfl | hc3
        · decide
        rcases List.mem_cons.mp hc3 with rfl | hc4
        · decide
        · exact hnsl c (List.mem_cons_of_mem '#'
            (dropLast_mem (y :: ys) c hc4))
    · rename_i hgl
      cases hX : pyLower tonumber with
      | nil =>
        rw [hX] at hgl
        exact absurd hgl (by decide)
      | cons y ys =>
        rw [hX] at hnsl
        rw [show ('#' :: y :: ys).dropLast = '#' :: (y :: ys).dropLast from rfl]
        rw [show (cs "0o" ++ '#' :: (y :: ys).dropLast : List Char) =
          '0' :: 'o' :: '#' :: (y :: ys).dropLast from rfl]
        apply pyIntBase0_prefix_hash
        intro c hc
        rcases List.mem_cons.mp hc with rfl | hc2
        · decide
        rcases List.mem_cons.mp hc2 with rfl | hc3
        · decide
        rcases List.mem_cons.mp hc3 with rfl | hc4
        · decide
        · exact hnsl c (List.mem_cons_of_mem '#'
            (dropLast_mem (y :: ys) c hc4))
    · rename_i hgl
      cases hX : pyLower tonumber with
      | nil =>
        rw [hX] at hgl
        exact absurd hgl (by decide)
      | cons y ys =>
        rw [hX] at hnsl
        rw [show ('#' :: y :: ys).dropLast = '#' :: (y :: ys).dropLast from rfl]
        rw [show (cs "0o" ++ '#' :: (y :: ys).dropLast : List Char) =
          '0' :: 'o' :: '#' :: (y :: ys).dropLast from rfl]
        apply pyIntBase0_prefix_hash
        intro c hc
        rcases List.mem_cons.mp hc with rfl | hc2
        · decide
        rcases List.mem_cons.mp hc2 with rfl | hc3
        · decide
        rcases List.mem_cons.mp hc3 with rfl | hc4
        · decide
        · exact hnsl c (List.mem_cons_of_mem '#'
            (dropLast_mem (y :: ys) c hc4))
    · rename_i hgl
      cases hX : pyLower tonumber with
      | nil =>
        rw [hX] at hgl
        exact absurd hgl (by decide)
      | cons y ys =>
        rw [hX] at hnsl
        rw [show ('#' :: y :: ys).dropLast = '#' :: (y :: ys).dropLast from rfl]
        apply pyIntBase0_head_hash
        intro c hc
        rcases List.mem_cons.mp hc with rfl | hc2
        · decide
        · exact hnsl c (List.mem_cons_of_mem '#'
            (dropLast_mem (y :: ys) c hc2))
    · exact pyIntBase0_head_hash (pyLower tonumber) hnsl
  rw [hkey]

theorem hash_address_fails (opts : ParseOptions) (ctx : Context)
    (t tonumber : List Char) (ht : t ≠ [])
    (hstrip : pyStrip t = '#' :: tonumber)
    (hlab : labelFullmatch tonumber = true) :
    _parse_address opts ctx t =
      .error (.value ("Malformed address " ++ ⟨'#' :: tonumber⟩)) := by
  unfold _parse_address
  rw [if_neg ht]
  dsimp only
  rw [hstrip, parse_integer_hash opts ctx tonumber hlab]
  dsimp only
  rw [if_pos (by
    intro hcon
    simp only [labelFullmatch] at hcon
    rw [show isWordStart '#' = false from by decide, Bool.false_and] at hcon
    exact Bool.noConfusion hcon)]

/-- Inversion: the only way `_parse_number` can succeed with an `UNPARSED`
result is an unresolved label behind a `#` sigil. -/
theorem number_unparsed_inv (opts : ParseOptions) (ctx : Context)
    (t : List Char) (a : Arg) (h : _parse_number opts ctx t = .ok a)
    (hun : (Ty.inter a.argtype Ty.UNPARSED).isTruthy = true) :
    t ≠ [] ∧ ∃ tonumber, pyStrip t = '#' :: tonumber ∧
      labelFullmatch tonumber = true := by
  unfold _parse_number at h
  split_ifs at h with ht
  refine ⟨ht, ?_⟩
  split at h
  · exact Except.noConfusion h
  · rename_i c tonumber heq
    split at h
    · exact Except.noConfusion h
    · rename_i hc
      rw [not_not] at hc
      subst hc
      split at h
      · rename_i v hpv
        rw [Except.ok.injEq] at h
        rw [← h] at hun
        exact Bool.noConfusion hun
      · rename_i m hpv
        split_ifs at h with hl
        split at h
        · rename_i v hlk
          rw [Except.ok.injEq] at h
          rw [← h] at hun
          exact Bool.noConfusion hun
        · exact ⟨tonumber, heq, hl⟩
      · exact Except.noConfusion h

/-- A successful register parse never carries the `UNPARSED` flag. -/
theorem register_ok_not_unparsed (opts : ParseOptions) (ctx : Context)
    (t : List Char) (a : Arg) (h : _parse_register opts ctx t = .ok a) :
    (Ty.inter a.argtype Ty.UNPARSED).isTruthy = false := by
  unfold _parse_register at h
  split_ifs at h with ht
  dsimp only at h
  split at h
  · exact Except.noConfusion h
  · rename_i p hfind
    split_ifs at h with hre
    · rw [Except.ok.injEq] at h
      rw [← h]
      rfl
    · split at h
      · rename_i v hpi
        rw [Except.ok.injEq] at h
        rw [← h]
        rfl
      · exact Except.noConfusion h

/-- C6: for the parse options the assembler actually uses (no register
prefixes, or the single prefix `r`), `_attempt_several_parses` over the
dereference / register / number / address parser sequence behaves exactly as
specified: it returns the first result that is not `UNPARSED`, falls back to
the final `UNPARSED` result otherwise, and combines the per-parser messages
into one `ValueError` when every parser fails. -/
theorem c6_attempt_parses_order (options : ParseOptions) (ctx : Context)
    (t : List Char)
    (hopts : options.regPrefixes = [] ∨ options.regPrefixes = [cs "r"]) :
    _attempt_several_parses fourParsers options ctx t =
      attemptParsesSpec options ctx t := by
  unfold _attempt_several_parses attemptParsesSpec fourParsers
  cases hd : _parse_deref options ctx t with
  | ok a =>
    by_cases hun : (Ty.inter a.argtype Ty.UNPARSED).isTruthy = true
    · obtain ⟨ht, s, inner, posts, hstrip, hs, hposts⟩ :=
        deref_ok_shape options ctx t a hd
      obtain ⟨m1, hr⟩ :=
        deref_shape_register_fails options ctx t s inner posts hopts ht
          hstrip hs
      obtain ⟨m2, hn⟩ :=
        deref_shape_number_fails options ctx t s inner posts ht hstrip hs
      obtain ⟨m3, ha⟩ :=
        deref_shape_address_fails options ctx t s inner posts ht hstrip hs
          hposts
      simp [attemptGo, attemptSpecGo, hd, hr, hn, ha, hun]
    · rw [Bool.not_eq_true] at hun
      simp [attemptGo, attemptSpecGo, hd, hun]
  | error e =>
    cases e with
    | other s0 => simp [attemptGo, attemptSpecGo, hd]
    | value m1 =>
      cases hr : _parse_register options ctx t with
      | ok a =>
        have hun := register_ok_not_unparsed options ctx t a hr
        simp [attemptGo, attemptSpecGo, hd, hr, hun]
      | error e2 =>
        cases e2 with
        | other s0 => simp [attemptGo, attemptSpecGo, hd, hr]
        | value m2 =>
          cases hn : _parse_number options ctx t with
          | ok a =>
            by_cases hun : (Ty.inter a.argtype Ty.UNPARSED).isTruthy = true
            · obtain ⟨ht, tonumber, hstrip, hlab⟩ :=
                number_unparsed_inv options ctx t a hn hun
              have ha := hash_address_fails options ctx t tonumber ht
                hstrip hlab
              simp [attemptGo, attemptSpecGo, hd, hr, hn, ha, hun]
            · rw [Bool.not_eq_true] at hun
              simp [attemptGo, attemptSpecGo, hd, hr, hn, hun]
          | error e3 =>
            cases e3 with
            | other s0 => simp [attemptGo, attemptSpecGo, hd, hr, hn]
            | value m3 =>
              cases ha : _parse_address options ctx t with
              | ok a =>
                by_cases hun :
                    (Ty.inter a.argtype Ty.UNPARSED).isTruthy = true
                · simp [attemptGo, attemptSpecGo, hd, hr, hn, ha, hun]
                · rw [Bool.not_eq_true] at hun
                  simp [attemptGo, attemptSpecGo, hd, hr, hn, ha, hun]
              | error e4 =>
                cases e4 with
                | other s0 => simp [attemptGo, attemptSpecGo, hd, hr, hn, ha]
                | value m4 => simp [attemptGo, attemptSpecGo, hd, hr, hn, ha]

theorem c6_attempt_parses_order_witness :
    (palmOpts.regPrefixes = [] ∨ palmOpts.regPrefixes = [cs "r"]) ∧
    _attempt_several_parses fourParsers palmOpts ctx0 (cs "(r5)") =
      attemptParsesSpec palmOpts ctx0 (cs "(r5)") :=
  ⟨Or.inr rfl, c6_attempt_parses_order palmOpts ctx0 (cs "(r5)") (Or.inr rfl)⟩

end Tsasm
